import Mathlib

/-
  Verification development for the shared-var library (C++20 header library).

  The embedding models the single-threaded core of the library:
  * `shared::info_t`   (types.hpp)            → `Shared.info_t`
  * `shared::var_map_t` plus the type-erased heap of `std::shared_ptr<void>`
    cells (types.hpp)                         → `Shared.var_map_t`
  * `shared::impl::*`  (impl.hpp)             → definitions in this file with
    the same names
  * `shared::create/bind/unbind/...` (functions.hpp) → same-named definitions

  Modelling conventions:
  * `Key` is instantiated with `Nat` (the C++ code is generic over any
    `std::map`-compatible key type; `Nat` is a legitimate instantiation).
  * Type-erased values are opaque payloads of type `Nat`; the distinct C++
    value types are represented by numeric type tags (`typeid` addresses are
    modelled as `Option Nat`, `none` standing for a null `std::type_info`
    pointer of a value-initialized `info_t`).
  * `std::shared_ptr<void>` storage is modelled by a heap `store` mapping
    cell ids to payloads plus a `next`-fresh-cell counter; a null shared
    pointer is `none`.  Cells are never deallocated (dropping the last
    owner merely leaks a model cell, which is unobservable).
  * `std::map` / `std::set` are sorted association lists / sorted lists, and
    range-for iteration is iteration over those lists in order, reading the
    container once at loop entry (the C++ loops never structurally modify
    the container being iterated in the defined-behaviour cases).
  * C++ references into the map are modelled by re-reading the entry from
    the current map at each use, which is exactly what a live reference
    observes; writes through a reference become point updates of the map.
  * `update_subscribers_var_ptr` writes the new cell address through the
    raw `void **` addresses stored in `pointers_to_var`.  Those addresses
    point into view objects that live outside the registry, so the function
    has no effect on the registry state modelled here; the subscriber sets
    themselves are carried as data.
  * `propagate_group` recurses over the references graph.  The model gives
    it explicit fuel; every call site passes `map length + 1`, which the
    termination theorem below shows is enough for the recursion to have
    stabilized whenever the references sets only mention existing keys.
-/

namespace Shared

/-- Shallow embedding of `shared::info_t` (types.hpp): one type-erased slot
record.  `ptr` is the shared-storage cell id (`none` = null shared pointer),
`type_id` the RTTI tag (`none` = null `std::type_info` pointer), `allocator`
and `copier` identify the per-type function pointers (for slots made by
`create<T>` both are the tag of `T`), `refs` is the `std::set` of directly
linked keys and `pointers_to_var` the `std::set` of subscribed view cells. -/
structure info_t where
  ptr : Option Nat
  group_id : Nat
  key : Nat
  type_id : Option Nat
  allocator : Nat
  copier : Nat
  refs : List Nat
  pointers_to_var : List Nat
deriving DecidableEq, Repr

/-- A value-initialized `info_t`, as produced by `std::map::operator[]` for a
missing key: null pointers, default key `0`, empty sets. -/
def defaultInfo : info_t :=
  { ptr := none, group_id := 0, key := 0, type_id := none,
    allocator := 0, copier := 0, refs := [], pointers_to_var := [] }

/-- The registry: the `std::map<Key, info_t>` (sorted association list)
together with the heap of type-erased storage cells shared through
`std::shared_ptr<void>` and a fresh-cell counter. -/
structure var_map_t where
  map : List (Nat × info_t)
  store : List (Nat × Nat)
  next : Nat
deriving DecidableEq, Repr

/-- Lookup in a sorted association list (`std::map::find`). -/
def alFind {α : Type} : List (Nat × α) → Nat → Option α
  | [], _ => none
  | (k', v) :: t, k => if k = k' then some v else alFind t k

/-- Insert-or-assign in a sorted association list
(`std::map::operator[] = v`). -/
def alSet {α : Type} : List (Nat × α) → Nat → α → List (Nat × α)
  | [], k, v => [(k, v)]
  | (k', v') :: t, k, v =>
    if k < k' then (k, v) :: (k', v') :: t
    else if k = k' then (k, v) :: t
    else (k', v') :: alSet t k v

/-- Erase by key in a sorted association list (`std::map::erase`). -/
def alErase {α : Type} : List (Nat × α) → Nat → List (Nat × α)
  | [], _ => []
  | (k', v') :: t, k => if k = k' then t else (k', v') :: alErase t k

/-- `std::set<Key>::insert` on a sorted list of keys. -/
def sinsert : List Nat → Nat → List Nat
  | [], k => [k]
  | k' :: t, k =>
    if k < k' then k :: k' :: t
    else if k = k' then k' :: t
    else k' :: sinsert t k

/-- `std::set<Key>::erase` on a sorted list of keys. -/
def serase : List Nat → Nat → List Nat
  | [], _ => []
  | k' :: t, k => if k = k' then t else k' :: serase t k

/-- `std::map::find` on the registry. -/
def findInfo (mp : var_map_t) (k : Nat) : Option info_t :=
  alFind mp.map k

/-- Point update of the registry map (a write through a C++ reference to a
map entry). -/
def setInfo (mp : var_map_t) (k : Nat) (i : info_t) : var_map_t :=
  { mp with map := alSet mp.map k i }

/-- `std::map::operator[]`: return the existing entry, or value-initialize
and insert one. -/
def getOrInsert (mp : var_map_t) (k : Nat) : info_t × var_map_t :=
  match alFind mp.map k with
  | some i => (i, mp)
  | none => (defaultInfo, setInfo mp k defaultInfo)

/-- Read a heap cell (dereference of the type-erased storage pointer). -/
def readCell (mp : var_map_t) (c : Nat) : Nat :=
  (alFind mp.store c).getD 0

/-- The value currently readable through slot `k` (dereferencing its
storage cell); `0` models a default-constructed payload. -/
def readSlot (mp : var_map_t) (k : Nat) : Nat :=
  match findInfo mp k with
  | some i =>
    match i.ptr with
    | some c => readCell mp c
    | none => 0
  | none => 0

/-- `shared::impl::allocate_and_notify_subscribers` (impl.hpp) applied to the
slot at map key `k`, with the value pointer argument being the slot's own
current storage (which is how every call site in unbind/detach invokes it):
`info.ptr = info.allocator(info.ptr.get())` makes a fresh cell holding a copy
of the current payload (or a default-constructed payload for a null pointer)
and then notifies the subscribers, whose cells live outside the registry. -/
def allocate_and_notify_subscribers (mp : var_map_t) (k : Nat) : var_map_t :=
  match findInfo mp k with
  | none => mp
  | some i =>
    let payload : Nat :=
      match i.ptr with
      | some c => readCell mp c
      | none => 0
    { map := alSet mp.map k { i with ptr := some mp.next },
      store := alSet mp.store mp.next payload,
      next := mp.next + 1 }

/-- Fuel passed to `propagate_group` at every call site of the model; the
termination theorem shows the recursion has stabilized at this depth when
all references point to existing keys. -/
def fuelOf (mp : var_map_t) : Nat := mp.map.length + 1

/-- `shared::impl::propagate_group` (impl.hpp).  `src` is a C++ reference to
the map entry at `srcKey` (all call sites pass an entry of the map), so the
model re-reads that entry; `mp[key]` for the destination is
`std::map::operator[]`, hence `getOrInsert`.  If the group ids differ, the
destination takes over the source's group id and storage pointer, its
subscribers are notified (external to the registry state), and the flood
continues into the destination's references. -/
def propagate_group : Nat → var_map_t → Nat → Nat → var_map_t
  | 0, mp, _, _ => mp
  | fuel + 1, mp, destKey, srcKey =>
    match alFind mp.map srcKey with
    | none => mp
    | some src =>
      match getOrInsert mp destKey with
      | (dest, mp1) =>
        if src.group_id ≠ dest.group_id then
          let mp2 := setInfo mp1 destKey
            { dest with group_id := src.group_id, ptr := src.ptr }
          dest.refs.foldl (fun r j => propagate_group fuel r j srcKey) mp2
        else mp1

/-- `shared::impl::autopropagate_group` (impl.hpp): flood the group of the
slot at `k` into every one of its references. -/
def autopropagate_group (mp : var_map_t) (k : Nat) : var_map_t :=
  match findInfo mp k with
  | none => mp
  | some i => i.refs.foldl (fun r j => propagate_group (fuelOf r) r j k) mp

/-- `shared::impl::link_vars` (impl.hpp): make the two slots reference each
other.  The C++ takes two references into the map and inserts each entry's
`key` field into the other's `refs`; the model performs the same two writes
sequentially, re-reading the second entry so that aliasing (`k1 = k2`)
behaves exactly like the C++ references. -/
def link_vars (mp : var_map_t) (k1 k2 : Nat) : var_map_t :=
  match alFind mp.map k1, alFind mp.map k2 with
  | some i1, some i2 =>
    let mp1 := setInfo mp k1 { i1 with refs := sinsert i1.refs i2.key }
    match alFind mp1.map k2 with
    | some i2' => setInfo mp1 k2 { i2' with refs := sinsert i2'.refs i1.key }
    | none => mp1
  | _, _ => mp

/-- `shared::impl::make_reference` (impl.hpp): create the slot `refName` as a
pure alias of the slot at `srcKey` — same group id, same storage cell (no
allocation), same type tag, allocator and copier — and link the two slots. -/
def make_reference (mp : var_map_t) (srcKey refName : Nat) : var_map_t :=
  match alFind mp.map srcKey with
  | none => mp
  | some vi =>
    let newInfo : info_t :=
      { ptr := vi.ptr, group_id := vi.group_id, key := refName,
        type_id := vi.type_id, allocator := vi.allocator, copier := vi.copier,
        refs := sinsert [] vi.key, pointers_to_var := [] }
    let mp1 := setInfo mp refName newInfo
    match alFind mp1.map srcKey with
    | some vi' => setInfo mp1 srcKey { vi' with refs := sinsert vi'.refs refName }
    | none => mp1

/-- `shared::impl::detach_nodes` (impl.hpp).  First loop: erase the back-link
to this slot from every referenced slot.  Second loop: every referenced slot
still carrying this slot's (live) group id and not already re-homed gets its
own group, fresh storage holding a copy of its value, and floods the new
identity.  Finally the slot is erased (`should_remove_node`) or moved to a
fresh singleton group.  The loops iterate the reference set as read at entry
(the C++ iterates the live `std::set`, which none of the defined-behaviour
executions modify), and the second loop re-reads this slot's `group_id`
through the live reference. -/
def detach_nodes (mp : var_map_t) (k : Nat) (shouldRemove : Bool) : var_map_t :=
  match findInfo mp k with
  | none => mp
  | some i0 =>
    let mp1 := i0.refs.foldl (fun r refKey =>
      match getOrInsert r refKey with
      | (ref, r1) => setInfo r1 refKey { ref with refs := serase ref.refs i0.key }) mp
    let mp2 := i0.refs.foldl (fun r refKey =>
      match getOrInsert r refKey with
      | (ref, r1) =>
        if ref.group_id = ref.key then r1
        else if ((alFind r1.map k).map info_t.group_id) = some ref.group_id then
          let r2 := setInfo r1 refKey { ref with group_id := ref.key }
          let r3 := allocate_and_notify_subscribers r2 refKey
          autopropagate_group r3 refKey
        else r1) mp1
    if shouldRemove then
      { mp2 with map := alErase mp2.map i0.key }
    else
      match findInfo mp2 k with
      | some j =>
        let mp3 := setInfo mp2 k { j with group_id := j.key }
        let mp4 := allocate_and_notify_subscribers mp3 k
        match findInfo mp4 k with
        | some j2 => setInfo mp4 k { j2 with refs := [] }
        | none => mp4
      | none => mp2

/-- `shared::impl::remove` (impl.hpp): detach and erase. -/
def impl_remove (mp : var_map_t) (k : Nat) : var_map_t :=
  detach_nodes mp k true

/-- The key-absent branch of `shared::create<T>` (functions.hpp): allocate a
fresh reference-counted cell holding the default value, build the record
with `group_id = key`, the tag of `T`, and the default allocator/copier of
`T`, and insert it. -/
def createFresh (t : Nat) (mp : var_map_t) (key v : Nat) : Option Nat × var_map_t :=
  let info : info_t :=
    { ptr := some mp.next, group_id := key, key := key, type_id := some t,
      allocator := t, copier := t, refs := [], pointers_to_var := [] }
  (some key,
    { map := alSet mp.map key info,
      store := alSet mp.store mp.next v,
      next := mp.next + 1 })

/-- `shared::create<T>` (functions.hpp).  `t` is the tag of `T`, `v` the
default value, and the returned handle is the key of the slot the returned
`info_t *` points at (`none` = `nullptr`).  In the overwrite branch the C++
removes the slot and calls `create` again; since `detach_nodes` erases the
key as its final map action, the retry always lands in the key-absent
branch, which the model invokes directly. -/
def create (t : Nat) (mp : var_map_t) (key v : Nat) (overwrite : Bool) :
    Option Nat × var_map_t :=
  match alFind mp.map key with
  | none => createFresh t mp key v
  | some info =>
    if info.type_id = some t then (some key, mp)
    else if overwrite then createFresh t (impl_remove mp key) key v
    else (none, mp)

/-- `shared::bind_t` (functions.hpp): which path `shared::bind` took. -/
inductive bind_t where
  | BIND_FAILED_NONEXISTENT_VAR
  | BIND_FAILED_DIFFERENT_TYPES
  | BIND_CREATED_LHS
  | BIND_CREATED_RHS
  | BIND_PROPAGATED_LHS_GROUP
deriving DecidableEq, Repr

/-- `shared::impl::are_types_equal` (impl.hpp): comparison of the two
`std::type_info` objects. -/
def are_types_equal (i1 i2 : info_t) : Bool :=
  i1.type_id = i2.type_id

/-- `shared::bind` (functions.hpp): connect two variables so they share the
same memory.  Both missing → failure; one missing → create it as a pure
alias of the other; both present with equal types → propagate the left
group over the right group, then link. -/
def bind (mp : var_map_t) (kL kR : Nat) : bind_t × var_map_t :=
  match alFind mp.map kL, alFind mp.map kR with
  | none, none => (bind_t.BIND_FAILED_NONEXISTENT_VAR, mp)
  | none, some _ => (bind_t.BIND_CREATED_LHS, make_reference mp kR kL)
  | some _, none => (bind_t.BIND_CREATED_RHS, make_reference mp kL kR)
  | some iL, some iR =>
    if are_types_equal iL iR then
      let mp1 := propagate_group (fuelOf mp) mp kR kL
      (bind_t.BIND_PROPAGATED_LHS_GROUP, link_vars mp1 kL kR)
    else (bind_t.BIND_FAILED_DIFFERENT_TYPES, mp)

/-- `shared::unbind` (functions.hpp): no-op when a key is missing or when
neither slot references the other; otherwise erase the mutual link and
re-home whichever of the two does not already have `group_id = key`
(preferring the second), giving it fresh storage holding a copy of its
value and flooding the new identity into its remaining references. -/
def unbind (mp : var_map_t) (k1 k2 : Nat) : var_map_t :=
  match alFind mp.map k1, alFind mp.map k2 with
  | some i1, some i2 =>
    if k2 ∈ i1.refs ∨ k1 ∈ i2.refs then
      let mpA := setInfo mp k1 { i1 with refs := serase i1.refs k2 }
      match alFind mpA.map k2 with
      | some i2a =>
        let mpB := setInfo mpA k2 { i2a with refs := serase i2a.refs k1 }
        match alFind mpB.map k2, alFind mpB.map k1 with
        | some j2, some j1 =>
          if j2.group_id ≠ j2.key then
            let mpC := setInfo mpB k2 { j2 with group_id := j2.key }
            let mpD := allocate_and_notify_subscribers mpC k2
            autopropagate_group mpD k2
          else
            let mpC := setInfo mpB k1 { j1 with group_id := j1.key }
            let mpD := allocate_and_notify_subscribers mpC k1
            autopropagate_group mpD k1
        | _, _ => mpB
      | none => mpA
    else mp
  | _, _ => mp

/-- `shared::unbind_all` (functions.hpp): every slot becomes its own
singleton group with fresh storage holding a copy of its value. -/
def unbind_all (mp : var_map_t) : var_map_t :=
  (mp.map.map Prod.fst).foldl (fun r k =>
    match findInfo r k with
    | some i =>
      let r1 := setInfo r k { i with group_id := i.key }
      let r2 := allocate_and_notify_subscribers r1 k
      match findInfo r2 k with
      | some i2 => setInfo r2 k { i2 with refs := [] }
      | none => r2
    | none => r) mp

/-- `shared::remove` (functions.hpp): delete a variable and remove its
references from other variables. -/
def remove (mp : var_map_t) (key : Nat) : var_map_t :=
  match alFind mp.map key with
  | some _ => impl_remove mp key
  | none => mp

/-- `shared::remove_all` (functions.hpp): `mp.clear()`. -/
def remove_all (mp : var_map_t) : var_map_t :=
  { mp with map := [] }

/-- `shared::isolate` (functions.hpp): break all links with other vars. -/
def isolate (mp : var_map_t) (key : Nat) : var_map_t :=
  match alFind mp.map key with
  | some _ => detach_nodes mp key false
  | none => mp

/-- `shared::get_ptr<T>` (functions.hpp): find the slot and return
`reinterpret_cast<T *>` of its raw storage pointer.  The source performs no
type check — the tag `t` of `T` only appears in the cast — so a present key
yields the slot's storage cell whatever the stored type is, and `nullptr`
is returned only for a missing key (or a slot whose storage pointer is
itself null). -/
def get_ptr (t : Nat) (mp : var_map_t) (k : Nat) : Option Nat :=
  match alFind mp.map k with
  | some i => i.ptr
  | none => none

/-- `shared::get<T>` (functions.hpp): copy of the value behind
`get_ptr<T>`, or a default-constructed `T` (payload `0`) when that pointer
is null. -/
def get (t : Nat) (mp : var_map_t) (k : Nat) : Nat :=
  match get_ptr t mp k with
  | some c => readCell mp c
  | none => 0

/-- `shared::set<T>` (functions.hpp): assign through `get_ptr<T>` when it is
non-null, otherwise do nothing. -/
def set (t : Nat) (mp : var_map_t) (k v : Nat) : var_map_t :=
  match get_ptr t mp k with
  | some c => { mp with store := alSet mp.store c v }
  | none => mp

/-! ### Derived notions used by the specification statements -/

/-- The directed references relation of a registry: `y` is listed in the
`refs` set of the slot stored at key `x`. -/
def edgeOf (mp : var_map_t) (x y : Nat) : Prop :=
  ∃ i, alFind mp.map x = some i ∧ y ∈ i.refs

/-- Transitive reachability over `refs` (the spec's notion of group
membership by traversal). -/
def Reach (mp : var_map_t) (a b : Nat) : Prop :=
  Relation.ReflTransGen (edgeOf mp) a b

/-- The references relation of a registry with the single undirected link
`{a, b}` removed — the graph `unbind a b` leaves behind. -/
def edgeCut (mp : var_map_t) (a b : Nat) (x y : Nat) : Prop :=
  edgeOf mp x y ∧ ¬(x = a ∧ y = b) ∧ ¬(x = b ∧ y = a)

/-- Reachability avoiding the link `{a, b}`. -/
def ReachCut (mp : var_map_t) (a b : Nat) (x y : Nat) : Prop :=
  Relation.ReflTransGen (edgeCut mp a b) x y

/-- The update `propagate_group` applies to each flooded slot: group id and
storage pointer are taken from the source. -/
def rwInfo (gs : Nat) (ps : Option Nat) (i : info_t) : info_t :=
  { i with group_id := gs, ptr := ps }

/-- Rewrite every slot whose key lies in `V` with the source identity
`(gs, ps)`; the shape of every intermediate and final state of a flood. -/
def rewriteOn (gs : Nat) (ps : Option Nat) (V : Finset Nat) (mp : var_map_t) : var_map_t :=
  { mp with map := mp.map.map (fun e => if e.1 ∈ V then (e.1, rwInfo gs ps e.2) else e) }

/-- The slot at `y` already carries the source group id, so the flood's
cycle guard stops there. -/
def Blocked (mp : var_map_t) (gs : Nat) (y : Nat) : Prop :=
  ∃ iy, alFind mp.map y = some iy ∧ iy.group_id = gs

/-- Number of slots whose group id differs from `gs`: the measure the
flood's cycle guard strictly decreases. -/
def mismCount (mp : var_map_t) (gs : Nat) : Nat :=
  (mp.map.filter (fun e => e.2.group_id ≠ gs)).length

/-- Entry-wise effect of a flood with source identity `(gs, ps)`: an entry
is either untouched or, when its group id differed from `gs`, rewritten. -/
def rwRel (gs : Nat) (ps : Option Nat) (e e' : Nat × info_t) : Prop :=
  e' = e ∨ (e.2.group_id ≠ gs ∧ e' = (e.1, rwInfo gs ps e.2))

/-- What a flood with source identity `(gs, ps)` may do to a registry:
store, counter and key sequence are untouched, and every slot is either
left alone or — when its group id differed from `gs` — rewritten to carry
`(gs, ps)`. -/
def PropEffect (gs : Nat) (ps : Option Nat) (mp mp' : var_map_t) : Prop :=
  mp'.store = mp.store ∧ mp'.next = mp.next ∧
  List.Forall₂ (rwRel gs ps) mp.map mp'.map

/-- Keys of an association list with sorted (strictly increasing) keys. -/
def SortedAL {α : Type} (l : List (Nat × α)) : Prop :=
  l.Pairwise (fun a b => a.1 < b.1)

/-! ### Well-formedness predicates for registries -/

/-- The registry map has strictly increasing keys (always true of a
`std::map`). -/
def SortedMap (mp : var_map_t) : Prop := SortedAL mp.map

/-- Every record's `key` field agrees with the map key it is stored under. -/
def KeyCons (mp : var_map_t) : Prop := ∀ e ∈ mp.map, (e : Nat × info_t).2.key = e.1

/-- Every reference names an existing slot. -/
def Closed (mp : var_map_t) : Prop :=
  ∀ e ∈ mp.map, ∀ j ∈ (e : Nat × info_t).2.refs, j ∈ mp.map.map Prod.fst

/-- The references relation is symmetric (spec §3 invariant 1). -/
def Symm (mp : var_map_t) : Prop :=
  ∀ e ∈ mp.map, ∀ e2 ∈ mp.map,
    ((e2 : Nat × info_t).1 ∈ (e : Nat × info_t).2.refs ↔ e.1 ∈ e2.2.refs)

/-- Every reference set is a strictly sorted (hence duplicate-free) list
(always true of a `std::set`). -/
def RefsOrdered (mp : var_map_t) : Prop :=
  ∀ e ∈ mp.map, (e : Nat × info_t).2.refs.Pairwise (· < ·)

/-- Every storage cell in use was allocated below the fresh counter. -/
def PtrBound (mp : var_map_t) : Prop :=
  ∀ e ∈ mp.map, (e : Nat × info_t).2.ptr.all (fun c => c < mp.next) = true

/-- Structural well-formedness of a registry: what every registry reachable
through the library API satisfies. -/
def WF (mp : var_map_t) : Prop :=
  SortedMap mp ∧ KeyCons mp ∧ Closed mp ∧ Symm mp ∧ RefsOrdered mp

instance (mp : var_map_t) : Decidable (SortedMap mp) := by
  unfold SortedMap SortedAL
  infer_instance

instance (mp : var_map_t) : Decidable (KeyCons mp) := by
  unfold KeyCons
  infer_instance

instance (mp : var_map_t) : Decidable (Closed mp) := by
  unfold Closed
  infer_instance

instance (mp : var_map_t) : Decidable (Symm mp) := by
  unfold Symm
  infer_instance

instance (mp : var_map_t) : Decidable (RefsOrdered mp) := by
  unfold RefsOrdered
  infer_instance

instance (mp : var_map_t) : Decidable (PtrBound mp) := by
  unfold PtrBound
  infer_instance

instance (mp : var_map_t) : Decidable (WF mp) := by
  unfold WF
  infer_instance

/-! ### Concrete registries used as evaluation inputs -/

/-- The empty registry. -/
def emptyReg : var_map_t := ⟨[], [], 0⟩

/-- One slot `1` created with type tag `0` holding payload `5`. -/
def oneSlot : var_map_t := (create 0 emptyReg 1 5 false).2

/-- The record stored at key `1` of `oneSlot`. -/
def oneSlotInfo : info_t :=
  { ptr := some 0, group_id := 1, key := 1, type_id := some 0,
    allocator := 0, copier := 0, refs := [], pointers_to_var := [] }

/-- Scenario A of the spec: `create(R,"A1",0.1)`, `create(R,"A2",0.0)` with
`"A1" = 1`, `"A2" = 2` and the payload of `0.1` encoded as `100`. -/
def scenarioA : var_map_t := (create 0 (create 0 emptyReg 1 100 false).2 2 0 false).2

/-- A hand-built registry with an asymmetric link: slot `1` lists `2` in its
references but not conversely (a state the API never produces, used to probe
`unbind`'s tolerance). -/
def asymReg : var_map_t :=
  ⟨[(1, { ptr := some 0, group_id := 1, key := 1, type_id := some 0,
          allocator := 0, copier := 0, refs := [2], pointers_to_var := [] }),
    (2, { ptr := some 0, group_id := 1, key := 2, type_id := some 0,
          allocator := 0, copier := 0, refs := [], pointers_to_var := [] })],
   [(0, 7)], 1⟩

/-- A three-slot registry whose references graph is a cycle
`1 – 2 – 3 – 1`, each slot still in its own group: input for the
termination theorem of the flood (the cycle guard must stop it). -/
def cycleReg : var_map_t :=
  ⟨[(1, { ptr := some 0, group_id := 1, key := 1, type_id := some 0,
          allocator := 0, copier := 0, refs := [2, 3], pointers_to_var := [] }),
    (2, { ptr := some 1, group_id := 2, key := 2, type_id := some 0,
          allocator := 0, copier := 0, refs := [1, 3], pointers_to_var := [] }),
    (3, { ptr := some 2, group_id := 3, key := 3, type_id := some 0,
          allocator := 0, copier := 0, refs := [1, 2], pointers_to_var := [] })],
   [(0, 1), (1, 2), (2, 3)], 3⟩

/-- Two slots `1`, `2` sharing group `1` and cell `0` (value `42`), mutually
linked — the registry `bind 1 2` produces from two fresh slots. -/
def pairReg : var_map_t :=
  ⟨[(1, { ptr := some 0, group_id := 1, key := 1, type_id := some 0,
          allocator := 0, copier := 0, refs := [2], pointers_to_var := [] }),
    (2, { ptr := some 0, group_id := 1, key := 2, type_id := some 0,
          allocator := 0, copier := 0, refs := [1], pointers_to_var := [] })],
   [(0, 42), (1, 0)], 2⟩

/-! ### Association-list lemmas -/

theorem alFind_cons {α : Type} (a : Nat) (b : α) (t : List (Nat × α)) (k : Nat) :
    alFind ((a, b) :: t) k = if k = a then some b else alFind t k := rfl

theorem alFind_alSet {α : Type} (l : List (Nat × α)) (k : Nat) (v : α) (k2 : Nat) :
    alFind (alSet l k v) k2 = if k2 = k then some v else alFind l k2 := by
  induction l with
  | nil => by_cases h : k2 = k <;> simp [alSet, alFind, h]
  | cons e t ih =>
    obtain ⟨k', v'⟩ := e
    simp only [alSet]
    by_cases h1 : k < k'
    · rw [if_pos h1]
      by_cases h : k2 = k <;> simp [alFind_cons, h]
    · rw [if_neg h1]
      by_cases h2 : k = k'
      · subst h2
        rw [if_pos rfl]
        by_cases h : k2 = k <;> simp [alFind_cons, h]
      · rw [if_neg h2]
        by_cases h3 : k2 = k'
        · subst h3
          have hk : k2 ≠ k := fun hc => h2 hc.symm
          simp [alFind_cons, hk]
        · simp [alFind_cons, h3, ih]

theorem mem_keys_alSet {α : Type} (l : List (Nat × α)) (k : Nat) (v : α) (a : Nat) :
    a ∈ (alSet l k v).map Prod.fst ↔ a = k ∨ a ∈ l.map Prod.fst := by
  induction l with
  | nil => simp [alSet]
  | cons e t ih =>
    obtain ⟨k', v'⟩ := e
    simp only [alSet]
    by_cases h1 : k < k'
    · rw [if_pos h1]
      simp only [List.map_cons, List.mem_cons]
    · rw [if_neg h1]
      by_cases h2 : k = k'
      · subst h2
        rw [if_pos rfl]
        simp only [List.map_cons, List.mem_cons]
        tauto
      · rw [if_neg h2]
        simp only [List.map_cons, List.mem_cons, ih]
        tauto

theorem alFind_eq_none_iff {α : Type} (l : List (Nat × α)) (k : Nat) :
    alFind l k = none ↔ k ∉ l.map Prod.fst := by
  induction l with
  | nil => simp [alFind]
  | cons e t ih =>
    obtain ⟨k', v'⟩ := e
    by_cases h : k = k' <;> simp [alFind, h, ih]

theorem alFind_isSome_iff {α : Type} (l : List (Nat × α)) (k : Nat) :
    (alFind l k).isSome = true ↔ k ∈ l.map Prod.fst := by
  rw [Option.isSome_iff_ne_none, ne_eq, alFind_eq_none_iff]
  tauto

theorem alFind_mem {α : Type} {l : List (Nat × α)} {k : Nat} {v : α}
    (h : alFind l k = some v) : (k, v) ∈ l := by
  induction l with
  | nil => simp [alFind] at h
  | cons e t ih =>
    obtain ⟨k', v'⟩ := e
    by_cases hk : k = k'
    · subst hk
      simp [alFind] at h
      simp [h]
    · simp [alFind, hk] at h
      simp [ih h]

theorem SortedAL.keysNodup {α : Type} {l : List (Nat × α)} (h : SortedAL l) :
    (l.map Prod.fst).Nodup := by
  rw [List.Nodup, List.pairwise_map]
  exact h.imp (by omega)

theorem alFind_of_mem {α : Type} {l : List (Nat × α)} (hs : SortedAL l) {k : Nat} {v : α}
    (h : (k, v) ∈ l) : alFind l k = some v := by
  induction l with
  | nil => simp at h
  | cons e t ih =>
    obtain ⟨k', v'⟩ := e
    rw [SortedAL, List.pairwise_cons] at hs
    rcases List.mem_cons.mp h with h1 | h2
    · rw [Prod.mk.injEq] at h1
      rw [alFind_cons, if_pos h1.1, h1.2]
    · have hk : k ≠ k' := by
        intro hc
        subst hc
        have := hs.1 _ h2
        simp at this
      rw [alFind_cons, if_neg hk]
      exact ih hs.2 h2

theorem alSet_sorted {α : Type} {l : List (Nat × α)} (hs : SortedAL l) (k : Nat) (v : α) :
    SortedAL (alSet l k v) := by
  induction l with
  | nil => simp [alSet, SortedAL]
  | cons e t ih =>
    obtain ⟨k', v'⟩ := e
    rw [SortedAL, List.pairwise_cons] at hs
    simp only [alSet]
    by_cases h1 : k < k'
    · rw [if_pos h1]
      refine List.Pairwise.cons ?_ (List.Pairwise.cons hs.1 hs.2)
      intro e' he'
      rcases List.mem_cons.mp he' with h | h
      · simp [h, h1]
      · exact lt_trans h1 (hs.1 _ h)
    · rw [if_neg h1]
      by_cases h2 : k = k'
      · subst h2
        rw [if_pos rfl]
        exact List.Pairwise.cons hs.1 hs.2
      · rw [if_neg h2]
        refine List.Pairwise.cons ?_ (ih hs.2)
        intro e' he'
        rcases (mem_keys_alSet t k v e'.1).mp (List.mem_map_of_mem Prod.fst he') with h | h
        · simp only [h]
          omega
        · obtain ⟨e'', he'', heq⟩ := List.mem_map.mp h
          have := hs.1 _ he''
          omega

theorem keys_alSet_of_found {α : Type} {l : List (Nat × α)} (hs : SortedAL l) {k : Nat}
    (hf : (alFind l k).isSome = true) (v : α) :
    (alSet l k v).map Prod.fst = l.map Prod.fst := by
  induction l with
  | nil => simp [alFind] at hf
  | cons e t ih =>
    obtain ⟨k', v'⟩ := e
    rw [SortedAL, List.pairwise_cons] at hs
    simp only [alSet]
    by_cases h2 : k = k'
    · subst h2
      rw [if_neg (lt_irrefl k), if_pos rfl]
      simp
    · have hf2 : (alFind t k).isSome = true := by
        rw [alFind_cons, if_neg h2] at hf
        exact hf
      have h1 : ¬ k < k' := by
        intro hlt
        rw [alFind_isSome_iff] at hf2
        obtain ⟨e'', he'', heq⟩ := List.mem_map.mp hf2
        have := hs.1 _ he''
        omega
      rw [if_neg h1, if_neg h2]
      simp [ih hs.2 hf2]

theorem alErase_sublist {α : Type} (l : List (Nat × α)) (k : Nat) :
    List.Sublist (alErase l k) l := by
  induction l with
  | nil => simp [alErase]
  | cons e t ih =>
    obtain ⟨k', v'⟩ := e
    by_cases h : k = k'
    · simp [alErase, h]
    · simp only [alErase, if_neg h]
      exact ih.cons₂ _

theorem alErase_sorted {α : Type} {l : List (Nat × α)} (hs : SortedAL l) (k : Nat) :
    SortedAL (alErase l k) :=
  hs.sublist (alErase_sublist l k)

theorem alFind_alErase {α : Type} {l : List (Nat × α)} (hs : SortedAL l) (k k2 : Nat) :
    alFind (alErase l k) k2 = if k2 = k then none else alFind l k2 := by
  induction l with
  | nil => by_cases h : k2 = k <;> simp [alErase, alFind, h]
  | cons e t ih =>
    obtain ⟨k', v'⟩ := e
    rw [SortedAL, List.pairwise_cons] at hs
    simp only [alErase]
    by_cases h : k = k'
    · subst h
      rw [if_pos rfl]
      by_cases h2 : k2 = k
      · subst h2
        rw [if_pos rfl, alFind_eq_none_iff]
        intro hmem
        obtain ⟨e'', he'', heq⟩ := List.mem_map.mp hmem
        have := hs.1 _ he''
        omega
      · rw [if_neg h2, alFind_cons, if_neg h2]
    · rw [if_neg h]
      by_cases h2 : k2 = k'
      · subst h2
        have h3 : k2 ≠ k := fun hc => h hc.symm
        rw [alFind_cons, if_pos rfl, if_neg h3, alFind_cons, if_pos rfl]
      · rw [alFind_cons, if_neg h2, ih hs.2]
        by_cases h3 : k2 = k
        · rw [if_pos h3, if_pos h3]
        · rw [if_neg h3, if_neg h3, alFind_cons, if_neg h2]

theorem keys_alErase {α : Type} {l : List (Nat × α)} (hs : SortedAL l) (k : Nat) :
    (alErase l k).map Prod.fst = (l.map Prod.fst).filter (fun a => a ≠ k) := by
  induction l with
  | nil => simp [alErase]
  | cons e t ih =>
    obtain ⟨k', v'⟩ := e
    rw [SortedAL, List.pairwise_cons] at hs
    simp only [alErase]
    by_cases h : k = k'
    · subst h
      rw [if_pos rfl]
      simp only [List.map_cons, List.filter_cons]
      rw [if_neg (by simp)]
      rw [List.filter_eq_self.mpr]
      intro a ha
      obtain ⟨e'', he'', heq⟩ := List.mem_map.mp ha
      have := hs.1 _ he''
      simp only [decide_eq_true_eq]
      omega
    · have hne : (k' ≠ k) := fun hc => h hc.symm
      rw [if_neg h]
      simp only [List.map_cons, List.filter_cons]
      rw [if_pos (by simpa using hne)]
      rw [ih hs.2]

/-! ### Sorted-set (`std::set<Key>`) lemmas -/

theorem mem_sinsert (l : List Nat) (k a : Nat) :
    a ∈ sinsert l k ↔ a = k ∨ a ∈ l := by
  induction l with
  | nil => simp [sinsert]
  | cons k' t ih =>
    simp only [sinsert]
    by_cases h1 : k < k'
    · rw [if_pos h1]
      simp only [List.mem_cons]
    · rw [if_neg h1]
      by_cases h2 : k = k'
      · subst h2
        rw [if_pos rfl]
        simp only [List.mem_cons]
        tauto
      · rw [if_neg h2]
        simp only [List.mem_cons, ih]
        tauto

theorem sinsert_sorted {l : List Nat} (hs : l.Pairwise (· < ·)) (k : Nat) :
    (sinsert l k).Pairwise (· < ·) := by
  induction l with
  | nil => simp [sinsert]
  | cons k' t ih =>
    rw [List.pairwise_cons] at hs
    simp only [sinsert]
    by_cases h1 : k < k'
    · rw [if_pos h1]
      refine List.Pairwise.cons ?_ (List.Pairwise.cons hs.1 hs.2)
      intro a ha
      rcases List.mem_cons.mp ha with h | h
      · omega
      · have := hs.1 _ h
        omega
    · rw [if_neg h1]
      by_cases h2 : k = k'
      · subst h2
        rw [if_pos rfl]
        exact List.Pairwise.cons hs.1 hs.2
      · rw [if_neg h2]
        refine List.Pairwise.cons ?_ (ih hs.2)
        intro a ha
        rcases (mem_sinsert t k a).mp ha with h | h
        · omega
        · exact hs.1 _ h

theorem serase_sublist (l : List Nat) (k : Nat) : List.Sublist (serase l k) l := by
  induction l with
  | nil => simp [serase]
  | cons k' t ih =>
    by_cases h : k = k'
    · simp [serase, h]
    · simp only [serase, if_neg h]
      exact ih.cons₂ _

theorem serase_sorted {l : List Nat} (hs : l.Pairwise (· < ·)) (k : Nat) :
    (serase l k).Pairwise (· < ·) :=
  hs.sublist (serase_sublist l k)

theorem mem_serase {l : List Nat} (hn : l.Nodup) (k a : Nat) :
    a ∈ serase l k ↔ a ∈ l ∧ a ≠ k := by
  induction l with
  | nil => simp [serase]
  | cons k' t ih =>
    rw [List.nodup_cons] at hn
    simp only [serase]
    by_cases h : k = k'
    · subst h
      rw [if_pos rfl]
      constructor
      · intro ha
        refine ⟨List.mem_cons_of_mem _ ha, ?_⟩
        rintro rfl
        exact hn.1 ha
      · rintro ⟨h1, h2⟩
        rcases List.mem_cons.mp h1 with h3 | h3
        · exact absurd h3 h2
        · exact h3
    · rw [if_neg h]
      constructor
      · intro ha
        rcases List.mem_cons.mp ha with h3 | h3
        · subst h3
          exact ⟨List.mem_cons_self _ _, fun hc => h hc.symm⟩
        · obtain ⟨h4, h5⟩ := (ih hn.2).mp h3
          exact ⟨List.mem_cons_of_mem _ h4, h5⟩
      · rintro ⟨h1, h2⟩
        rcases List.mem_cons.mp h1 with h3 | h3
        · exact h3 ▸ List.mem_cons_self _ _
        · exact List.mem_cons_of_mem _ ((ih hn.2).mpr ⟨h3, h2⟩)

theorem mem_of_mem_serase {l : List Nat} {k a : Nat} (h : a ∈ serase l k) : a ∈ l :=
  (serase_sublist l k).mem h

/-! ### Well-formedness lemmas -/

theorem WF.toSortedMap {mp : var_map_t} (h : WF mp) : SortedMap mp := h.1
theorem WF.toKeyCons {mp : var_map_t} (h : WF mp) : KeyCons mp := h.2.1
theorem WF.toClosed {mp : var_map_t} (h : WF mp) : Closed mp := h.2.2.1
theorem WF.toSymm {mp : var_map_t} (h : WF mp) : Symm mp := h.2.2.2.1
theorem WF.toRefsOrdered {mp : var_map_t} (h : WF mp) : RefsOrdered mp := h.2.2.2.2

theorem KeyCons.find_key {mp : var_map_t} (h : KeyCons mp) {k : Nat} {i : info_t}
    (hf : alFind mp.map k = some i) : i.key = k :=
  h (k, i) (alFind_mem hf)

theorem Closed.find_refs {mp : var_map_t} (h : Closed mp) {k : Nat} {i : info_t}
    (hf : alFind mp.map k = some i) : ∀ j ∈ i.refs, j ∈ mp.map.map Prod.fst :=
  h (k, i) (alFind_mem hf)

theorem Symm.find_pair {mp : var_map_t} (h : Symm mp) {a b : Nat} {ia ib : info_t}
    (hfa : alFind mp.map a = some ia) (hfb : alFind mp.map b = some ib) :
    b ∈ ia.refs ↔ a ∈ ib.refs :=
  h (a, ia) (alFind_mem hfa) (b, ib) (alFind_mem hfb)

theorem RefsOrdered.find_sorted {mp : var_map_t} (h : RefsOrdered mp) {k : Nat} {i : info_t}
    (hf : alFind mp.map k = some i) : i.refs.Pairwise (· < ·) :=
  h (k, i) (alFind_mem hf)

theorem PtrBound.find_bound {mp : var_map_t} (h : PtrBound mp) {k : Nat} {i : info_t}
    (hf : alFind mp.map k = some i) {c : Nat} (hc : i.ptr = some c) : c < mp.next := by
  have := h (k, i) (alFind_mem hf)
  rw [hc] at this
  simpa using this

/-! ### Small computation lemmas -/

theorem alSet_alSet {α : Type} (l : List (Nat × α)) (k : Nat) (v1 v2 : α) :
    alSet (alSet l k v1) k v2 = alSet l k v2 := by
  induction l with
  | nil => simp [alSet, lt_irrefl]
  | cons e t ih =>
    obtain ⟨k', v'⟩ := e
    by_cases h1 : k < k'
    · simp [alSet, h1, lt_irrefl]
    · by_cases h2 : k = k'
      · subst h2
        simp [alSet, h1, lt_irrefl]
      · simp [alSet, h1, h2, ih]

theorem sinsert_of_mem {l : List Nat} (hs : l.Pairwise (· < ·)) {a : Nat} (h : a ∈ l) :
    sinsert l a = l := by
  induction l with
  | nil => simp at h
  | cons k' t ih =>
    rw [List.pairwise_cons] at hs
    rcases List.mem_cons.mp h with h1 | h2
    · subst h1
      simp [sinsert, lt_irrefl]
    · have hlt : k' < a := hs.1 _ h2
      have hna : ¬ a < k' := by omega
      have hne : a ≠ k' := by omega
      simp [sinsert, hna, hne, ih hs.2 h2]

theorem propagate_group_self {mp : var_map_t} {k : Nat} {i : info_t}
    (h : alFind mp.map k = some i) : ∀ f, propagate_group f mp k k = mp := by
  intro f
  cases f with
  | zero => rfl
  | succ n => simp [propagate_group, h, getOrInsert]

/-! ### Claim C1: typed access on a type-mismatched key -/

/-- C1, counterexample.  The claim says that on a slot created with tag `0`,
`get_ptr` at a different tag `1` returns null, `get` at tag `1` returns a
default-constructed value and `set` at tag `1` changes nothing.  On the
one-slot registry built by `create`, all three parts fail: `get_ptr` has no
type check in the source, so it hands out the raw storage pointer, `get`
reads the stored payload `5` through it, and `set` overwrites the stored
payload in place. -/
theorem C1_counterexample :
    ¬ (get_ptr 1 oneSlot 1 = none ∧ get 1 oneSlot 1 = 0 ∧ set 1 oneSlot 1 9 = oneSlot) := by
  decide

/-- C1, amended claim: `get_ptr<T>(mp, k)` performs no type check — the
requested type only appears in the `reinterpret_cast` — so it returns null
exactly when the key is absent (or the stored pointer itself is null) and
otherwise returns the slot's raw storage pointer for every requested tag
alike; `get<T>` then copies whatever payload that cell holds, and `set<T>`
assigns through the raw pointer, regardless of the tag the slot was created
with. -/
theorem C1_corrected : ∀ (t1 t2 : Nat) (mp : var_map_t) (k v : Nat),
    (alFind mp.map k = none →
      get_ptr t1 mp k = none ∧ get t1 mp k = 0 ∧ set t1 mp k v = mp) ∧
    (∀ i, alFind mp.map k = some i →
      get_ptr t1 mp k = i.ptr ∧
      get_ptr t1 mp k = get_ptr t2 mp k ∧
      (∀ c, i.ptr = some c →
        get t1 mp k = readCell mp c ∧
        set t1 mp k v = { mp with store := alSet mp.store c v })) := by
  intro t1 t2 mp k v
  constructor
  · intro h
    simp [get_ptr, get, set, h]
  · intro i h
    refine ⟨by simp [get_ptr, h], by simp [get_ptr, h], ?_⟩
    intro c hc
    constructor
    · simp [get, get_ptr, h, hc]
    · simp [set, get_ptr, h, hc]

/-- Witness for `C1_corrected` at the one-slot registry: the slot was
created with tag `0`, is read and written through tag `1`, and the accesses
hit its raw cell `0`. -/
theorem C1_corrected_witness :
    get_ptr 1 oneSlot 1 = oneSlotInfo.ptr ∧
    get 1 oneSlot 1 = readCell oneSlot 0 ∧
    set 1 oneSlot 1 9 = { oneSlot with store := alSet oneSlot.store 0 9 } := by
  have h := (C1_corrected 1 2 oneSlot 1 9).2 oneSlotInfo (by decide)
  exact ⟨h.1, (h.2.2 0 (by decide)).1, (h.2.2 0 (by decide)).2⟩

/-! ### Claim C8: `create` is idempotent on a type-matched key -/

/-- C8: when the key exists and its stored tag matches the requested tag,
`create` returns the handle of the existing slot and the registry — every
slot's value, group id, storage handle, references and subscribers — is
completely unchanged; the supplied default value and the overwrite flag are
ignored. -/
theorem C8_create_idempotent : ∀ (t : Nat) (mp : var_map_t) (k v : Nat) (ow : Bool)
    (i : info_t), alFind mp.map k = some i → i.type_id = some t →
    create t mp k v ow = (some k, mp) := by
  intro t mp k v ow i h ht
  simp [create, h, ht]

/-- Witness for `C8_create_idempotent`: re-creating slot `1` of the one-slot
registry with a different value and `overwrite = true` returns the existing
handle and leaves the registry untouched. -/
theorem C8_create_idempotent_witness :
    create 0 oneSlot 1 99 true = (some 1, oneSlot) :=
  C8_create_idempotent 0 oneSlot 1 99 true oneSlotInfo (by decide) (by decide)

/-! ### Claim C10: self-bind -/

/-- C10: `bind mp k k` on an existing slot returns
`BIND_PROPAGATED_LHS_GROUP` (Merged) and its only effect is inserting `k`
into the slot's own references — a self-loop; the group id, storage pointer
and every other field, the store and the allocation counter are unchanged
(the propagation is a no-op because source and destination are the same
record).  On a missing key both lookups fail and
`BIND_FAILED_NONEXISTENT_VAR` is returned with the registry unchanged. -/
theorem C10_self_bind : ∀ (mp : var_map_t) (k : Nat),
    (∀ i, alFind mp.map k = some i → i.key = k → i.refs.Pairwise (· < ·) →
      bind mp k k =
        (bind_t.BIND_PROPAGATED_LHS_GROUP,
          setInfo mp k { i with refs := sinsert i.refs k }) ∧
      k ∈ sinsert i.refs k) ∧
    (alFind mp.map k = none →
      bind mp k k = (bind_t.BIND_FAILED_NONEXISTENT_VAR, mp)) := by
  intro mp k
  constructor
  · intro i h hkey hsort
    refine ⟨?_, (mem_sinsert i.refs k k).mpr (Or.inl rfl)⟩
    have hprop := propagate_group_self h (fuelOf mp)
    simp only [bind, h, are_types_equal, decide_eq_true_eq, if_pos rfl, hprop]
    have hfind1 : alFind (setInfo mp k { i with refs := sinsert i.refs i.key }).map k
        = some { i with refs := sinsert i.refs i.key } := by
      simp [setInfo, alFind_alSet]
    simp only [link_vars, h, hfind1]
    have hmem : i.key ∈ sinsert i.refs i.key := (mem_sinsert _ _ _).mpr (Or.inl rfl)
    have hidem : sinsert (sinsert i.refs i.key) i.key = sinsert i.refs i.key :=
      sinsert_of_mem (sinsert_sorted hsort i.key) hmem
    rw [hkey] at hidem
    simp [setInfo, alSet_alSet, hidem, hkey]
  · intro h
    simp [bind, h]

/-- Witness for `C10_self_bind` at the one-slot registry. -/
theorem C10_self_bind_witness :
    bind oneSlot 1 1 =
      (bind_t.BIND_PROPAGATED_LHS_GROUP,
        setInfo oneSlot 1 { oneSlotInfo with refs := sinsert oneSlotInfo.refs 1 }) ∧
    bind (emptyReg) 3 3 = (bind_t.BIND_FAILED_NONEXISTENT_VAR, emptyReg) :=
  ⟨((C10_self_bind oneSlot 1).1 oneSlotInfo (by decide) (by decide) (by decide)).1,
   (C10_self_bind emptyReg 3).2 (by decide)⟩

/-! ### Claim C7: bind with exactly one existing key creates a pure alias -/

/-- C7: when exactly one of the two keys exists, `bind` returns
`BIND_CREATED_LHS` (left missing) or `BIND_CREATED_RHS` (right missing) and
creates the missing slot as a pure alias of the existing one: identical
group id, the identical storage cell (no allocation — the store and the
fresh-cell counter are untouched), identical type tag, allocator and
copier, and the two slots list each other in their references. -/
theorem C7_bind_creates_alias : ∀ (mp : var_map_t) (kL kR : Nat),
    (∀ iR, alFind mp.map kL = none → alFind mp.map kR = some iR → iR.key = kR →
      (bind mp kL kR).1 = bind_t.BIND_CREATED_LHS ∧
      (∃ iL', alFind (bind mp kL kR).2.map kL = some iL' ∧
        iL'.group_id = iR.group_id ∧ iL'.ptr = iR.ptr ∧ iL'.type_id = iR.type_id ∧
        iL'.allocator = iR.allocator ∧ iL'.copier = iR.copier ∧ kR ∈ iL'.refs) ∧
      (∃ iR', alFind (bind mp kL kR).2.map kR = some iR' ∧
        iR' = { iR with refs := sinsert iR.refs kL } ∧ kL ∈ iR'.refs) ∧
      (bind mp kL kR).2.store = mp.store ∧ (bind mp kL kR).2.next = mp.next) ∧
    (∀ iL, alFind mp.map kL = some iL → alFind mp.map kR = none → iL.key = kL →
      (bind mp kL kR).1 = bind_t.BIND_CREATED_RHS ∧
      (∃ iR', alFind (bind mp kL kR).2.map kR = some iR' ∧
        iR'.group_id = iL.group_id ∧ iR'.ptr = iL.ptr ∧ iR'.type_id = iL.type_id ∧
        iR'.allocator = iL.allocator ∧ iR'.copier = iL.copier ∧ kL ∈ iR'.refs) ∧
      (∃ iL', alFind (bind mp kL kR).2.map kL = some iL' ∧
        iL' = { iL with refs := sinsert iL.refs kR } ∧ kR ∈ iL'.refs) ∧
      (bind mp kL kR).2.store = mp.store ∧ (bind mp kL kR).2.next = mp.next) := by
  intro mp kL kR
  constructor
  · intro iR hL hR hkey
    have hne : kR ≠ kL := by
      intro hc
      rw [hc, hL] at hR
      exact Option.noConfusion hR
    simp only [bind, hL, hR]
    simp only [make_reference, hR]
    have hfindR : alFind (alSet mp.map kL
        { ptr := iR.ptr, group_id := iR.group_id, key := kL, type_id := iR.type_id,
          allocator := iR.allocator, copier := iR.copier,
          refs := sinsert [] iR.key, pointers_to_var := [] }) kR = some iR := by
      rw [alFind_alSet, if_neg hne]
      exact hR
    simp only [setInfo, hfindR]
    have hLne : kL ≠ kR := fun hc => hne hc.symm
    refine ⟨by trivial, ?_, ?_, by trivial, by trivial⟩
    · refine ⟨{ ptr := iR.ptr, group_id := iR.group_id, key := kL, type_id := iR.type_id, allocator := iR.allocator, copier := iR.copier, refs := sinsert [] iR.key, pointers_to_var := [] }, ?_, rfl, rfl, rfl, rfl, rfl, ?_⟩
      · rw [alFind_alSet, if_neg hLne, alFind_alSet, if_pos rfl]
      · rw [hkey]
        exact (mem_sinsert [] kR kR).mpr (Or.inl rfl)
    · refine ⟨{ iR with refs := sinsert iR.refs kL }, ?_, rfl, ?_⟩
      · rw [alFind_alSet, if_pos rfl]
      · exact (mem_sinsert _ _ _).mpr (Or.inl rfl)
  · intro iL hLf hRf hkey
    have hne : kL ≠ kR := by
      intro hc
      rw [hc, hRf] at hLf
      exact Option.noConfusion hLf
    simp only [bind, hLf, hRf]
    simp only [make_reference, hLf]
    have hfindL : alFind (alSet mp.map kR
        { ptr := iL.ptr, group_id := iL.group_id, key := kR, type_id := iL.type_id,
          allocator := iL.allocator, copier := iL.copier,
          refs := sinsert [] iL.key, pointers_to_var := [] }) kL = some iL := by
      rw [alFind_alSet, if_neg hne]
      exact hLf
    simp only [setInfo, hfindL]
    have hRne : kR ≠ kL := fun hc => hne hc.symm
    refine ⟨by trivial, ?_, ?_, by trivial, by trivial⟩
    · refine ⟨{ ptr := iL.ptr, group_id := iL.group_id, key := kR, type_id := iL.type_id, allocator := iL.allocator, copier := iL.copier, refs := sinsert [] iL.key, pointers_to_var := [] }, ?_, rfl, rfl, rfl, rfl, rfl, ?_⟩
      · rw [alFind_alSet, if_neg hRne, alFind_alSet, if_pos rfl]
      · rw [hkey]
        exact (mem_sinsert [] kL kL).mpr (Or.inl rfl)
    · refine ⟨{ iL with refs := sinsert iL.refs kR }, ?_, rfl, ?_⟩
      · rw [alFind_alSet, if_pos rfl]
      · exact (mem_sinsert _ _ _).mpr (Or.inl rfl)

/-- Witness for `C7_bind_creates_alias`: binding the missing key `2` with
the existing slot `1` of the one-slot registry (both orders). -/
theorem C7_bind_creates_alias_witness :
    (bind oneSlot 2 1).1 = bind_t.BIND_CREATED_LHS ∧
    (bind oneSlot 1 2).1 = bind_t.BIND_CREATED_RHS :=
  ⟨((C7_bind_creates_alias oneSlot 2 1).1 oneSlotInfo (by decide) (by decide) (by decide)).1,
   ((C7_bind_creates_alias oneSlot 1 2).2 oneSlotInfo (by decide) (by decide) (by decide)).1⟩

/-! ### Claim C4, counterexample: unbind on an asymmetric link is not a no-op -/

/-- C4, counterexample.  In `asymReg` slot `1` lists `2` but slot `2` does
not list `1` (an asymmetric link).  The claim says `unbind` is then a silent
no-op; in the source the early return happens only when NEITHER side holds a
reference, so here `unbind` proceeds: it erases the one-sided link and
re-homes slot `2` to fresh storage, changing the registry. -/
theorem C4_counterexample :
    (∃ i1 i2, alFind asymReg.map 1 = some i1 ∧ alFind asymReg.map 2 = some i2 ∧
      2 ∈ i1.refs ∧ 1 ∉ i2.refs) ∧
    unbind asymReg 1 2 ≠ asymReg := by
  constructor
  · exact ⟨_, _, rfl, rfl, by decide, by decide⟩
  · decide

/-! ### The entry-wise effect of `propagate_group` -/

theorem propagate_group_succ (f : Nat) (mp : var_map_t) (d s : Nat) :
    propagate_group (f + 1) mp d s =
      match alFind mp.map s with
      | none => mp
      | some src =>
        match getOrInsert mp d with
        | (dest, mp1) =>
          if src.group_id ≠ dest.group_id then
            dest.refs.foldl (fun r j => propagate_group f r j s)
              (setInfo mp1 d { dest with group_id := src.group_id, ptr := src.ptr })
          else mp1 := rfl

theorem rwRel_refl (gs : Nat) (ps : Option Nat) (e : Nat × info_t) : rwRel gs ps e e :=
  Or.inl rfl

theorem rwRel_fst {gs : Nat} {ps : Option Nat} {e e' : Nat × info_t}
    (h : rwRel gs ps e e') : e'.1 = e.1 := by
  rcases h with h | ⟨_, h⟩ <;> simp [h]

/-- Replacing a found entry relates the old and new maps entry-wise. -/
theorem alSet_forall₂ {α : Type} {R : (Nat × α) → (Nat × α) → Prop}
    {l : List (Nat × α)} (hs : SortedAL l) {k : Nat} {i : α}
    (hf : alFind l k = some i) (v : α)
    (hrefl : ∀ e ∈ l, R e e) (hk : R (k, i) (k, v)) :
    List.Forall₂ R l (alSet l k v) := by
  induction l with
  | nil => simp [alFind] at hf
  | cons e t ih =>
    obtain ⟨k', v'⟩ := e
    rw [SortedAL, List.pairwise_cons] at hs
    by_cases hkk : k = k'
    · subst hkk
      rw [alFind_cons, if_pos rfl] at hf
      obtain rfl : v' = i := by injection hf
      simp only [alSet, lt_irrefl, if_neg (lt_irrefl k), if_pos rfl]
      exact List.Forall₂.cons hk (List.forall₂_same.mpr (fun e he => hrefl e (List.mem_cons_of_mem _ he)))
    · rw [alFind_cons, if_neg hkk] at hf
      have hlt : ¬ k < k' := by
        intro hl
        have hmem : k ∈ t.map Prod.fst := by
          rw [← alFind_isSome_iff, hf]
          rfl
        obtain ⟨e'', he'', heq⟩ := List.mem_map.mp hmem
        have := hs.1 _ he''
        omega
      simp only [alSet, if_neg hlt, if_neg hkk]
      exact List.Forall₂.cons (hrefl _ (List.mem_cons_self _ _))
        (ih hs.2 hf (fun e he => hrefl e (List.mem_cons_of_mem _ he)))

theorem forall₂_mem_right {α β : Type} {R : α → β → Prop} :
    ∀ {l : List α} {l' : List β}, List.Forall₂ R l l' → ∀ b ∈ l', ∃ a ∈ l, R a b := by
  intro l l' h
  induction h with
  | nil => intro b hb; simp at hb
  | cons hr _ ih =>
    intro b hb
    rcases List.mem_cons.mp hb with hb | hb
    · exact ⟨_, List.mem_cons_self _ _, hb ▸ hr⟩
    · obtain ⟨a, ha, har⟩ := ih b hb
      exact ⟨a, List.mem_cons_of_mem _ ha, har⟩

theorem rwRel_keys_eq {gs : Nat} {ps : Option Nat} :
    ∀ {l l' : List (Nat × info_t)}, List.Forall₂ (rwRel gs ps) l l' →
      l'.map Prod.fst = l.map Prod.fst := by
  intro l l' h
  induction h with
  | nil => rfl
  | cons hr _ ih => simp [rwRel_fst hr, ih]

theorem rwRel_alFind {gs : Nat} {ps : Option Nat} :
    ∀ {l l' : List (Nat × info_t)}, List.Forall₂ (rwRel gs ps) l l' → ∀ k,
      alFind l' k = alFind l k ∨
      ∃ i, alFind l k = some i ∧ i.group_id ≠ gs ∧ alFind l' k = some (rwInfo gs ps i) := by
  intro l l' h
  induction h with
  | nil => intro k; exact Or.inl rfl
  | @cons e e' t t' hr _ ih =>
    intro k
    obtain ⟨ke, ie⟩ := e
    rcases hr with hr | ⟨hg, hr⟩
    · subst hr
      by_cases hk : k = ke
      · subst hk
        exact Or.inl (by rw [alFind_cons, if_pos rfl, alFind_cons, if_pos rfl])
      · rcases ih k with h1 | ⟨i, h1, h2, h3⟩
        · exact Or.inl (by rw [alFind_cons, if_neg hk, alFind_cons, if_neg hk, h1])
        · exact Or.inr ⟨i, by rw [alFind_cons, if_neg hk]; exact h1, h2,
            by rw [alFind_cons, if_neg hk]; exact h3⟩
    · subst hr
      by_cases hk : k = ke
      · subst hk
        refine Or.inr ⟨ie, ?_, hg, ?_⟩
        · rw [alFind_cons, if_pos rfl]
        · rw [alFind_cons, if_pos rfl]
      · rcases ih k with h1 | ⟨i, h1, h2, h3⟩
        · exact Or.inl (by rw [alFind_cons, if_neg hk, alFind_cons, if_neg hk, h1])
        · exact Or.inr ⟨i, by rw [alFind_cons, if_neg hk]; exact h1, h2,
            by rw [alFind_cons, if_neg hk]; exact h3⟩

theorem PropEffect.refl (gs : Nat) (ps : Option Nat) (mp : var_map_t) :
    PropEffect gs ps mp mp :=
  ⟨rfl, rfl, List.forall₂_same.mpr (fun e _ => rwRel_refl gs ps e)⟩

theorem rwRel_trans {gs : Nat} {ps : Option Nat} :
    ∀ {l1 l2 l3 : List (Nat × info_t)}, List.Forall₂ (rwRel gs ps) l1 l2 →
      List.Forall₂ (rwRel gs ps) l2 l3 → List.Forall₂ (rwRel gs ps) l1 l3 := by
  intro l1 l2 l3 h12
  induction h12 generalizing l3 with
  | nil =>
    intro h23
    cases h23
    exact List.Forall₂.nil
  | @cons e1 e2 t1 t2 hr _ ih =>
    intro h23
    cases h23 with
    | cons hr23 ht23 =>
      refine List.Forall₂.cons ?_ (ih ht23)
      rcases hr23 with hr23 | ⟨hg23, hr23⟩
      · subst hr23
        exact hr
      · rcases hr with hr | ⟨hg, hr⟩
        · subst hr
          exact Or.inr ⟨hg23, hr23⟩
        · rw [hr] at hg23
          simp [rwInfo] at hg23

theorem PropEffect.trans {gs : Nat} {ps : Option Nat} {mp1 mp2 mp3 : var_map_t}
    (h12 : PropEffect gs ps mp1 mp2) (h23 : PropEffect gs ps mp2 mp3) :
    PropEffect gs ps mp1 mp3 :=
  ⟨h23.1.trans h12.1, h23.2.1.trans h12.2.1, rwRel_trans h12.2.2 h23.2.2⟩

theorem PropEffect.keys_eq {gs : Nat} {ps : Option Nat} {mp mp' : var_map_t}
    (h : PropEffect gs ps mp mp') : mp'.map.map Prod.fst = mp.map.map Prod.fst :=
  rwRel_keys_eq h.2.2

theorem PropEffect.store_eq {gs : Nat} {ps : Option Nat} {mp mp' : var_map_t}
    (h : PropEffect gs ps mp mp') : mp'.store = mp.store := h.1

theorem PropEffect.next_eq {gs : Nat} {ps : Option Nat} {mp mp' : var_map_t}
    (h : PropEffect gs ps mp mp') : mp'.next = mp.next := h.2.1

theorem PropEffect.alFind_cases {gs : Nat} {ps : Option Nat} {mp mp' : var_map_t}
    (h : PropEffect gs ps mp mp') (k : Nat) :
    alFind mp'.map k = alFind mp.map k ∨
    ∃ i, alFind mp.map k = some i ∧ i.group_id ≠ gs ∧
      alFind mp'.map k = some (rwInfo gs ps i) :=
  rwRel_alFind h.2.2 k

theorem PropEffect.find_of_gid {gs : Nat} {ps : Option Nat} {mp mp' : var_map_t}
    (h : PropEffect gs ps mp mp') {k : Nat} {i : info_t}
    (hf : alFind mp.map k = some i) (hg : i.group_id = gs) :
    alFind mp'.map k = some i := by
  rcases h.alFind_cases k with h1 | ⟨i2, h1, h2, h3⟩
  · rw [h1, hf]
  · rw [hf] at h1
    injection h1 with h1
    subst h1
    exact absurd hg h2

theorem PropEffect.isSome_eq {gs : Nat} {ps : Option Nat} {mp mp' : var_map_t}
    (h : PropEffect gs ps mp mp') (k : Nat) :
    (alFind mp'.map k).isSome = (alFind mp.map k).isSome := by
  rcases h.alFind_cases k with h1 | ⟨i, h1, _, h3⟩
  · rw [h1]
  · rw [h1, h3]
    rfl

theorem PropEffect.sortedMap {gs : Nat} {ps : Option Nat} {mp mp' : var_map_t}
    (h : PropEffect gs ps mp mp') (hs : SortedMap mp) : SortedMap mp' := by
  rw [SortedMap, SortedAL, ← @List.pairwise_map _ _ Prod.fst]
  rw [SortedMap, SortedAL, ← @List.pairwise_map _ _ Prod.fst] at hs
  rw [h.keys_eq]
  exact hs

theorem PropEffect.closed {gs : Nat} {ps : Option Nat} {mp mp' : var_map_t}
    (h : PropEffect gs ps mp mp') (hc : Closed mp) : Closed mp' := by
  intro e' he' j hj
  obtain ⟨e, he, her⟩ := forall₂_mem_right h.2.2 e' he'
  have hrefs : e'.2.refs = e.2.refs := by
    rcases her with her | ⟨_, her⟩ <;> simp [her, rwInfo]
  rw [hrefs] at hj
  have := hc e he j hj
  rw [h.keys_eq]
  exact this

theorem mismCount_eq_countP (mp : var_map_t) (gs : Nat) :
    mismCount mp gs = mp.map.countP (fun e => decide (e.2.group_id ≠ gs)) := by
  rw [mismCount, List.countP_eq_length_filter]

theorem rwRel_countP_le {gs : Nat} {ps : Option Nat} :
    ∀ {l l' : List (Nat × info_t)}, List.Forall₂ (rwRel gs ps) l l' →
      l'.countP (fun e => decide (e.2.group_id ≠ gs)) ≤
        l.countP (fun e => decide (e.2.group_id ≠ gs)) := by
  intro l l' h
  induction h with
  | nil => exact le_refl _
  | @cons e e' t t' hr _ ih =>
    rw [List.countP_cons, List.countP_cons]
    rcases hr with hr | ⟨hg, hr⟩
    · subst hr
      omega
    · have he' : (decide (e'.2.group_id ≠ gs)) = false := by
        rw [hr]
        simp [rwInfo]
      have he : (decide (e.2.group_id ≠ gs)) = true := by simpa using hg
      rw [he, he', if_neg (show ¬(false = true) by decide), if_pos rfl]
      omega

theorem PropEffect.mismCount_le {gs : Nat} {ps : Option Nat} {mp mp' : var_map_t}
    (h : PropEffect gs ps mp mp') : mismCount mp' gs ≤ mismCount mp gs := by
  rw [mismCount_eq_countP, mismCount_eq_countP]
  exact rwRel_countP_le h.2.2

theorem mismCount_pos {mp : var_map_t} {d : Nat} {di : info_t} {gs : Nat}
    (hdi : alFind mp.map d = some di) (hg : di.group_id ≠ gs) :
    1 ≤ mismCount mp gs := by
  have hmem : (d, di) ∈ mp.map.filter (fun e => e.2.group_id ≠ gs) :=
    List.mem_filter.mpr ⟨alFind_mem hdi, by simpa using hg⟩
  exact List.length_pos.mpr (List.ne_nil_of_mem hmem)

theorem find_tail_not_lt {α : Type} {t : List (Nat × α)} {k k' : Nat}
    (hhead : ∀ e ∈ t, k' < (e : Nat × α).1) (hf : (alFind t k).isSome = true) :
    k' < k := by
  rw [alFind_isSome_iff] at hf
  obtain ⟨e, he, heq⟩ := List.mem_map.mp hf
  have := hhead e he
  omega

theorem countP_alSet_rw {gs : Nat} {ps : Option Nat} :
    ∀ {l : List (Nat × info_t)}, SortedAL l → ∀ {d : Nat} {di : info_t},
      alFind l d = some di → di.group_id ≠ gs →
      (alSet l d (rwInfo gs ps di)).countP (fun e => decide (e.2.group_id ≠ gs)) + 1 =
        l.countP (fun e => decide (e.2.group_id ≠ gs)) := by
  intro l
  induction l with
  | nil => intro _ d di hdi; simp [alFind] at hdi
  | cons e t ih =>
    intro hs d di hdi hg
    obtain ⟨k', v'⟩ := e
    rw [SortedAL, List.pairwise_cons] at hs
    by_cases hk : d = k'
    · subst hk
      rw [alFind_cons, if_pos rfl] at hdi
      obtain rfl : v' = di := by injection hdi
      have halset : alSet ((d, v') :: t) d (rwInfo gs ps v') = (d, rwInfo gs ps v') :: t := by
        simp [alSet]
      rw [halset, List.countP_cons, List.countP_cons]
      have h1 : (decide ((rwInfo gs ps v').group_id ≠ gs)) = false := by simp [rwInfo]
      have h2 : (decide (v'.group_id ≠ gs)) = true := by simpa using hg
      rw [h1, h2, if_neg (show ¬(false = true) by decide), if_pos rfl]
    · rw [alFind_cons, if_neg hk] at hdi
      have hlt : ¬ d < k' := by
        have := find_tail_not_lt hs.1 (by rw [hdi]; rfl)
        omega
      have halset : alSet ((k', v') :: t) d (rwInfo gs ps di)
          = (k', v') :: alSet t d (rwInfo gs ps di) := by
        simp [alSet, hlt, hk]
      rw [halset, List.countP_cons, List.countP_cons]
      have := ih hs.2 hdi hg
      omega

theorem mismCount_alSet_rw {mp : var_map_t} {d : Nat} {di : info_t} {gs : Nat}
    {ps : Option Nat} (hs : SortedMap mp) (hdi : alFind mp.map d = some di)
    (hg : di.group_id ≠ gs) :
    mismCount (setInfo mp d (rwInfo gs ps di)) gs + 1 = mismCount mp gs := by
  rw [mismCount_eq_countP, mismCount_eq_countP]
  exact countP_alSet_rw hs hdi hg

theorem propagate_group_noop {mp : var_map_t} {d s : Nat} {si di : info_t}
    (hsrc : alFind mp.map s = some si) (hdi : alFind mp.map d = some di)
    (hg : si.group_id = di.group_id) : ∀ f, propagate_group f mp d s = mp := by
  intro f
  cases f with
  | zero => rfl
  | succ n => simp [propagate_group, hsrc, getOrInsert, hdi, hg]

theorem propagate_group_unfold {mp : var_map_t} {d s : Nat} {si di : info_t}
    (hsrc : alFind mp.map s = some si) (hdi : alFind mp.map d = some di)
    (hg : si.group_id ≠ di.group_id) (fu : Nat) :
    propagate_group (fu + 1) mp d s =
      di.refs.foldl (fun r j => propagate_group fu r j s)
        (setInfo mp d (rwInfo si.group_id si.ptr di)) := by
  rw [propagate_group_succ]
  simp only [hsrc, getOrInsert, hdi]
  rw [if_pos hg]
  rfl

/-- The one-step rewrite of the destination is an instance of the flood
effect. -/
theorem setInfo_rw_effect {mp : var_map_t} {d : Nat} {di : info_t}
    (hs : SortedMap mp) (hdi : alFind mp.map d = some di) {gs : Nat}
    {ps : Option Nat} (hg : di.group_id ≠ gs) :
    PropEffect gs ps mp (setInfo mp d (rwInfo gs ps di)) := by
  refine ⟨rfl, rfl, ?_⟩
  exact alSet_forall₂ hs hdi _ (fun e _ => rwRel_refl _ _ e) (Or.inr ⟨hg, rfl⟩)

/-- `propagate_group` only rewrites mismatched slots to the source identity
and touches nothing else: the store, the counter, the key sequence and every
slot's references, key, type and subscribers are preserved. -/
theorem propagate_group_effect :
    ∀ (f : Nat) (mp : var_map_t) (d : Nat) {s : Nat} {si : info_t},
      SortedMap mp → Closed mp → alFind mp.map s = some si →
      (alFind mp.map d).isSome = true →
      PropEffect si.group_id si.ptr mp (propagate_group f mp d s) := by
  intro f
  induction f with
  | zero => intro mp d s si _ _ _ _; exact PropEffect.refl _ _ _
  | succ f' ih =>
    intro mp d s si hs hc hsrc hd
    obtain ⟨di, hdi⟩ := Option.isSome_iff_exists.mp hd
    by_cases hg : si.group_id = di.group_id
    · rw [propagate_group_noop hsrc hdi hg]
      exact PropEffect.refl _ _ _
    · rw [propagate_group_unfold hsrc hdi hg]
      have hgd : di.group_id ≠ si.group_id := fun h2 => hg h2.symm
      have hstepEff : PropEffect si.group_id si.ptr mp
          (setInfo mp d (rwInfo si.group_id si.ptr di)) :=
        setInfo_rw_effect hs hdi hgd
      have hmemrefs : ∀ j ∈ di.refs, j ∈ mp.map.map Prod.fst := Closed.find_refs hc hdi
      have haux : ∀ (L : List Nat), (∀ j ∈ L, j ∈ mp.map.map Prod.fst) →
          ∀ (r : var_map_t), PropEffect si.group_id si.ptr mp r →
          PropEffect si.group_id si.ptr mp
            (L.foldl (fun r j => propagate_group f' r j s) r) := by
        intro L
        induction L with
        | nil => intro _ r hr; exact hr
        | cons j L' ihL =>
          intro hL r hr
          rw [List.foldl_cons]
          apply ihL (fun x hx => hL x (List.mem_cons_of_mem _ hx))
          have hsr : SortedMap r := hr.sortedMap hs
          have hcr : Closed r := hr.closed hc
          have hsrcr : alFind r.map s = some si := hr.find_of_gid hsrc rfl
          have hdr : (alFind r.map j).isSome = true := by
            rw [hr.isSome_eq, alFind_isSome_iff]
            exact hL j (List.mem_cons_self _ _)
          exact hr.trans (ih r j hsr hcr hsrcr hdr)
      exact haux di.refs hmemrefs _ hstepEff

/-- Monotonicity in fuel: once the fuel passes the number of mismatched
slots, one more unit of fuel changes nothing. -/
theorem propagate_group_mono :
    ∀ (f : Nat) (mp : var_map_t) (d : Nat) {s : Nat} {si : info_t},
      SortedMap mp → Closed mp → alFind mp.map s = some si →
      (alFind mp.map d).isSome = true → mismCount mp si.group_id ≤ f →
      propagate_group (f + 1) mp d s = propagate_group f mp d s := by
  intro f
  induction f with
  | zero =>
    intro mp d s si hs hc hsrc hd hm
    obtain ⟨di, hdi⟩ := Option.isSome_iff_exists.mp hd
    have hg : si.group_id = di.group_id := by
      by_contra hne
      have := mismCount_pos hdi (fun h2 => hne h2.symm)
      omega
    exact (propagate_group_noop hsrc hdi hg 1).trans (propagate_group_noop hsrc hdi hg 0).symm
  | succ f' ih =>
    intro mp d s si hs hc hsrc hd hm
    obtain ⟨di, hdi⟩ := Option.isSome_iff_exists.mp hd
    by_cases hg : si.group_id = di.group_id
    · exact (propagate_group_noop hsrc hdi hg _).trans (propagate_group_noop hsrc hdi hg _).symm
    · have hgd : di.group_id ≠ si.group_id := fun h2 => hg h2.symm
      rw [propagate_group_unfold hsrc hdi hg (f' + 1), propagate_group_unfold hsrc hdi hg f']
      have heff2 : PropEffect si.group_id si.ptr mp
          (setInfo mp d (rwInfo si.group_id si.ptr di)) :=
        setInfo_rw_effect hs hdi hgd
      have hm2 : mismCount (setInfo mp d (rwInfo si.group_id si.ptr di)) si.group_id ≤ f' := by
        have := @mismCount_alSet_rw mp d di si.group_id si.ptr hs hdi hgd
        omega
      have hs2 : SortedMap (setInfo mp d (rwInfo si.group_id si.ptr di)) := heff2.sortedMap hs
      have hc2 : Closed (setInfo mp d (rwInfo si.group_id si.ptr di)) := heff2.closed hc
      have hsrc2 : alFind (setInfo mp d (rwInfo si.group_id si.ptr di)).map s = some si :=
        heff2.find_of_gid hsrc rfl
      have hkeys2 : (setInfo mp d (rwInfo si.group_id si.ptr di)).map.map Prod.fst
          = mp.map.map Prod.fst := heff2.keys_eq
      have hmemrefs : ∀ j ∈ di.refs, j ∈ mp.map.map Prod.fst := Closed.find_refs hc hdi
      have haux : ∀ (L : List Nat), (∀ j ∈ L, j ∈ mp.map.map Prod.fst) →
          ∀ (r : var_map_t),
          PropEffect si.group_id si.ptr (setInfo mp d (rwInfo si.group_id si.ptr di)) r →
          L.foldl (fun r j => propagate_group (f' + 1) r j s) r =
            L.foldl (fun r j => propagate_group f' r j s) r := by
        intro L
        induction L with
        | nil => intro _ r _; rfl
        | cons j L' ihL =>
          intro hL r hr
          rw [List.foldl_cons, List.foldl_cons]
          have hsr : SortedMap r := hr.sortedMap hs2
          have hcr : Closed r := hr.closed hc2
          have hsrcr : alFind r.map s = some si := hr.find_of_gid hsrc2 rfl
          have hdr : (alFind r.map j).isSome = true := by
            rw [hr.isSome_eq, alFind_isSome_iff, hkeys2]
            exact hL j (List.mem_cons_self _ _)
          have hmr : mismCount r si.group_id ≤ f' := le_trans hr.mismCount_le hm2
          rw [ih r j hsr hcr hsrcr hdr hmr]
          apply ihL (fun x hx => hL x (List.mem_cons_of_mem _ hx))
          exact hr.trans (propagate_group_effect f' r j hsr hcr hsrcr hdr)
      exact haux di.refs hmemrefs _ (PropEffect.refl _ _ _)

/-! ### Claim C5: termination of the flood -/

/-- C5: on every finite registry whose references mention only existing
keys — cyclic reference graphs included — the recursion of
`propagate_group` terminates: its result is already stable at fuel equal to
the number of slots whose group id differs from the source's (the measure
the pre-recursion rewrite strictly decreases, the group-id equality check
being the only cycle guard), so any two fuels at or above that bound give
the same registry. -/
theorem C5_propagate_terminates : ∀ (mp : var_map_t) (d s : Nat) (si : info_t),
    SortedMap mp → Closed mp → alFind mp.map s = some si →
    (alFind mp.map d).isSome = true →
    ∀ f1 f2, mismCount mp si.group_id ≤ f1 → mismCount mp si.group_id ≤ f2 →
      propagate_group f1 mp d s = propagate_group f2 mp d s := by
  intro mp d s si hs hc hsrc hd
  have key : ∀ n, propagate_group (mismCount mp si.group_id + n) mp d s
      = propagate_group (mismCount mp si.group_id) mp d s := by
    intro n
    induction n with
    | zero => rfl
    | succ n ihn =>
      rw [show mismCount mp si.group_id + (n + 1) = (mismCount mp si.group_id + n) + 1 from rfl]
      rw [propagate_group_mono (mismCount mp si.group_id + n) mp d hs hc hsrc hd (by omega)]
      exact ihn
  intro f1 f2 h1 h2
  obtain ⟨n1, rfl⟩ : ∃ n, f1 = mismCount mp si.group_id + n := ⟨f1 - mismCount mp si.group_id, by omega⟩
  obtain ⟨n2, rfl⟩ : ∃ n, f2 = mismCount mp si.group_id + n := ⟨f2 - mismCount mp si.group_id, by omega⟩
  rw [key n1, key n2]

/-- Witness for `C5_propagate_terminates` on the cyclic three-slot registry:
two slots differ from the source's group, and any fuel from `2` upward gives
the same flood result. -/
theorem C5_propagate_terminates_witness :
    propagate_group 2 cycleReg 2 1 = propagate_group 7 cycleReg 2 1 :=
  C5_propagate_terminates cycleReg 2 1
    { ptr := some 0, group_id := 1, key := 1, type_id := some 0,
      allocator := 0, copier := 0, refs := [2, 3], pointers_to_var := [] }
    (by decide) (by decide) (by decide) (by decide) 2 7 (by decide) (by decide)

/-! ### Exact characterization of a flood over a uniformly mismatched region -/

theorem alFind_maprw {gs : Nat} {ps : Option Nat} {V : Finset Nat} :
    ∀ (l : List (Nat × info_t)) (k : Nat),
      alFind (l.map (fun e => if e.1 ∈ V then (e.1, rwInfo gs ps e.2) else e)) k =
        if k ∈ V then (alFind l k).map (rwInfo gs ps) else alFind l k := by
  intro l
  induction l with
  | nil => intro k; by_cases hk : k ∈ V <;> simp [alFind, hk]
  | cons e t ih =>
    intro k
    obtain ⟨k', v'⟩ := e
    by_cases hk : k = k'
    · subst hk
      by_cases hv : k ∈ V <;> simp [alFind_cons, hv]
    · by_cases hv : k' ∈ V <;> by_cases hk2 : k ∈ V <;>
        simp [alFind_cons, hv, hk, hk2, ih]

theorem alFind_rewriteOn (gs : Nat) (ps : Option Nat) (V : Finset Nat)
    (reg0 : var_map_t) (k : Nat) :
    alFind (rewriteOn gs ps V reg0).map k =
      if k ∈ V then (alFind reg0.map k).map (rwInfo gs ps) else alFind reg0.map k :=
  alFind_maprw reg0.map k

theorem rewriteOn_store (gs : Nat) (ps : Option Nat) (V : Finset Nat) (reg0 : var_map_t) :
    (rewriteOn gs ps V reg0).store = reg0.store := rfl

theorem rewriteOn_next (gs : Nat) (ps : Option Nat) (V : Finset Nat) (reg0 : var_map_t) :
    (rewriteOn gs ps V reg0).next = reg0.next := rfl

theorem maprw_keys {gs : Nat} {ps : Option Nat} {V : Finset Nat}
    (l : List (Nat × info_t)) :
    (l.map (fun e => if e.1 ∈ V then (e.1, rwInfo gs ps e.2) else e)).map Prod.fst =
      l.map Prod.fst := by
  induction l with
  | nil => rfl
  | cons e t ih =>
    by_cases hv : e.1 ∈ V <;> simp [hv, ih]

theorem rewriteOn_empty (gs : Nat) (ps : Option Nat) (reg0 : var_map_t) :
    rewriteOn gs ps ∅ reg0 = reg0 := by
  have h : ∀ (l : List (Nat × info_t)),
      l.map (fun e => if e.1 ∈ (∅ : Finset Nat) then (e.1, rwInfo gs ps e.2) else e) = l := by
    intro l
    induction l with
    | nil => rfl
    | cons e t ih => simp [ih]
  unfold rewriteOn
  rw [h]

theorem maprw_insert_notmem {gs : Nat} {ps : Option Nat} {V : Finset Nat} {d : Nat} :
    ∀ {t : List (Nat × info_t)}, d ∉ t.map Prod.fst →
      t.map (fun e => if e.1 ∈ insert d V then (e.1, rwInfo gs ps e.2) else e) =
        t.map (fun e => if e.1 ∈ V then (e.1, rwInfo gs ps e.2) else e) := by
  intro t
  induction t with
  | nil => intro _; rfl
  | cons e t2 ih =>
    intro hd
    simp only [List.map_cons, List.mem_cons] at hd
    push_neg at hd
    have hne : e.1 ≠ d := fun h => hd.1 h.symm
    have hmem : e.1 ∈ insert d V ↔ e.1 ∈ V := by
      rw [Finset.mem_insert]
      exact ⟨fun h => h.elim (fun h2 => absurd h2 hne) id, Or.inr⟩
    simp only [List.map_cons, ih hd.2]
    by_cases hv : e.1 ∈ V
    · rw [if_pos hv, if_pos (hmem.mpr hv)]
    · rw [if_neg hv, if_neg (fun h => hv (hmem.mp h))]

theorem alSet_maprw {gs : Nat} {ps : Option Nat} {V : Finset Nat} :
    ∀ {l : List (Nat × info_t)}, SortedAL l → ∀ {d : Nat} {di : info_t},
      alFind l d = some di → d ∉ V →
      alSet (l.map (fun e => if e.1 ∈ V then (e.1, rwInfo gs ps e.2) else e)) d
          (rwInfo gs ps di) =
        l.map (fun e => if e.1 ∈ insert d V then (e.1, rwInfo gs ps e.2) else e) := by
  intro l
  induction l with
  | nil => intro _ d di hdi; simp [alFind] at hdi
  | cons e t ih =>
    intro hs d di hdi hdV
    obtain ⟨k', v'⟩ := e
    rw [SortedAL, List.pairwise_cons] at hs
    by_cases hk : d = k'
    · subst hk
      rw [alFind_cons, if_pos rfl] at hdi
      obtain rfl : v' = di := by injection hdi
      have hdkeys : d ∉ t.map Prod.fst := by
        intro hmem
        obtain ⟨e'', he'', heq⟩ := List.mem_map.mp hmem
        have := hs.1 _ he''
        omega
      simp only [List.map_cons]
      rw [if_neg (show ((d, v') : Nat × info_t).1 ∉ V from hdV)]
      rw [show alSet ((d, v') :: t.map (fun e => if e.1 ∈ V then (e.1, rwInfo gs ps e.2) else e)) d (rwInfo gs ps v') = (d, rwInfo gs ps v') :: t.map (fun e => if e.1 ∈ V then (e.1, rwInfo gs ps e.2) else e) from by simp [alSet]]
      rw [if_pos (show ((d, v') : Nat × info_t).1 ∈ insert d V from Finset.mem_insert_self d V)]
      rw [maprw_insert_notmem hdkeys]
    · rw [alFind_cons, if_neg hk] at hdi
      have hlt : ¬ d < k' := by
        have := find_tail_not_lt hs.1 (by rw [hdi]; rfl)
        omega
      have hmem : (k' ∈ insert d V) ↔ k' ∈ V := by
        rw [Finset.mem_insert]
        exact ⟨fun h => h.elim (fun h2 => absurd h2.symm hk) id, Or.inr⟩
      simp only [List.map_cons]
      by_cases hv : k' ∈ V
      · rw [if_pos (show ((k', v') : Nat × info_t).1 ∈ V from hv)]
        rw [show alSet ((k', rwInfo gs ps v') :: t.map (fun e => if e.1 ∈ V then (e.1, rwInfo gs ps e.2) else e)) d (rwInfo gs ps di) = (k', rwInfo gs ps v') :: alSet (t.map (fun e => if e.1 ∈ V then (e.1, rwInfo gs ps e.2) else e)) d (rwInfo gs ps di) from by simp [alSet, hlt, hk]]
        rw [ih hs.2 hdi hdV]
        rw [if_pos (show ((k', v') : Nat × info_t).1 ∈ insert d V from hmem.mpr hv)]
      · rw [if_neg (show ((k', v') : Nat × info_t).1 ∉ V from hv)]
        rw [show alSet ((k', v') :: t.map (fun e => if e.1 ∈ V then (e.1, rwInfo gs ps e.2) else e)) d (rwInfo gs ps di) = (k', v') :: alSet (t.map (fun e => if e.1 ∈ V then (e.1, rwInfo gs ps e.2) else e)) d (rwInfo gs ps di) from by simp [alSet, hlt, hk]]
        rw [ih hs.2 hdi hdV]
        rw [if_neg (show ((k', v') : Nat × info_t).1 ∉ insert d V from fun h => hv (hmem.mp h))]

theorem setInfo_rewriteOn {reg0 : var_map_t} (hs : SortedMap reg0) {d : Nat}
    {di : info_t} (hdi : alFind reg0.map d = some di) {V : Finset Nat} (hdV : d ∉ V)
    (gs : Nat) (ps : Option Nat) :
    setInfo (rewriteOn gs ps V reg0) d (rwInfo gs ps di) =
      rewriteOn gs ps (insert d V) reg0 := by
  show var_map_t.mk _ _ _ = var_map_t.mk _ _ _
  rw [show alSet (rewriteOn gs ps V reg0).map d (rwInfo gs ps di) = (rewriteOn gs ps (insert d V) reg0).map from alSet_maprw hs hdi hdV]
  rfl

/-- The flood lemma: starting a flood anywhere inside (or at the blocked
boundary of) a region `C` of slots that all carry a group id different from
the source's, on a state where the slots of `V ⊆ C` are already rewritten,
the flood rewrites exactly some superset `V'` of `V` inside `C`, containing
the start when it lies in `C`, and every newly rewritten slot is saturated:
each of its references is rewritten too or carries the source group id. -/
theorem propagate_group_flood :
    ∀ (f : Nat) (reg0 : var_map_t) (s : Nat) (si : info_t) (C V : Finset Nat) (d : Nat),
      SortedMap reg0 →
      alFind reg0.map s = some si →
      s ∉ C →
      (∀ x ∈ C, ∃ ix, alFind reg0.map x = some ix ∧ ix.group_id ≠ si.group_id ∧
        ∀ y ∈ ix.refs, y ∈ C ∨ Blocked reg0 si.group_id y) →
      V ⊆ C →
      (d ∈ C ∨ Blocked reg0 si.group_id d) →
      (C \ V).card < f →
      ∃ V' : Finset Nat,
        V ⊆ V' ∧ V' ⊆ C ∧ (d ∈ C → d ∈ V') ∧
        propagate_group f (rewriteOn si.group_id si.ptr V reg0) d s
          = rewriteOn si.group_id si.ptr V' reg0 ∧
        ∀ x ∈ V', x ∈ V ∨ ∀ ix, alFind reg0.map x = some ix →
          ∀ y ∈ ix.refs, y ∈ V' ∨ Blocked reg0 si.group_id y := by
  intro f
  induction f with
  | zero => intro reg0 s si C V d _ _ _ _ _ _ hcard; omega
  | succ fu ih =>
    intro reg0 s si C V d hs hsrc hsC hCx hVC hdC hcard
    have hsV : s ∉ V := fun h => hsC (hVC h)
    have hsrcV : alFind (rewriteOn si.group_id si.ptr V reg0).map s = some si := by
      rw [alFind_rewriteOn, if_neg hsV, hsrc]
    by_cases hdmem : d ∈ C
    · obtain ⟨id0, hid0, hgid0, hrefs0⟩ := hCx d hdmem
      by_cases hdV : d ∈ V
      · have hdf : alFind (rewriteOn si.group_id si.ptr V reg0).map d
            = some (rwInfo si.group_id si.ptr id0) := by
          rw [alFind_rewriteOn, if_pos hdV, hid0]
          rfl
        exact ⟨V, Finset.Subset.refl V, hVC, fun _ => hdV,
          propagate_group_noop hsrcV hdf rfl (fu + 1), fun x hx => Or.inl hx⟩
      · have hdf : alFind (rewriteOn si.group_id si.ptr V reg0).map d = some id0 := by
          rw [alFind_rewriteOn, if_neg hdV, hid0]
        have hgne : si.group_id ≠ id0.group_id := fun h => hgid0 h.symm
        have hdCV : d ∈ C \ V := Finset.mem_sdiff.mpr ⟨hdmem, hdV⟩
        have hcard2 : (C \ insert d V).card < fu := by
          have hpos : 0 < (C \ V).card := Finset.card_pos.mpr ⟨d, hdCV⟩
          rw [Finset.sdiff_insert, Finset.card_erase_of_mem hdCV]
          omega
        have haux : ∀ (L : List Nat), (∀ y ∈ L, y ∈ C ∨ Blocked reg0 si.group_id y) →
            ∀ (W : Finset Nat), insert d V ⊆ W → W ⊆ C →
            ∃ W' : Finset Nat, W ⊆ W' ∧ W' ⊆ C ∧ (∀ y ∈ L, y ∈ C → y ∈ W') ∧
              L.foldl (fun r j => propagate_group fu r j s)
                  (rewriteOn si.group_id si.ptr W reg0)
                = rewriteOn si.group_id si.ptr W' reg0 ∧
              ∀ x ∈ W', x ∈ W ∨ ∀ ix, alFind reg0.map x = some ix →
                ∀ y ∈ ix.refs, y ∈ W' ∨ Blocked reg0 si.group_id y := by
          intro L
          induction L with
          | nil =>
            intro _ W hWlo hWC
            exact ⟨W, Finset.Subset.refl W, hWC, by simp, rfl, fun x hx => Or.inl hx⟩
          | cons y L' ihL =>
            intro hL W hWlo hWC
            have hcardW : (C \ W).card < fu := by
              have hsub : C \ W ⊆ C \ insert d V :=
                Finset.sdiff_subset_sdiff (Finset.Subset.refl C) hWlo
              have := Finset.card_le_card hsub
              omega
            obtain ⟨V1, hWV1, hV1C, hyV1, heq1, hsat1⟩ :=
              ih reg0 s si C W y hs hsrc hsC hCx hWC (hL y (List.mem_cons_self _ _)) hcardW
            obtain ⟨W', hV1W', hW'C, hcov, heq2, hsat2⟩ :=
              ihL (fun z hz => hL z (List.mem_cons_of_mem _ hz)) V1 (hWlo.trans hWV1) hV1C
            refine ⟨W', hWV1.trans hV1W', hW'C, ?_, ?_, ?_⟩
            · intro z hz hzC
              rcases List.mem_cons.mp hz with hz1 | hz1
              · subst hz1
                exact hV1W' (hyV1 hzC)
              · exact hcov z hz1 hzC
            · rw [List.foldl_cons, heq1, heq2]
            · intro x hx
              rcases hsat2 x hx with hx2 | hx2
              · rcases hsat1 x hx2 with hx3 | hx3
                · exact Or.inl hx3
                · refine Or.inr ?_
                  intro ix hix z hz
                  rcases hx3 ix hix z hz with h4 | h4
                  · exact Or.inl (hV1W' h4)
                  · exact Or.inr h4
              · exact Or.inr hx2
        have hinsC : insert d V ⊆ C := by
          intro z hz
          rcases Finset.mem_insert.mp hz with hz1 | hz1
          · subst hz1
            exact hdmem
          · exact hVC hz1
        obtain ⟨W', hW'lo, hW'C, hcov, heqf, hsatW⟩ :=
          haux id0.refs hrefs0 (insert d V) (Finset.Subset.refl _) hinsC
        refine ⟨W', ?_, hW'C, fun _ => hW'lo (Finset.mem_insert_self d V), ?_, ?_⟩
        · exact (Finset.subset_insert d V).trans hW'lo
        · rw [propagate_group_unfold hsrcV hdf hgne fu,
            setInfo_rewriteOn hs hid0 hdV, heqf]
        · intro x hx
          rcases hsatW x hx with hx2 | hx2
          · rcases Finset.mem_insert.mp hx2 with hx3 | hx3
            · subst hx3
              refine Or.inr ?_
              intro ix hix z hz
              obtain rfl : ix = id0 := by
                rw [hid0] at hix
                injection hix with hixh
                exact hixh.symm
              rcases hrefs0 z hz with h4 | h4
              · exact Or.inl (hcov z hz h4)
              · exact Or.inr h4
            · exact Or.inl hx3
          · exact Or.inr hx2
    · rcases hdC with hdc | hdb
      · exact absurd hdc hdmem
      · obtain ⟨idb, hidb, hgb⟩ := hdb
        have hdV : d ∉ V := fun h => hdmem (hVC h)
        have hdf : alFind (rewriteOn si.group_id si.ptr V reg0).map d = some idb := by
          rw [alFind_rewriteOn, if_neg hdV, hidb]
        exact ⟨V, Finset.Subset.refl V, hVC, fun h => absurd h hdmem,
          propagate_group_noop hsrcV hdf hgb.symm (fu + 1), fun x hx => Or.inl hx⟩

/-! ### Transfer of well-formedness along refs-preserving surgery -/

theorem PropEffect.refsOf {gs : Nat} {ps : Option Nat} {mp mp' : var_map_t}
    (h : PropEffect gs ps mp mp') (k : Nat) :
    (alFind mp'.map k).map info_t.refs = (alFind mp.map k).map info_t.refs := by
  rcases h.alFind_cases k with h1 | ⟨i, hi, _, h1⟩
  · rw [h1]
  · rw [h1, hi]
    rfl

theorem PropEffect.keyCons {gs : Nat} {ps : Option Nat} {mp mp' : var_map_t}
    (h : PropEffect gs ps mp mp') (hk : KeyCons mp) : KeyCons mp' := by
  intro e' he'
  obtain ⟨e, he, her⟩ := forall₂_mem_right h.2.2 e' he'
  rcases her with her | ⟨_, her⟩
  · rw [her]
    exact hk e he
  · rw [her]
    exact hk e he

theorem symm_transfer {mp mp' : var_map_t} (hs : SortedMap mp) (hs' : SortedMap mp')
    (h : ∀ k, (alFind mp'.map k).map info_t.refs = (alFind mp.map k).map info_t.refs)
    (hsym : Symm mp) : Symm mp' := by
  intro e he e2 he2
  have hf : alFind mp'.map e.1 = some e.2 := alFind_of_mem hs' he
  have hf2 : alFind mp'.map e2.1 = some e2.2 := alFind_of_mem hs' he2
  have h1 := h e.1
  have h2 := h e2.1
  rw [hf] at h1
  rw [hf2] at h2
  cases hb1 : alFind mp.map e.1 with
  | none => rw [hb1] at h1; exact Option.noConfusion h1
  | some i1 =>
    cases hb2 : alFind mp.map e2.1 with
    | none => rw [hb2] at h2; exact Option.noConfusion h2
    | some i2 =>
      rw [hb1] at h1
      rw [hb2] at h2
      have hr1 : e.2.refs = i1.refs := by injection h1
      have hr2 : e2.2.refs = i2.refs := by injection h2
      rw [hr1, hr2]
      exact hsym (e.1, i1) (alFind_mem hb1) (e2.1, i2) (alFind_mem hb2)

theorem closed_transfer {mp mp' : var_map_t} (hs' : SortedMap mp')
    (hkeys : mp'.map.map Prod.fst = mp.map.map Prod.fst)
    (h : ∀ k, (alFind mp'.map k).map info_t.refs = (alFind mp.map k).map info_t.refs)
    (hc : Closed mp) : Closed mp' := by
  intro e' he' j hj
  have hf : alFind mp'.map e'.1 = some e'.2 := alFind_of_mem hs' he'
  have h1 := h e'.1
  rw [hf] at h1
  cases hb : alFind mp.map e'.1 with
  | none => rw [hb] at h1; exact Option.noConfusion h1
  | some i =>
    rw [hb] at h1
    have hr : e'.2.refs = i.refs := by injection h1
    rw [hr] at hj
    rw [hkeys]
    exact hc (e'.1, i) (alFind_mem hb) j hj

theorem allocate_eq {mp : var_map_t} {k : Nat} {i : info_t}
    (hf : alFind mp.map k = some i) :
    allocate_and_notify_subscribers mp k =
      ⟨alSet mp.map k { i with ptr := some mp.next },
       alSet mp.store mp.next (match i.ptr with | some c => readCell mp c | none => 0),
       mp.next + 1⟩ := by
  unfold allocate_and_notify_subscribers findInfo
  rw [hf]

theorem setInfo_preserves {mp : var_map_t} {k : Nat} {i i2 : info_t}
    (hs : SortedMap mp) (hf : alFind mp.map k = some i) (hr : i2.refs = i.refs) :
    (setInfo mp k i2).map.map Prod.fst = mp.map.map Prod.fst ∧
    (∀ x, (alFind (setInfo mp k i2).map x).map info_t.refs
      = (alFind mp.map x).map info_t.refs) ∧
    SortedMap (setInfo mp k i2) := by
  refine ⟨keys_alSet_of_found hs (by rw [hf]; rfl) i2, ?_, alSet_sorted hs k i2⟩
  intro x
  show (alFind (alSet mp.map k i2) x).map _ = _
  rw [alFind_alSet]
  by_cases hx : x = k
  · subst hx
    rw [if_pos rfl, hf]
    exact congrArg some hr
  · rw [if_neg hx]

theorem allocate_preserves (mp : var_map_t) (k : Nat) (hs : SortedMap mp) :
    (allocate_and_notify_subscribers mp k).map.map Prod.fst = mp.map.map Prod.fst ∧
    (∀ x, (alFind (allocate_and_notify_subscribers mp k).map x).map info_t.refs
      = (alFind mp.map x).map info_t.refs) ∧
    SortedMap (allocate_and_notify_subscribers mp k) := by
  cases hf : alFind mp.map k with
  | none =>
    have heq : allocate_and_notify_subscribers mp k = mp := by
      unfold allocate_and_notify_subscribers findInfo
      rw [hf]
    rw [heq]
    exact ⟨rfl, fun x => rfl, hs⟩
  | some i =>
    rw [allocate_eq hf]
    refine ⟨?_, ?_, ?_⟩
    · show (alSet mp.map k _).map Prod.fst = _
      exact keys_alSet_of_found hs (by rw [hf]; rfl) _
    · intro x
      show (alFind (alSet mp.map k _) x).map _ = _
      rw [alFind_alSet]
      by_cases hx : x = k
      · subst hx
        rw [if_pos rfl, hf]
        rfl
      · rw [if_neg hx]
    · exact alSet_sorted hs _ _

theorem fold_propagate_preserves (s : Nat) :
    ∀ (js : List Nat) (r : var_map_t), SortedMap r → Closed r →
      (∀ j ∈ js, j ∈ r.map.map Prod.fst) → (alFind r.map s).isSome = true →
      ∃ r', js.foldl (fun r0 j => propagate_group (fuelOf r0) r0 j s) r = r' ∧
        r'.map.map Prod.fst = r.map.map Prod.fst ∧
        (∀ x, (alFind r'.map x).map info_t.refs = (alFind r.map x).map info_t.refs) ∧
        SortedMap r' ∧ Closed r' := by
  intro js
  induction js with
  | nil =>
    intro r hs hc _ _
    exact ⟨r, rfl, rfl, fun x => rfl, hs, hc⟩
  | cons j js ih =>
    intro r hs hc hjs hsrc
    obtain ⟨si, hsi⟩ := Option.isSome_iff_exists.mp hsrc
    have heff := propagate_group_effect (fuelOf r) r j hs hc hsi
      ((alFind_isSome_iff _ _).mpr (hjs j (List.mem_cons_self j js)))
    obtain ⟨r', hfold, hkeys, hrefs, hs', hc'⟩ := ih (propagate_group (fuelOf r) r j s)
      (heff.sortedMap hs) (heff.closed hc)
      (fun j2 hj2 => by rw [heff.keys_eq]; exact hjs j2 (List.mem_cons_of_mem j hj2))
      (by rw [alFind_isSome_iff, heff.keys_eq, ← alFind_isSome_iff]; exact hsrc)
    refine ⟨r', ?_, ?_, ?_, hs', hc'⟩
    · rw [List.foldl_cons]
      exact hfold
    · rw [hkeys, heff.keys_eq]
    · intro x
      rw [hrefs x, heff.refsOf x]

theorem autopropagate_preserves (mp : var_map_t) (k : Nat) (hs : SortedMap mp)
    (hc : Closed mp) :
    ∃ r', autopropagate_group mp k = r' ∧
      r'.map.map Prod.fst = mp.map.map Prod.fst ∧
      (∀ x, (alFind r'.map x).map info_t.refs = (alFind mp.map x).map info_t.refs) ∧
      SortedMap r' ∧ Closed r' := by
  cases hf : alFind mp.map k with
  | none =>
    have heq : autopropagate_group mp k = mp := by
      unfold autopropagate_group findInfo
      rw [hf]
    exact ⟨mp, heq, rfl, fun x => rfl, hs, hc⟩
  | some i =>
    have heq : autopropagate_group mp k
        = i.refs.foldl (fun r j => propagate_group (fuelOf r) r j k) mp := by
      unfold autopropagate_group findInfo
      rw [hf]
    obtain ⟨r', hfold, h1, h2, h3, h4⟩ := fold_propagate_preserves k i.refs mp hs hc
      (fun j hj => Closed.find_refs hc hf j hj) (by rw [hf]; rfl)
    exact ⟨r', heq.trans hfold, h1, h2, h3, h4⟩

theorem getOrInsert_found {mp : var_map_t} {k : Nat} {i : info_t}
    (hf : alFind mp.map k = some i) : getOrInsert mp k = (i, mp) := by
  unfold getOrInsert
  rw [hf]

theorem detach_loop1 (k0 : Nat) :
    ∀ (js : List Nat) (r : var_map_t), SortedMap r →
      (∀ j ∈ js, (alFind r.map j).isSome = true) → js.Nodup →
      ∃ r', js.foldl (fun r refKey => match getOrInsert r refKey with
          | (ref, r1) => setInfo r1 refKey { ref with refs := serase ref.refs k0 }) r = r' ∧
        r'.map.map Prod.fst = r.map.map Prod.fst ∧ SortedMap r' ∧
        r'.store = r.store ∧ r'.next = r.next ∧
        (∀ x, x ∉ js → alFind r'.map x = alFind r.map x) ∧
        (∀ x ∈ js, alFind r'.map x
          = (alFind r.map x).map (fun i => { i with refs := serase i.refs k0 })) := by
  intro js
  induction js with
  | nil =>
    intro r hs _ _
    exact ⟨r, rfl, rfl, hs, rfl, rfl, fun x _ => rfl, by simp⟩
  | cons j js ih =>
    intro r hs hjs hnd
    obtain ⟨ij, hij⟩ := Option.isSome_iff_exists.mp (hjs j (List.mem_cons_self j js))
    rw [List.nodup_cons] at hnd
    have hkeys1 : (setInfo r j { ij with refs := serase ij.refs k0 }).map.map Prod.fst
        = r.map.map Prod.fst :=
      keys_alSet_of_found hs (by rw [hij]; rfl) _
    have hs1 : SortedMap (setInfo r j { ij with refs := serase ij.refs k0 }) :=
      alSet_sorted hs _ _
    have hfind1 : ∀ x, x ≠ j →
        alFind (setInfo r j { ij with refs := serase ij.refs k0 }).map x
        = alFind r.map x := by
      intro x hx
      show alFind (alSet r.map j _) x = _
      rw [alFind_alSet, if_neg hx]
    have hfind1j : alFind (setInfo r j { ij with refs := serase ij.refs k0 }).map j
        = some { ij with refs := serase ij.refs k0 } := by
      show alFind (alSet r.map j _) j = _
      rw [alFind_alSet, if_pos rfl]
    obtain ⟨r', hfold, hkeys, hs', hst, hnx, hout, hin⟩ :=
      ih (setInfo r j { ij with refs := serase ij.refs k0 }) hs1
        (fun j2 hj2 => by
          rw [alFind_isSome_iff, hkeys1, ← alFind_isSome_iff]
          exact hjs j2 (List.mem_cons_of_mem j hj2)) hnd.2
    refine ⟨r', ?_, hkeys.trans hkeys1, hs', hst, hnx, ?_, ?_⟩
    · simp only [List.foldl_cons, getOrInsert_found hij]
      exact hfold
    · intro x hx
      have hxj : x ≠ j := fun h => hx (h ▸ List.mem_cons_self j js)
      have hxjs : x ∉ js := fun h => hx (List.mem_cons_of_mem j h)
      rw [hout x hxjs, hfind1 x hxj]
    · intro x hx
      rcases List.mem_cons.mp hx with rfl | hxjs
      · rw [hout x hnd.1, hfind1j, hij]
        rfl
      · have hxj : x ≠ j := fun h => hnd.1 (h ▸ hxjs)
        rw [hin x hxjs, hfind1 x hxj]

theorem detach_loop2 (k : Nat) :
    ∀ (js : List Nat) (r : var_map_t), SortedMap r → Closed r →
      (∀ j ∈ js, j ∈ r.map.map Prod.fst) →
      ∃ r', js.foldl (fun r refKey => match getOrInsert r refKey with
          | (ref, r1) =>
            if ref.group_id = ref.key then r1
            else if ((alFind r1.map k).map info_t.group_id) = some ref.group_id then
              let r2 := setInfo r1 refKey { ref with group_id := ref.key }
              let r3 := allocate_and_notify_subscribers r2 refKey
              autopropagate_group r3 refKey
            else r1) r = r' ∧
        r'.map.map Prod.fst = r.map.map Prod.fst ∧
        (∀ x, (alFind r'.map x).map info_t.refs = (alFind r.map x).map info_t.refs) ∧
        SortedMap r' ∧ Closed r' := by
  intro js
  induction js with
  | nil =>
    intro r hs hc _
    exact ⟨r, rfl, rfl, fun x => rfl, hs, hc⟩
  | cons j js ih =>
    intro r hs hc hjs
    obtain ⟨ij, hij⟩ := Option.isSome_iff_exists.mp
      ((alFind_isSome_iff _ _).mpr (hjs j (List.mem_cons_self j js)))
    by_cases hg1 : ij.group_id = ij.key
    · obtain ⟨r', hfold, hkeys, hrefs, hs', hc'⟩ := ih r hs hc
        (fun j2 hj2 => hjs j2 (List.mem_cons_of_mem j hj2))
      refine ⟨r', ?_, hkeys, hrefs, hs', hc'⟩
      simp only [List.foldl_cons, getOrInsert_found hij]
      rw [if_pos hg1]
      exact hfold
    · by_cases hg2 : ((alFind r.map k).map info_t.group_id) = some ij.group_id
      · obtain ⟨hk1, hrf1, hs1⟩ := setInfo_preserves hs hij
          (rfl : ({ ij with group_id := ij.key } : info_t).refs = ij.refs)
        have hc1 : Closed (setInfo r j { ij with group_id := ij.key }) :=
          closed_transfer hs1 hk1 hrf1 hc
        obtain ⟨hk2, hrf2, hs2⟩ :=
          allocate_preserves (setInfo r j { ij with group_id := ij.key }) j hs1
        have hc2 : Closed (allocate_and_notify_subscribers
            (setInfo r j { ij with group_id := ij.key }) j) :=
          closed_transfer hs2 hk2 hrf2 hc1
        obtain ⟨r3, hauto, hk3, hrf3, hs3, hc3⟩ :=
          autopropagate_preserves (allocate_and_notify_subscribers
            (setInfo r j { ij with group_id := ij.key }) j) j hs2 hc2
        obtain ⟨r', hfold, hkeys, hrefs, hs', hc'⟩ := ih r3 hs3 hc3
          (fun j2 hj2 => by
            rw [hk3, hk2, hk1]
            exact hjs j2 (List.mem_cons_of_mem j hj2))
        refine ⟨r', ?_, ?_, ?_, hs', hc'⟩
        · simp only [List.foldl_cons, getOrInsert_found hij]
          rw [if_neg hg1, if_pos hg2, hauto]
          exact hfold
        · rw [hkeys, hk3, hk2, hk1]
        · intro x
          rw [hrefs x, hrf3 x, hrf2 x, hrf1 x]
      · obtain ⟨r', hfold, hkeys, hrefs, hs', hc'⟩ := ih r hs hc
          (fun j2 hj2 => hjs j2 (List.mem_cons_of_mem j hj2))
        refine ⟨r', ?_, hkeys, hrefs, hs', hc'⟩
        simp only [List.foldl_cons, getOrInsert_found hij]
        rw [if_neg hg1, if_neg hg2]
        exact hfold

/-- Master characterization of `detach_nodes` on a well-formed registry:
the result is well-formed and symmetric again, the detached slot is erased
(`shouldRemove`) or left with an empty reference set, and no surviving slot
references it any more. -/
theorem detach_nodes_spec (mp : var_map_t) (k : Nat) (sr : Bool)
    (hs : SortedMap mp) (hkc : KeyCons mp) (hc : Closed mp) (hsym : Symm mp)
    (hro : RefsOrdered mp) :
    ∃ r', detach_nodes mp k sr = r' ∧ SortedMap r' ∧ Closed r' ∧ Symm r' ∧
      (sr = true → alFind r'.map k = none) ∧
      (∀ i', alFind r'.map k = some i' → i'.refs = []) ∧
      (∀ e ∈ r'.map, k ∉ (e : Nat × info_t).2.refs) := by
  cases hf : alFind mp.map k with
  | none =>
    have heq : detach_nodes mp k sr = mp := by
      unfold detach_nodes findInfo
      rw [hf]
    refine ⟨mp, heq, hs, hc, hsym, fun _ => hf, ?_, ?_⟩
    · intro i' hi'
      rw [hf] at hi'
      exact Option.noConfusion hi'
    · intro e he hmem
      exact (alFind_eq_none_iff _ _).mp hf (hc e he k hmem)
  | some i0 =>
    have hkey0 : i0.key = k := KeyCons.find_key hkc hf
    have hnd0 : i0.refs.Nodup :=
      List.Pairwise.imp (fun h => Nat.ne_of_lt h) (RefsOrdered.find_sorted hro hf)
    obtain ⟨r1, hfold1, hkeys1, hs1, hst1, hnx1, hout1, hin1⟩ :=
      detach_loop1 i0.key i0.refs mp hs
        (fun j hj => (alFind_isSome_iff _ _).mpr (Closed.find_refs hc hf j hj)) hnd0
    have hc1 : Closed r1 := by
      intro e he j hj
      have hfe : alFind r1.map e.1 = some e.2 := alFind_of_mem hs1 he
      by_cases hmem : e.1 ∈ i0.refs
      · rw [hin1 e.1 hmem] at hfe
        cases hb : alFind mp.map e.1 with
        | none => rw [hb] at hfe; exact Option.noConfusion hfe
        | some ie =>
          rw [hb] at hfe
          injection hfe with hfe2
          rw [← hfe2] at hj
          have hj2 : j ∈ ie.refs := mem_of_mem_serase hj
          rw [hkeys1]
          exact hc (e.1, ie) (alFind_mem hb) j hj2
      · rw [hout1 e.1 hmem] at hfe
        rw [hkeys1]
        exact hc (e.1, e.2) (alFind_mem hfe) j hj
    obtain ⟨r2, hfold2, hkeys2, hrefs2, hs2, hc2⟩ := detach_loop2 k i0.refs r1 hs1 hc1
      (fun j hj => by rw [hkeys1]; exact Closed.find_refs hc hf j hj)
    have hkeysr2 : r2.map.map Prod.fst = mp.map.map Prod.fst := hkeys2.trans hkeys1
    have hchar : ∀ x ix2, alFind r2.map x = some ix2 →
        ∃ ix, alFind mp.map x = some ix ∧
          (∀ y, y ≠ i0.key → (y ∈ ix2.refs ↔ y ∈ ix.refs)) ∧
          (x ∈ i0.refs → i0.key ∉ ix2.refs) ∧
          (x ∉ i0.refs → ix2.refs = ix.refs) := by
      intro x ix2 hx2
      have h1 := hrefs2 x
      rw [hx2] at h1
      cases hb : alFind r1.map x with
      | none => rw [hb] at h1; exact Option.noConfusion h1
      | some i1 =>
        rw [hb] at h1
        have hre : ix2.refs = i1.refs := by injection h1
        by_cases hmem0 : x ∈ i0.refs
        · rw [hin1 x hmem0] at hb
          cases hb0 : alFind mp.map x with
          | none => rw [hb0] at hb; exact Option.noConfusion hb
          | some ix =>
            rw [hb0] at hb
            injection hb with hb2
            have hserase : i1.refs = serase ix.refs i0.key := by rw [← hb2]
            have hndx : ix.refs.Nodup :=
              List.Pairwise.imp (fun h => Nat.ne_of_lt h) (RefsOrdered.find_sorted hro hb0)
            refine ⟨ix, rfl, ?_, ?_, fun hn => absurd hmem0 hn⟩
            · intro y hy
              rw [hre, hserase, mem_serase hndx]
              exact ⟨fun hh => hh.1, fun hh => ⟨hh, hy⟩⟩
            · intro _
              rw [hre, hserase, mem_serase hndx]
              rintro ⟨_, hcon⟩
              exact hcon rfl
        · rw [hout1 x hmem0] at hb
          refine ⟨i1, hb, ?_, fun hh => absurd hh hmem0, fun _ => hre⟩
          intro y _
          rw [hre]
    have hnoref2 : ∀ x ix2, x ≠ k → alFind r2.map x = some ix2 → k ∉ ix2.refs := by
      intro x ix2 hxk hx2 hmem
      obtain ⟨ix, hix, _, hin0, hout0⟩ := hchar x ix2 hx2
      by_cases hmem0 : x ∈ i0.refs
      · exact (hin0 hmem0) (by rw [hkey0]; exact hmem)
      · rw [hout0 hmem0] at hmem
        exact hmem0 ((Symm.find_pair hsym hix hf).mp hmem)
    have hsymm2 : ∀ x y ix2 iy2, x ≠ k → y ≠ k → alFind r2.map x = some ix2 →
        alFind r2.map y = some iy2 → (y ∈ ix2.refs ↔ x ∈ iy2.refs) := by
      intro x y ix2 iy2 hxk hyk hx2 hy2
      obtain ⟨ix, hix, hiffx, _, _⟩ := hchar x ix2 hx2
      obtain ⟨iy, hiy, hiffy, _, _⟩ := hchar y iy2 hy2
      rw [hiffx y (by intro h; rw [hkey0] at h; exact hyk h),
        hiffy x (by intro h; rw [hkey0] at h; exact hxk h)]
      exact Symm.find_pair hsym hix hiy
    have hsymAux : ∀ (R : var_map_t), SortedMap R →
        (∀ x, x ≠ k → alFind R.map x = alFind r2.map x) →
        (∀ iR, alFind R.map k = some iR → iR.refs = []) →
        Symm R := by
      intro R hsR hRo hRk e he e2 he2
      have hfe : alFind R.map e.1 = some e.2 := alFind_of_mem hsR he
      have hfe2 : alFind R.map e2.1 = some e2.2 := alFind_of_mem hsR he2
      by_cases hek : e.1 = k
      · have hrefse : e.2.refs = [] := hRk e.2 (by rw [← hek]; exact hfe)
        by_cases he2k : e2.1 = k
        · have hrefse2 : e2.2.refs = [] := hRk e2.2 (by rw [← he2k]; exact hfe2)
          rw [hrefse, hrefse2]
          simp
        · have hr2e2 : alFind r2.map e2.1 = some e2.2 := by
            rw [← hRo e2.1 he2k]
            exact hfe2
          have hkn : k ∉ e2.2.refs := hnoref2 e2.1 e2.2 he2k hr2e2
          exact iff_of_false (by rw [hrefse]; simp) (by rw [hek]; exact hkn)
      · by_cases he2k : e2.1 = k
        · have hrefse2 : e2.2.refs = [] := hRk e2.2 (by rw [← he2k]; exact hfe2)
          have hr2e : alFind r2.map e.1 = some e.2 := by
            rw [← hRo e.1 hek]
            exact hfe
          have hkn : k ∉ e.2.refs := hnoref2 e.1 e.2 hek hr2e
          exact iff_of_false (by rw [he2k]; exact hkn) (by rw [hrefse2]; simp)
        · have hr2e : alFind r2.map e.1 = some e.2 := by
            rw [← hRo e.1 hek]
            exact hfe
          have hr2e2 : alFind r2.map e2.1 = some e2.2 := by
            rw [← hRo e2.1 he2k]
            exact hfe2
          exact hsymm2 e.1 e2.1 e.2 e2.2 hek he2k hr2e hr2e2
    cases sr with
    | true =>
      have heq : detach_nodes mp k true = { r2 with map := alErase r2.map i0.key } := by
        unfold detach_nodes findInfo
        rw [hf]
        simp only [hfold1, hfold2]
        rw [if_pos trivial]
      have hsfin : SortedMap ({ r2 with map := alErase r2.map i0.key } : var_map_t) :=
        alErase_sorted hs2 i0.key
      have hfinfind : ∀ x, x ≠ k →
          alFind ({ r2 with map := alErase r2.map i0.key } : var_map_t).map x
          = alFind r2.map x := by
        intro x hx
        show alFind (alErase r2.map i0.key) x = _
        rw [alFind_alErase hs2, if_neg (by rw [hkey0]; exact hx)]
      have hfinkNone : alFind ({ r2 with map := alErase r2.map i0.key } : var_map_t).map k
          = none := by
        show alFind (alErase r2.map i0.key) k = _
        rw [alFind_alErase hs2, if_pos (by rw [hkey0])]
      refine ⟨_, heq, hsfin, ?_, ?_, fun _ => hfinkNone, ?_, ?_⟩
      · -- closedness of the erased registry
        intro e he j hj
        have hmemr2 : e ∈ r2.map := (alErase_sublist r2.map i0.key).mem he
        have hfe : alFind r2.map e.1 = some e.2 := alFind_of_mem hs2 hmemr2
        have hek : e.1 ≠ k := by
          intro hcon
          have := alFind_of_mem hsfin he
          rw [hcon] at this
          rw [hfinkNone] at this
          exact Option.noConfusion this
        have hjk : j ≠ k := fun hcon => hnoref2 e.1 e.2 hek hfe (hcon ▸ hj)
        have hjdom : j ∈ r2.map.map Prod.fst := hc2 e hmemr2 j hj
        show j ∈ (alErase r2.map i0.key).map Prod.fst
        rw [keys_alErase hs2]
        rw [List.mem_filter]
        refine ⟨hjdom, ?_⟩
        rw [hkey0]
        exact decide_eq_true hjk
      · exact hsymAux _ hsfin hfinfind (fun iR hiR => by
          rw [hfinkNone] at hiR
          exact Option.noConfusion hiR)
      · intro i' hi'
        rw [hfinkNone] at hi'
        exact Option.noConfusion hi'
      · intro e he hmem
        have hmemr2 : e ∈ r2.map := (alErase_sublist r2.map i0.key).mem he
        have hfe : alFind r2.map e.1 = some e.2 := alFind_of_mem hs2 hmemr2
        have hek : e.1 ≠ k := by
          intro hcon
          have := alFind_of_mem hsfin he
          rw [hcon] at this
          rw [hfinkNone] at this
          exact Option.noConfusion this
        exact hnoref2 e.1 e.2 hek hfe hmem
    | false =>
      have hr2kSome : (alFind r2.map k).isSome = true := by
        rw [alFind_isSome_iff, hkeysr2, ← alFind_isSome_iff, hf]
        rfl
      obtain ⟨j, hj⟩ := Option.isSome_iff_exists.mp hr2kSome
      have hfk3 : alFind (setInfo r2 k { j with group_id := j.key }).map k
          = some { j with group_id := j.key } := by
        show alFind (alSet r2.map k _) k = _
        rw [alFind_alSet, if_pos rfl]
      have hfk4 : alFind (allocate_and_notify_subscribers (setInfo r2 k { j with group_id := j.key }) k).map k = some ({ j with group_id := j.key, ptr := some (setInfo r2 k { j with group_id := j.key }).next }) := by
        rw [allocate_eq hfk3]
        show alFind (alSet (alSet r2.map k _) k _) k = _
        rw [alSet_alSet, alFind_alSet, if_pos rfl]
      have heq : detach_nodes mp k false = setInfo (allocate_and_notify_subscribers (setInfo r2 k { j with group_id := j.key }) k) k ({ j with group_id := j.key, ptr := some (setInfo r2 k { j with group_id := j.key }).next, refs := [] }) := by
        unfold detach_nodes findInfo
        rw [hf]
        simp only [hfold1, hfold2]
        rw [if_neg (by simp)]
        simp only [hj, hfk4]
      have hs3 : SortedMap (setInfo r2 k { j with group_id := j.key }) :=
        alSet_sorted hs2 _ _
      obtain ⟨hk4, hrf4, hs4⟩ :=
        allocate_preserves (setInfo r2 k { j with group_id := j.key }) k hs3
      have hsfin : SortedMap (setInfo (allocate_and_notify_subscribers (setInfo r2 k { j with group_id := j.key }) k) k ({ j with group_id := j.key, ptr := some (setInfo r2 k { j with group_id := j.key }).next, refs := [] })) :=
        alSet_sorted hs4 _ _
      have hfinfind : ∀ x, x ≠ k → alFind (setInfo (allocate_and_notify_subscribers (setInfo r2 k { j with group_id := j.key }) k) k ({ j with group_id := j.key, ptr := some (setInfo r2 k { j with group_id := j.key }).next, refs := [] })).map x = alFind r2.map x := by
        intro x hx
        show alFind (alSet _ k _) x = _
        rw [alFind_alSet, if_neg hx]
        rw [allocate_eq hfk3]
        show alFind (alSet (alSet r2.map k _) k _) x = _
        rw [alFind_alSet, if_neg hx, alFind_alSet, if_neg hx]
      have hfink : alFind (setInfo (allocate_and_notify_subscribers (setInfo r2 k { j with group_id := j.key }) k) k ({ j with group_id := j.key, ptr := some (setInfo r2 k { j with group_id := j.key }).next, refs := [] })).map k = some ({ j with group_id := j.key, ptr := some (setInfo r2 k { j with group_id := j.key }).next, refs := [] }) := by
        show alFind (alSet _ k _) k = _
        rw [alFind_alSet, if_pos rfl]
      have hkeysfin : (setInfo (allocate_and_notify_subscribers (setInfo r2 k { j with group_id := j.key }) k) k ({ j with group_id := j.key, ptr := some (setInfo r2 k { j with group_id := j.key }).next, refs := [] })).map.map Prod.fst = r2.map.map Prod.fst := by
        show (alSet _ k _).map Prod.fst = _
        rw [keys_alSet_of_found hs4 (by rw [hfk4]; rfl) _, hk4]
        show (alSet r2.map k _).map Prod.fst = _
        rw [keys_alSet_of_found hs2 (by rw [hj]; rfl) _]
      refine ⟨_, heq, hsfin, ?_, ?_, ?_, ?_, ?_⟩
      · intro e he jx hjx
        have hfe := alFind_of_mem hsfin he
        by_cases hek : e.1 = k
        · rw [hek, hfink] at hfe
          injection hfe with hfe2
          rw [← hfe2] at hjx
          simp at hjx
        · rw [hfinfind e.1 hek] at hfe
          have hjdom : jx ∈ r2.map.map Prod.fst := hc2 (e.1, e.2) (alFind_mem hfe) jx hjx
          rw [hkeysfin]
          exact hjdom
      · exact hsymAux _ hsfin hfinfind (fun iR hiR => by
          rw [hfink] at hiR
          injection hiR with h
          rw [← h])
      · intro hcon
        exact Bool.noConfusion hcon
      · intro i' hi'
        rw [hfink] at hi'
        injection hi' with h
        rw [← h]
      · intro e he hmem
        have hfe := alFind_of_mem hsfin he
        by_cases hek : e.1 = k
        · rw [hek, hfink] at hfe
          injection hfe with hfe2
          rw [← hfe2] at hmem
          simp at hmem
        · rw [hfinfind e.1 hek] at hfe
          exact hnoref2 e.1 e.2 hek hfe hmem

theorem mem_alSet_of_absent {α : Type} {l : List (Nat × α)} {k : Nat}
    (habs : alFind l k = none) (v : α) (e : Nat × α) :
    e ∈ alSet l k v ↔ e = (k, v) ∨ e ∈ l := by
  induction l with
  | nil => simp [alSet]
  | cons e0 t ih =>
    obtain ⟨k0, v0⟩ := e0
    rw [alFind_cons] at habs
    have hk0 : ¬(k = k0) := by
      intro h
      rw [if_pos h] at habs
      exact Option.noConfusion habs
    rw [if_neg hk0] at habs
    simp only [alSet]
    by_cases h1 : k < k0
    · rw [if_pos h1]
      simp only [List.mem_cons]
    · rw [if_neg h1, if_neg hk0]
      simp only [List.mem_cons, ih habs]
      tauto

theorem symm_insert_fresh {mp : var_map_t} {key : Nat}
    (habs : alFind mp.map key = none)
    (hnoref : ∀ e ∈ mp.map, key ∉ (e : Nat × info_t).2.refs)
    (hsym : Symm mp) (i : info_t) (hrefs : i.refs = [])
    (R : var_map_t) (hR : R.map = alSet mp.map key i) : Symm R := by
  intro e he e2 he2
  rw [hR] at he he2
  rcases (mem_alSet_of_absent habs i e).mp he with rfl | he'
  · rcases (mem_alSet_of_absent habs i e2).mp he2 with rfl | he2'
    · exact Iff.rfl
    · exact iff_of_false
        (by intro hmem; have h2 : e2.1 ∈ i.refs := hmem; rw [hrefs] at h2; simp at h2)
        (hnoref e2 he2')
  · rcases (mem_alSet_of_absent habs i e2).mp he2 with rfl | he2'
    · exact iff_of_false (hnoref e he')
        (by intro hmem; have h2 : e.1 ∈ i.refs := hmem; rw [hrefs] at h2; simp at h2)
    · exact hsym e he' e2 he2'

theorem create_symm (t : Nat) (mp : var_map_t) (key v : Nat) (ow : Bool)
    (hs : SortedMap mp) (hkc : KeyCons mp) (hc : Closed mp) (hsym : Symm mp)
    (hro : RefsOrdered mp) : Symm (create t mp key v ow).2 := by
  unfold create
  cases hfk : alFind mp.map key with
  | none =>
    exact symm_insert_fresh hfk
      (fun e he hmem => (alFind_eq_none_iff _ _).mp hfk (hc e he key hmem)) hsym _ rfl
      _ rfl
  | some info =>
    show Symm ((if info.type_id = some t then ((some key, mp) : Option Nat × var_map_t)
      else if ow then createFresh t (impl_remove mp key) key v else (none, mp)).2)
    by_cases ht : info.type_id = some t
    · rw [if_pos ht]
      exact hsym
    · rw [if_neg ht]
      cases ow with
      | false =>
        rw [if_neg (by simp)]
        exact hsym
      | true =>
        rw [if_pos rfl]
        obtain ⟨r', heq, hs', hc', hsym', hnone, _, hnoref⟩ :=
          detach_nodes_spec mp key true hs hkc hc hsym hro
        show Symm (createFresh t (impl_remove mp key) key v).2
        unfold impl_remove
        rw [heq]
        exact symm_insert_fresh (hnone rfl) hnoref hsym' _ rfl _ rfl

theorem isSome_of_keys_eq {α : Type} {l l' : List (Nat × α)}
    (h : l'.map Prod.fst = l.map Prod.fst) (k : Nat) :
    (alFind l' k).isSome = (alFind l k).isSome := by
  by_cases hd : k ∈ l.map Prod.fst
  · rw [(alFind_isSome_iff _ _).mpr (by rw [h]; exact hd), (alFind_isSome_iff _ _).mpr hd]
  · have h1 : (alFind l' k).isSome = false := by
      rw [← Bool.not_eq_true]
      intro hh
      exact hd (by rw [← h]; exact (alFind_isSome_iff _ _).mp hh)
    have h2 : (alFind l k).isSome = false := by
      rw [← Bool.not_eq_true]
      intro hh
      exact hd ((alFind_isSome_iff _ _).mp hh)
    rw [h1, h2]

/-- Adding one mutual link `{a, b}` to a symmetric registry keeps it
symmetric. -/
theorem symm_add_link {mp R : var_map_t} (hsR : SortedMap R)
    {a b : Nat} {ia ib : info_t}
    (ha : alFind mp.map a = some ia) (hb : alFind mp.map b = some ib)
    (hRa : ∀ iRa, alFind R.map a = some iRa → ∀ y, y ∈ iRa.refs ↔ (y = b ∨ y ∈ ia.refs))
    (hRb : ∀ iRb, alFind R.map b = some iRb → ∀ y, y ∈ iRb.refs ↔ (y = a ∨ y ∈ ib.refs))
    (hRo : ∀ x, x ≠ a → x ≠ b → alFind R.map x = alFind mp.map x)
    (hkeys : ∀ x, (alFind R.map x).isSome = (alFind mp.map x).isSome)
    (hsym : Symm mp) : Symm R := by
  have hmem : ∀ x ix y, alFind R.map x = some ix →
      (y ∈ ix.refs ↔ ((x = a ∧ y = b) ∨ (x = b ∧ y = a) ∨
        ∃ ixm, alFind mp.map x = some ixm ∧ y ∈ ixm.refs)) := by
    intro x ix y hx
    by_cases hxa : x = a
    · subst hxa
      rw [hRa ix hx y]
      constructor
      · rintro (rfl | hy)
        · exact Or.inl ⟨rfl, rfl⟩
        · exact Or.inr (Or.inr ⟨ia, ha, hy⟩)
      · rintro (⟨_, rfl⟩ | ⟨hxb, hya⟩ | ⟨ixm, hxm, hy⟩)
        · exact Or.inl rfl
        · exact Or.inl (hya.trans hxb)
        · rw [ha] at hxm
          injection hxm with hh
          rw [← hh] at hy
          exact Or.inr hy
    · by_cases hxb : x = b
      · subst hxb
        rw [hRb ix hx y]
        constructor
        · rintro (rfl | hy)
          · exact Or.inr (Or.inl ⟨rfl, rfl⟩)
          · exact Or.inr (Or.inr ⟨ib, hb, hy⟩)
        · rintro (⟨hba, hyb⟩ | ⟨_, rfl⟩ | ⟨ixm, hxm, hy⟩)
          · exact Or.inl (hyb.trans hba)
          · exact Or.inl rfl
          · rw [hb] at hxm
            injection hxm with hh
            rw [← hh] at hy
            exact Or.inr hy
      · rw [hRo x hxa hxb] at hx
        constructor
        · intro hy
          exact Or.inr (Or.inr ⟨ix, hx, hy⟩)
        · rintro (⟨hcon, _⟩ | ⟨hcon, _⟩ | ⟨ixm, hxm, hy⟩)
          · exact absurd hcon hxa
          · exact absurd hcon hxb
          · rw [hx] at hxm
            injection hxm with hh
            rw [hh]
            exact hy
  intro e he e2 he2
  have hfe := alFind_of_mem hsR he
  have hfe2 := alFind_of_mem hsR he2
  rw [hmem e.1 e.2 e2.1 hfe, hmem e2.1 e2.2 e.1 hfe2]
  have hswap : ∀ x y ix iy, alFind R.map x = some ix → alFind R.map y = some iy →
      ((x = a ∧ y = b) ∨ (x = b ∧ y = a) ∨
        ∃ ixm, alFind mp.map x = some ixm ∧ y ∈ ixm.refs) →
      ((y = a ∧ x = b) ∨ (y = b ∧ x = a) ∨
        ∃ iym, alFind mp.map y = some iym ∧ x ∈ iym.refs) := by
    intro x y ix iy hx hy h
    rcases h with ⟨hh1, hh2⟩ | ⟨hh1, hh2⟩ | ⟨ixm, hxm, hmemy⟩
    · exact Or.inr (Or.inl ⟨hh2, hh1⟩)
    · exact Or.inl ⟨hh2, hh1⟩
    · have hdomy : (alFind mp.map y).isSome = true := by
        rw [← hkeys, hy]
        rfl
      obtain ⟨iym, hym⟩ := Option.isSome_iff_exists.mp hdomy
      exact Or.inr (Or.inr ⟨iym, hym, (Symm.find_pair hsym hxm hym).mp hmemy⟩)
  exact ⟨hswap e.1 e2.1 e.2 e2.2 hfe hfe2, hswap e2.1 e.1 e2.2 e.2 hfe2 hfe⟩

theorem link_vars_symm (mp : var_map_t) (k1 k2 : Nat)
    (hs : SortedMap mp) (hkc : KeyCons mp) (hsym : Symm mp) :
    Symm (link_vars mp k1 k2) := by
  cases h1 : alFind mp.map k1 with
  | none =>
    have hlv : link_vars mp k1 k2 = mp := by
      unfold link_vars
      simp only [h1]
    rw [hlv]
    exact hsym
  | some i1 =>
    cases h2 : alFind mp.map k2 with
    | none =>
      have hlv : link_vars mp k1 k2 = mp := by
        unfold link_vars
        simp only [h1, h2]
      rw [hlv]
      exact hsym
    | some i2 =>
      have hkey1 : i1.key = k1 := KeyCons.find_key hkc h1
      have hkey2 : i2.key = k2 := KeyCons.find_key hkc h2
      by_cases hk : k2 = k1
      · obtain rfl : i1 = i2 := by
          rw [hk, h1] at h2
          exact Option.some.inj h2
        have hf12 : alFind (setInfo mp k1 { i1 with refs := sinsert i1.refs i1.key }).map k2
            = some { i1 with refs := sinsert i1.refs i1.key } := by
          show alFind (alSet mp.map k1 _) k2 = _
          rw [alFind_alSet, if_pos hk]
        have hlv : link_vars mp k1 k2 = setInfo
            (setInfo mp k1 { i1 with refs := sinsert i1.refs i1.key }) k2
            ({ i1 with refs := sinsert (sinsert i1.refs i1.key) i1.key }) := by
          unfold link_vars
          simp only [h1, h2, hf12]
        rw [hlv]
        have hsfin : SortedMap (setInfo
            (setInfo mp k1 { i1 with refs := sinsert i1.refs i1.key }) k2
            ({ i1 with refs := sinsert (sinsert i1.refs i1.key) i1.key })) :=
          alSet_sorted (alSet_sorted hs _ _) _ _
        have hffin : alFind (setInfo
            (setInfo mp k1 { i1 with refs := sinsert i1.refs i1.key }) k2
            ({ i1 with refs := sinsert (sinsert i1.refs i1.key) i1.key })).map k2
            = some ({ i1 with refs := sinsert (sinsert i1.refs i1.key) i1.key }) := by
          show alFind (alSet _ k2 _) k2 = _
          rw [alFind_alSet, if_pos rfl]
        have hffin1 : alFind (setInfo
            (setInfo mp k1 { i1 with refs := sinsert i1.refs i1.key }) k2
            ({ i1 with refs := sinsert (sinsert i1.refs i1.key) i1.key })).map k1
            = some ({ i1 with refs := sinsert (sinsert i1.refs i1.key) i1.key }) := by
          show alFind (alSet _ k2 _) k1 = _
          rw [alFind_alSet, if_pos hk.symm]
        have hfo : ∀ x, x ≠ k1 → x ≠ k2 → alFind (setInfo
            (setInfo mp k1 { i1 with refs := sinsert i1.refs i1.key }) k2
            ({ i1 with refs := sinsert (sinsert i1.refs i1.key) i1.key })).map x
            = alFind mp.map x := by
          intro x hx1 hx2
          show alFind (alSet (alSet mp.map k1 _) k2 _) x = _
          rw [alFind_alSet, if_neg hx2, alFind_alSet, if_neg hx1]
        refine symm_add_link hsfin h1 h2 ?_ ?_ hfo ?_ hsym
        · intro iRa hiRa y
          rw [hffin1] at hiRa
          injection hiRa with hh
          rw [← hh]
          show y ∈ sinsert (sinsert i1.refs i1.key) i1.key ↔ (y = k2 ∨ y ∈ i1.refs)
          simp only [mem_sinsert, hkey1, hk]
          tauto
        · intro iRb hiRb y
          rw [hffin] at hiRb
          injection hiRb with hh
          rw [← hh]
          show y ∈ sinsert (sinsert i1.refs i1.key) i1.key ↔ (y = k1 ∨ y ∈ i1.refs)
          simp only [mem_sinsert, hkey1]
          tauto
        · have hsome2 : (alFind (alSet mp.map k1 ({ i1 with refs := sinsert i1.refs i1.key })) k2).isSome = true := by
            rw [alFind_alSet, if_pos hk]
            rfl
          have hkeysfin : (alSet (alSet mp.map k1 ({ i1 with refs := sinsert i1.refs i1.key })) k2 ({ i1 with refs := sinsert (sinsert i1.refs i1.key) i1.key })).map Prod.fst = mp.map.map Prod.fst := by
            rw [keys_alSet_of_found (alSet_sorted hs _ _) hsome2 _]
            exact keys_alSet_of_found hs (by rw [h1]; rfl) _
          intro x
          exact isSome_of_keys_eq hkeysfin x
      · have hf12 : alFind (setInfo mp k1 { i1 with refs := sinsert i1.refs i2.key }).map k2
            = some i2 := by
          show alFind (alSet mp.map k1 _) k2 = _
          rw [alFind_alSet, if_neg hk, h2]
        have hlv : link_vars mp k1 k2 = setInfo
            (setInfo mp k1 { i1 with refs := sinsert i1.refs i2.key }) k2
            ({ i2 with refs := sinsert i2.refs i1.key }) := by
          unfold link_vars
          simp only [h1, h2, hf12]
        rw [hlv]
        have hsfin : SortedMap (setInfo
            (setInfo mp k1 { i1 with refs := sinsert i1.refs i2.key }) k2
            ({ i2 with refs := sinsert i2.refs i1.key })) :=
          alSet_sorted (alSet_sorted hs _ _) _ _
        have hffin2 : alFind (setInfo
            (setInfo mp k1 { i1 with refs := sinsert i1.refs i2.key }) k2
            ({ i2 with refs := sinsert i2.refs i1.key })).map k2
            = some ({ i2 with refs := sinsert i2.refs i1.key }) := by
          show alFind (alSet _ k2 _) k2 = _
          rw [alFind_alSet, if_pos rfl]
        have hffin1 : alFind (setInfo
            (setInfo mp k1 { i1 with refs := sinsert i1.refs i2.key }) k2
            ({ i2 with refs := sinsert i2.refs i1.key })).map k1
            = some ({ i1 with refs := sinsert i1.refs i2.key }) := by
          show alFind (alSet (alSet mp.map k1 _) k2 _) k1 = _
          rw [alFind_alSet, if_neg (fun h => hk h.symm), alFind_alSet, if_pos rfl]
        have hfo : ∀ x, x ≠ k1 → x ≠ k2 → alFind (setInfo
            (setInfo mp k1 { i1 with refs := sinsert i1.refs i2.key }) k2
            ({ i2 with refs := sinsert i2.refs i1.key })).map x = alFind mp.map x := by
          intro x hx1 hx2
          show alFind (alSet (alSet mp.map k1 _) k2 _) x = _
          rw [alFind_alSet, if_neg hx2, alFind_alSet, if_neg hx1]
        refine symm_add_link hsfin h1 h2 ?_ ?_ hfo ?_ hsym
        · intro iRa hiRa y
          rw [hffin1] at hiRa
          injection hiRa with hh
          rw [← hh]
          show y ∈ sinsert i1.refs i2.key ↔ _
          rw [mem_sinsert, hkey2]
        · intro iRb hiRb y
          rw [hffin2] at hiRb
          injection hiRb with hh
          rw [← hh]
          show y ∈ sinsert i2.refs i1.key ↔ _
          rw [mem_sinsert, hkey1]
        · have hsome2 : (alFind (alSet mp.map k1 ({ i1 with refs := sinsert i1.refs i2.key })) k2).isSome = true := by
            rw [alFind_alSet, if_neg hk, h2]
            rfl
          have hkeysfin : (alSet (alSet mp.map k1 ({ i1 with refs := sinsert i1.refs i2.key })) k2 ({ i2 with refs := sinsert i2.refs i1.key })).map Prod.fst = mp.map.map Prod.fst := by
            rw [keys_alSet_of_found (alSet_sorted hs _ _) hsome2 _]
            exact keys_alSet_of_found hs (by rw [h1]; rfl) _
          intro x
          exact isSome_of_keys_eq hkeysfin x

theorem link_vars_links (mp : var_map_t) (k1 k2 : Nat) (hs : SortedMap mp)
    (hkc : KeyCons mp) {i1 i2 : info_t}
    (h1 : alFind mp.map k1 = some i1) (h2 : alFind mp.map k2 = some i2) :
    ∀ j1 j2, alFind (link_vars mp k1 k2).map k1 = some j1 →
      alFind (link_vars mp k1 k2).map k2 = some j2 →
      k2 ∈ j1.refs ∧ k1 ∈ j2.refs := by
  have hkey1 : i1.key = k1 := KeyCons.find_key hkc h1
  have hkey2 : i2.key = k2 := KeyCons.find_key hkc h2
  by_cases hk : k2 = k1
  · obtain rfl : i1 = i2 := by
      rw [hk, h1] at h2
      exact Option.some.inj h2
    have hf12 : alFind (setInfo mp k1 { i1 with refs := sinsert i1.refs i1.key }).map k2
        = some { i1 with refs := sinsert i1.refs i1.key } := by
      show alFind (alSet mp.map k1 _) k2 = _
      rw [alFind_alSet, if_pos hk]
    have hlv : link_vars mp k1 k2 = setInfo
        (setInfo mp k1 { i1 with refs := sinsert i1.refs i1.key }) k2
        ({ i1 with refs := sinsert (sinsert i1.refs i1.key) i1.key }) := by
      unfold link_vars
      simp only [h1, h2, hf12]
    intro j1 j2 hj1 hj2
    rw [hlv] at hj1 hj2
    have hffin1 : alFind (setInfo
        (setInfo mp k1 { i1 with refs := sinsert i1.refs i1.key }) k2
        ({ i1 with refs := sinsert (sinsert i1.refs i1.key) i1.key })).map k1
        = some ({ i1 with refs := sinsert (sinsert i1.refs i1.key) i1.key }) := by
      show alFind (alSet _ k2 _) k1 = _
      rw [alFind_alSet, if_pos hk.symm]
    have hffin2 : alFind (setInfo
        (setInfo mp k1 { i1 with refs := sinsert i1.refs i1.key }) k2
        ({ i1 with refs := sinsert (sinsert i1.refs i1.key) i1.key })).map k2
        = some ({ i1 with refs := sinsert (sinsert i1.refs i1.key) i1.key }) := by
      show alFind (alSet _ k2 _) k2 = _
      rw [alFind_alSet, if_pos rfl]
    rw [hffin1] at hj1
    rw [hffin2] at hj2
    injection hj1 with hh1
    injection hj2 with hh2
    rw [← hh1, ← hh2]
    constructor
    · show k2 ∈ sinsert (sinsert i1.refs i1.key) i1.key
      rw [mem_sinsert, hkey1]
      exact Or.inl hk
    · show k1 ∈ sinsert (sinsert i1.refs i1.key) i1.key
      rw [mem_sinsert, hkey1]
      exact Or.inl rfl
  · have hf12 : alFind (setInfo mp k1 { i1 with refs := sinsert i1.refs i2.key }).map k2
        = some i2 := by
      show alFind (alSet mp.map k1 _) k2 = _
      rw [alFind_alSet, if_neg hk, h2]
    have hlv : link_vars mp k1 k2 = setInfo
        (setInfo mp k1 { i1 with refs := sinsert i1.refs i2.key }) k2
        ({ i2 with refs := sinsert i2.refs i1.key }) := by
      unfold link_vars
      simp only [h1, h2, hf12]
    intro j1 j2 hj1 hj2
    rw [hlv] at hj1 hj2
    have hffin1 : alFind (setInfo
        (setInfo mp k1 { i1 with refs := sinsert i1.refs i2.key }) k2
        ({ i2 with refs := sinsert i2.refs i1.key })).map k1
        = some ({ i1 with refs := sinsert i1.refs i2.key }) := by
      show alFind (alSet (alSet mp.map k1 _) k2 _) k1 = _
      rw [alFind_alSet, if_neg (fun h => hk h.symm), alFind_alSet, if_pos rfl]
    have hffin2 : alFind (setInfo
        (setInfo mp k1 { i1 with refs := sinsert i1.refs i2.key }) k2
        ({ i2 with refs := sinsert i2.refs i1.key })).map k2
        = some ({ i2 with refs := sinsert i2.refs i1.key }) := by
      show alFind (alSet _ k2 _) k2 = _
      rw [alFind_alSet, if_pos rfl]
    rw [hffin1] at hj1
    rw [hffin2] at hj2
    injection hj1 with hh1
    injection hj2 with hh2
    rw [← hh1, ← hh2]
    constructor
    · show k2 ∈ sinsert i1.refs i2.key
      rw [mem_sinsert, hkey2]
      exact Or.inl rfl
    · show k1 ∈ sinsert i2.refs i1.key
      rw [mem_sinsert, hkey1]
      exact Or.inl rfl

theorem symm_add_fresh_link {mp R : var_map_t} (hsR : SortedMap R)
    {s n : Nat} {is0 : info_t}
    (hs0 : alFind mp.map s = some is0)
    (habs : alFind mp.map n = none)
    (hnoref : ∀ e ∈ mp.map, n ∉ (e : Nat × info_t).2.refs)
    (hRn : ∀ iRn, alFind R.map n = some iRn → ∀ y, y ∈ iRn.refs ↔ y = s)
    (hRs : ∀ iRs, alFind R.map s = some iRs → ∀ y, y ∈ iRs.refs ↔ (y = n ∨ y ∈ is0.refs))
    (hRo : ∀ x, x ≠ n → x ≠ s → alFind R.map x = alFind mp.map x)
    (hsym : Symm mp) : Symm R := by
  have hns : n ≠ s := by
    intro h
    rw [h, hs0] at habs
    exact Option.noConfusion habs
  intro e he e2 he2
  have hfe := alFind_of_mem hsR he
  have hfe2 := alFind_of_mem hsR he2
  by_cases h1n : e.1 = n
  · by_cases h2n : e2.1 = n
    · have : e.2 = e2.2 := by
        rw [h1n] at hfe
        rw [h2n] at hfe2
        rw [hfe] at hfe2
        exact Option.some.inj hfe2
      rw [h2n, h1n, this]
    · by_cases h2s : e2.1 = s
      · refine iff_of_true ?_ ?_
        · rw [hRn e.2 (by rw [← h1n]; exact hfe) e2.1, h2s]
        · rw [hRs e2.2 (by rw [← h2s]; exact hfe2) e.1]
          exact Or.inl h1n
      · refine iff_of_false ?_ ?_
        · rw [hRn e.2 (by rw [← h1n]; exact hfe) e2.1]
          exact h2s
        · rw [hRo e2.1 h2n h2s] at hfe2
          rw [h1n]
          exact hnoref (e2.1, e2.2) (alFind_mem hfe2)
  · by_cases h1s : e.1 = s
    · by_cases h2n : e2.1 = n
      · refine iff_of_true ?_ ?_
        · rw [hRs e.2 (by rw [← h1s]; exact hfe) e2.1]
          exact Or.inl h2n
        · rw [hRn e2.2 (by rw [← h2n]; exact hfe2) e.1, h1s]
      · by_cases h2s : e2.1 = s
        · have : e.2 = e2.2 := by
            rw [h1s] at hfe
            rw [h2s] at hfe2
            rw [hfe] at hfe2
            exact Option.some.inj hfe2
          rw [h2s, h1s, this]
        · rw [hRs e.2 (by rw [← h1s]; exact hfe) e2.1]
          rw [hRo e2.1 h2n h2s] at hfe2
          have hsym1 := Symm.find_pair hsym hs0 hfe2
          constructor
          · rintro (hcon | hmem)
            · exact absurd hcon h2n
            · rw [h1s]
              exact ((Symm.find_pair hsym hfe2 hs0).mpr hmem)
          · intro hmem
            rw [h1s] at hmem
            exact Or.inr ((Symm.find_pair hsym hfe2 hs0).mp hmem)
    · by_cases h2n : e2.1 = n
      · refine iff_of_false ?_ ?_
        · rw [hRo e.1 h1n h1s] at hfe
          rw [h2n]
          exact hnoref (e.1, e.2) (alFind_mem hfe)
        · rw [hRn e2.2 (by rw [← h2n]; exact hfe2) e.1]
          exact h1s
      · by_cases h2s : e2.1 = s
        · rw [hRs e2.2 (by rw [← h2s]; exact hfe2) e.1]
          rw [hRo e.1 h1n h1s] at hfe
          constructor
          · intro hmem
            rw [h2s] at hmem
            exact Or.inr ((Symm.find_pair hsym hfe hs0).mp hmem)
          · rintro (hcon | hmem)
            · exact absurd hcon h1n
            · rw [h2s]
              exact (Symm.find_pair hsym hfe hs0).mpr hmem
        · rw [hRo e.1 h1n h1s] at hfe
          rw [hRo e2.1 h2n h2s] at hfe2
          exact hsym (e.1, e.2) (alFind_mem hfe) (e2.1, e2.2) (alFind_mem hfe2)

theorem make_reference_symm (mp : var_map_t) (s n : Nat)
    (hs : SortedMap mp) (hkc : KeyCons mp) (hc : Closed mp) (hsym : Symm mp)
    (habs : alFind mp.map n = none) : Symm (make_reference mp s n) := by
  cases hvs : alFind mp.map s with
  | none =>
    have heq : make_reference mp s n = mp := by
      unfold make_reference
      simp only [hvs]
    rw [heq]
    exact hsym
  | some vi =>
    have hns : n ≠ s := by
      intro h
      rw [h, hvs] at habs
      exact Option.noConfusion habs
    have hkeyvi : vi.key = s := KeyCons.find_key hkc hvs
    have hf1 : alFind (setInfo mp n ({ ptr := vi.ptr, group_id := vi.group_id, key := n, type_id := vi.type_id, allocator := vi.allocator, copier := vi.copier, refs := sinsert [] vi.key, pointers_to_var := [] } : info_t)).map s = some vi := by
      show alFind (alSet mp.map n _) s = _
      rw [alFind_alSet, if_neg (fun h => hns h.symm), hvs]
    have hmr : make_reference mp s n = setInfo (setInfo mp n ({ ptr := vi.ptr, group_id := vi.group_id, key := n, type_id := vi.type_id, allocator := vi.allocator, copier := vi.copier, refs := sinsert [] vi.key, pointers_to_var := [] } : info_t)) s ({ vi with refs := sinsert vi.refs n }) := by
      unfold make_reference
      simp only [hvs, hf1]
    rw [hmr]
    have hsR : SortedMap (setInfo (setInfo mp n ({ ptr := vi.ptr, group_id := vi.group_id, key := n, type_id := vi.type_id, allocator := vi.allocator, copier := vi.copier, refs := sinsert [] vi.key, pointers_to_var := [] } : info_t)) s ({ vi with refs := sinsert vi.refs n })) :=
      alSet_sorted (alSet_sorted hs _ _) _ _
    have hfRn : alFind (setInfo (setInfo mp n ({ ptr := vi.ptr, group_id := vi.group_id, key := n, type_id := vi.type_id, allocator := vi.allocator, copier := vi.copier, refs := sinsert [] vi.key, pointers_to_var := [] } : info_t)) s ({ vi with refs := sinsert vi.refs n })).map n = some ({ ptr := vi.ptr, group_id := vi.group_id, key := n, type_id := vi.type_id, allocator := vi.allocator, copier := vi.copier, refs := sinsert [] vi.key, pointers_to_var := [] } : info_t) := by
      show alFind (alSet (alSet mp.map n _) s _) n = _
      rw [alFind_alSet, if_neg hns, alFind_alSet, if_pos rfl]
    have hfRs : alFind (setInfo (setInfo mp n ({ ptr := vi.ptr, group_id := vi.group_id, key := n, type_id := vi.type_id, allocator := vi.allocator, copier := vi.copier, refs := sinsert [] vi.key, pointers_to_var := [] } : info_t)) s ({ vi with refs := sinsert vi.refs n })).map s = some ({ vi with refs := sinsert vi.refs n }) := by
      show alFind (alSet _ s _) s = _
      rw [alFind_alSet, if_pos rfl]
    refine symm_add_fresh_link hsR hvs habs
      (fun e he hmem => (alFind_eq_none_iff _ _).mp habs (hc e he n hmem)) ?_ ?_ ?_ hsym
    · intro iRn hiRn y
      rw [hfRn] at hiRn
      injection hiRn with hh
      rw [← hh]
      show y ∈ sinsert [] vi.key ↔ _
      rw [mem_sinsert, hkeyvi]
      simp
    · intro iRs hiRs y
      rw [hfRs] at hiRs
      injection hiRs with hh
      rw [← hh]
      show y ∈ sinsert vi.refs n ↔ _
      rw [mem_sinsert]
    · intro x hxn hxs
      show alFind (alSet (alSet mp.map n _) s _) x = _
      rw [alFind_alSet, if_neg hxs, alFind_alSet, if_neg hxn]

theorem make_reference_links (mp : var_map_t) (s n : Nat)
    (hs : SortedMap mp) (hkc : KeyCons mp) {vi : info_t}
    (hvs : alFind mp.map s = some vi)
    (habs : alFind mp.map n = none) :
    ∀ j1 j2, alFind (make_reference mp s n).map s = some j1 →
      alFind (make_reference mp s n).map n = some j2 →
      n ∈ j1.refs ∧ s ∈ j2.refs := by
  have hns : n ≠ s := by
    intro h
    rw [h, hvs] at habs
    exact Option.noConfusion habs
  have hkeyvi : vi.key = s := KeyCons.find_key hkc hvs
  have hf1 : alFind (setInfo mp n ({ ptr := vi.ptr, group_id := vi.group_id, key := n, type_id := vi.type_id, allocator := vi.allocator, copier := vi.copier, refs := sinsert [] vi.key, pointers_to_var := [] } : info_t)).map s = some vi := by
    show alFind (alSet mp.map n _) s = _
    rw [alFind_alSet, if_neg (fun h => hns h.symm), hvs]
  have hmr : make_reference mp s n = setInfo (setInfo mp n ({ ptr := vi.ptr, group_id := vi.group_id, key := n, type_id := vi.type_id, allocator := vi.allocator, copier := vi.copier, refs := sinsert [] vi.key, pointers_to_var := [] } : info_t)) s ({ vi with refs := sinsert vi.refs n }) := by
    unfold make_reference
    simp only [hvs, hf1]
  intro j1 j2 hj1 hj2
  rw [hmr] at hj1 hj2
  have hfRs : alFind (setInfo (setInfo mp n ({ ptr := vi.ptr, group_id := vi.group_id, key := n, type_id := vi.type_id, allocator := vi.allocator, copier := vi.copier, refs := sinsert [] vi.key, pointers_to_var := [] } : info_t)) s ({ vi with refs := sinsert vi.refs n })).map s = some ({ vi with refs := sinsert vi.refs n }) := by
    show alFind (alSet _ s _) s = _
    rw [alFind_alSet, if_pos rfl]
  have hfRn : alFind (setInfo (setInfo mp n ({ ptr := vi.ptr, group_id := vi.group_id, key := n, type_id := vi.type_id, allocator := vi.allocator, copier := vi.copier, refs := sinsert [] vi.key, pointers_to_var := [] } : info_t)) s ({ vi with refs := sinsert vi.refs n })).map n = some ({ ptr := vi.ptr, group_id := vi.group_id, key := n, type_id := vi.type_id, allocator := vi.allocator, copier := vi.copier, refs := sinsert [] vi.key, pointers_to_var := [] } : info_t) := by
    show alFind (alSet (alSet mp.map n _) s _) n = _
    rw [alFind_alSet, if_neg hns, alFind_alSet, if_pos rfl]
  rw [hfRs] at hj1
  rw [hfRn] at hj2
  injection hj1 with hh1
  injection hj2 with hh2
  rw [← hh1, ← hh2]
  constructor
  · show n ∈ sinsert vi.refs n
    rw [mem_sinsert]
    exact Or.inl rfl
  · show s ∈ sinsert [] vi.key
    rw [mem_sinsert, hkeyvi]
    exact Or.inl rfl

theorem bind_symm (mp : var_map_t) (a b : Nat)
    (hs : SortedMap mp) (hkc : KeyCons mp) (hc : Closed mp) (hsym : Symm mp) :
    Symm (bind mp a b).2 := by
  cases h1 : alFind mp.map a with
  | none =>
    cases h2 : alFind mp.map b with
    | none =>
      have heq : bind mp a b = (bind_t.BIND_FAILED_NONEXISTENT_VAR, mp) := by
        unfold bind
        simp only [h1, h2]
      rw [heq]
      exact hsym
    | some i2 =>
      have heq : bind mp a b = (bind_t.BIND_CREATED_LHS, make_reference mp b a) := by
        unfold bind
        simp only [h1, h2]
      rw [heq]
      exact make_reference_symm mp b a hs hkc hc hsym h1
  | some i1 =>
    cases h2 : alFind mp.map b with
    | none =>
      have heq : bind mp a b = (bind_t.BIND_CREATED_RHS, make_reference mp a b) := by
        unfold bind
        simp only [h1, h2]
      rw [heq]
      exact make_reference_symm mp a b hs hkc hc hsym h2
    | some i2 =>
      have heq : bind mp a b = (if are_types_equal i1 i2 then (bind_t.BIND_PROPAGATED_LHS_GROUP, link_vars (propagate_group (fuelOf mp) mp b a) a b) else (bind_t.BIND_FAILED_DIFFERENT_TYPES, mp)) := by
        unfold bind
        simp only [h1, h2]
      rw [heq]
      by_cases ht : are_types_equal i1 i2 = true
      · rw [if_pos ht]
        have heff := propagate_group_effect (fuelOf mp) mp b hs hc h1 (by rw [h2]; rfl)
        exact link_vars_symm (propagate_group (fuelOf mp) mp b a) a b
          (heff.sortedMap hs) (heff.keyCons hkc)
          (symm_transfer hs (heff.sortedMap hs) (fun k => heff.refsOf k) hsym)
      · rw [if_neg ht]
        exact hsym

theorem bind_links (mp : var_map_t) (a b : Nat)
    (hs : SortedMap mp) (hkc : KeyCons mp) (hc : Closed mp)
    (hsucc : (bind mp a b).1 = bind_t.BIND_PROPAGATED_LHS_GROUP ∨
      (bind mp a b).1 = bind_t.BIND_CREATED_LHS ∨
      (bind mp a b).1 = bind_t.BIND_CREATED_RHS) :
    ∀ iA iB, alFind (bind mp a b).2.map a = some iA →
      alFind (bind mp a b).2.map b = some iB →
      b ∈ iA.refs ∧ a ∈ iB.refs := by
  cases h1 : alFind mp.map a with
  | none =>
    cases h2 : alFind mp.map b with
    | none =>
      have heq : bind mp a b = (bind_t.BIND_FAILED_NONEXISTENT_VAR, mp) := by
        unfold bind
        simp only [h1, h2]
      rw [heq] at hsucc
      rcases hsucc with h | h | h <;> exact bind_t.noConfusion h
    | some i2 =>
      have heq : bind mp a b = (bind_t.BIND_CREATED_LHS, make_reference mp b a) := by
        unfold bind
        simp only [h1, h2]
      rw [heq]
      intro iA iB hiA hiB
      have := make_reference_links mp b a hs hkc h2 h1 iB iA hiB hiA
      exact ⟨this.2, this.1⟩
  | some i1 =>
    cases h2 : alFind mp.map b with
    | none =>
      have heq : bind mp a b = (bind_t.BIND_CREATED_RHS, make_reference mp a b) := by
        unfold bind
        simp only [h1, h2]
      rw [heq]
      intro iA iB hiA hiB
      exact make_reference_links mp a b hs hkc h1 h2 iA iB hiA hiB
    | some i2 =>
      have heq : bind mp a b = (if are_types_equal i1 i2 then (bind_t.BIND_PROPAGATED_LHS_GROUP, link_vars (propagate_group (fuelOf mp) mp b a) a b) else (bind_t.BIND_FAILED_DIFFERENT_TYPES, mp)) := by
        unfold bind
        simp only [h1, h2]
      rw [heq] at hsucc ⊢
      by_cases ht : are_types_equal i1 i2 = true
      · rw [if_pos ht]
        intro iA iB hiA hiB
        have heff := propagate_group_effect (fuelOf mp) mp b hs hc h1 (by rw [h2]; rfl)
        have hs1 : SortedMap (propagate_group (fuelOf mp) mp b a) := heff.sortedMap hs
        have hkc1 : KeyCons (propagate_group (fuelOf mp) mp b a) := heff.keyCons hkc
        have h1s : (alFind (propagate_group (fuelOf mp) mp b a).map a).isSome = true := by
          rw [alFind_isSome_iff, heff.keys_eq, ← alFind_isSome_iff, h1]
          rfl
        have h2s : (alFind (propagate_group (fuelOf mp) mp b a).map b).isSome = true := by
          rw [alFind_isSome_iff, heff.keys_eq, ← alFind_isSome_iff, h2]
          rfl
        obtain ⟨j1, hj1⟩ := Option.isSome_iff_exists.mp h1s
        obtain ⟨j2, hj2⟩ := Option.isSome_iff_exists.mp h2s
        exact link_vars_links (propagate_group (fuelOf mp) mp b a) a b hs1 hkc1
          hj1 hj2 iA iB hiA hiB
      · exfalso
        rw [if_neg ht] at hsucc
        rcases hsucc with h | h | h <;> exact bind_t.noConfusion h

theorem rehome_refs_preserved (mpB : var_map_t) (k : Nat)
    (hsB : SortedMap mpB) (hcB : Closed mpB) (j : info_t)
    (hj : alFind mpB.map k = some j) :
    ∃ F, autopropagate_group (allocate_and_notify_subscribers
        (setInfo mpB k ({ j with group_id := j.key })) k) k = F ∧
      F.map.map Prod.fst = mpB.map.map Prod.fst ∧
      (∀ x, (alFind F.map x).map info_t.refs = (alFind mpB.map x).map info_t.refs) ∧
      SortedMap F ∧ Closed F := by
  obtain ⟨hkeysC, hrefsC, hsC⟩ :=
    @setInfo_preserves mpB k j ({ j with group_id := j.key }) hsB hj rfl
  have hcC : Closed (setInfo mpB k ({ j with group_id := j.key })) :=
    closed_transfer hsC hkeysC hrefsC hcB
  obtain ⟨hkeysD, hrefsD, hsD⟩ :=
    allocate_preserves (setInfo mpB k ({ j with group_id := j.key })) k hsC
  have hcD := closed_transfer hsD hkeysD hrefsD hcC
  obtain ⟨F, hF, hkeysF, hrefsF, hsF, hcF⟩ :=
    autopropagate_preserves (allocate_and_notify_subscribers
      (setInfo mpB k ({ j with group_id := j.key })) k) k hsD hcD
  refine ⟨F, hF, ?_, ?_, hsF, hcF⟩
  · rw [hkeysF, hkeysD, hkeysC]
  · intro x
    rw [hrefsF x, hrefsD x, hrefsC x]

theorem unbind_preserves (mp : var_map_t) (a b : Nat)
    (hs : SortedMap mp) (hkc : KeyCons mp) (hc : Closed mp) (hsym : Symm mp)
    (hro : RefsOrdered mp) :
    Symm (unbind mp a b) ∧
    (∀ iA iB, alFind (unbind mp a b).map a = some iA →
      alFind (unbind mp a b).map b = some iB →
      b ∉ iA.refs ∧ a ∉ iB.refs) := by
  cases h1 : alFind mp.map a with
  | none =>
    have heq : unbind mp a b = mp := by
      unfold unbind
      cases h2 : alFind mp.map b <;> simp only [h1, h2]
    rw [heq]
    exact ⟨hsym, fun iA iB hiA _ => Option.noConfusion (h1 ▸ hiA)⟩
  | some i1 =>
    cases h2 : alFind mp.map b with
    | none =>
      have heq : unbind mp a b = mp := by
        unfold unbind
        simp only [h1, h2]
      rw [heq]
      exact ⟨hsym, fun iA iB _ hiB => Option.noConfusion (h2 ▸ hiB)⟩
    | some i2 =>
      by_cases hg : b ∈ i1.refs ∨ a ∈ i2.refs
      · by_cases hab : a = b
        · -- the two keys alias: the slot loses its self-loop, then is re-homed
          subst hab
          obtain rfl : i1 = i2 := by
            rw [h1] at h2
            exact Option.some.inj h2
          have hnd : i1.refs.Nodup :=
            List.Pairwise.imp (fun h => Nat.ne_of_lt h) (RefsOrdered.find_sorted hro h1)
          have hnd2 : (serase i1.refs a).Nodup := hnd.sublist (serase_sublist i1.refs a)
          have hfAa : alFind (setInfo mp a ({ i1 with refs := serase i1.refs a })).map a = some ({ i1 with refs := serase i1.refs a }) := by
            show alFind (alSet mp.map a _) a = _
            rw [alFind_alSet, if_pos rfl]
          have hfBa : alFind (setInfo (setInfo mp a ({ i1 with refs := serase i1.refs a })) a ({ i1 with refs := serase (serase i1.refs a) a })).map a = some ({ i1 with refs := serase (serase i1.refs a) a }) := by
            show alFind (alSet (alSet mp.map a _) a _) a = _
            rw [alFind_alSet, if_pos rfl]
          have charB : ∀ x, alFind (setInfo (setInfo mp a ({ i1 with refs := serase i1.refs a })) a ({ i1 with refs := serase (serase i1.refs a) a })).map x = if x = a then some ({ i1 with refs := serase (serase i1.refs a) a }) else alFind mp.map x := by
            intro x
            show alFind (alSet (alSet mp.map a _) a _) x = _
            by_cases hx : x = a
            · rw [alFind_alSet, if_pos hx, if_pos hx]
            · rw [alFind_alSet, if_neg hx, alFind_alSet, if_neg hx, if_neg hx]
          have hsB : SortedMap (setInfo (setInfo mp a ({ i1 with refs := serase i1.refs a })) a ({ i1 with refs := serase (serase i1.refs a) a })) :=
            alSet_sorted (alSet_sorted hs _ _) _ _
          have hkeysB : (setInfo (setInfo mp a ({ i1 with refs := serase i1.refs a })) a ({ i1 with refs := serase (serase i1.refs a) a })).map.map Prod.fst = mp.map.map Prod.fst := by
            show (alSet (alSet mp.map a _) a _).map Prod.fst = _
            rw [keys_alSet_of_found (alSet_sorted hs _ _) (by rw [alFind_alSet, if_pos rfl]; rfl) _,
              keys_alSet_of_found hs (by rw [h1]; rfl) _]
          have hmm : ∀ y, y ≠ a → (y ∈ serase (serase i1.refs a) a ↔ y ∈ i1.refs) := by
            intro y hy
            rw [mem_serase hnd2, mem_serase hnd]
            exact ⟨fun h => h.1.1, fun h => ⟨⟨h, hy⟩, hy⟩⟩
          have hnota : a ∉ serase (serase i1.refs a) a := by
            rw [mem_serase hnd2]
            rintro ⟨_, h⟩
            exact h rfl
          have hsymB : Symm (setInfo (setInfo mp a ({ i1 with refs := serase i1.refs a })) a ({ i1 with refs := serase (serase i1.refs a) a })) := by
            intro e he e2 he2
            have hfe := alFind_of_mem hsB he
            have hfe2 := alFind_of_mem hsB he2
            rw [charB e.1] at hfe
            rw [charB e2.1] at hfe2
            by_cases h1a : e.1 = a
            · rw [if_pos h1a] at hfe
              have heE : e.2 = ({ i1 with refs := serase (serase i1.refs a) a } : info_t) :=
                (Option.some.inj hfe).symm
              by_cases h2a : e2.1 = a
              · rw [if_pos h2a] at hfe2
                have heE2 : e2.2 = ({ i1 with refs := serase (serase i1.refs a) a } : info_t) :=
                  (Option.some.inj hfe2).symm
                rw [h1a, h2a, heE, heE2]
              · rw [if_neg h2a] at hfe2
                rw [heE, h1a]
                show e2.1 ∈ serase (serase i1.refs a) a ↔ _
                rw [hmm e2.1 h2a]
                exact hsym (a, i1) (alFind_mem h1) (e2.1, e2.2) (alFind_mem hfe2)
            · rw [if_neg h1a] at hfe
              by_cases h2a : e2.1 = a
              · rw [if_pos h2a] at hfe2
                have heE2 : e2.2 = ({ i1 with refs := serase (serase i1.refs a) a } : info_t) :=
                  (Option.some.inj hfe2).symm
                rw [heE2, h2a]
                show _ ↔ e.1 ∈ serase (serase i1.refs a) a
                rw [hmm e.1 h1a]
                exact (hsym (a, i1) (alFind_mem h1) (e.1, e.2) (alFind_mem hfe)).symm
              · rw [if_neg h2a] at hfe2
                exact hsym (e.1, e.2) (alFind_mem hfe) (e2.1, e2.2) (alFind_mem hfe2)
          have hcB : Closed (setInfo (setInfo mp a ({ i1 with refs := serase i1.refs a })) a ({ i1 with refs := serase (serase i1.refs a) a })) := by
            intro e he j hj
            have hfe := alFind_of_mem hsB he
            rw [charB e.1] at hfe
            rw [hkeysB]
            by_cases h1a : e.1 = a
            · rw [if_pos h1a] at hfe
              have heE : e.2 = ({ i1 with refs := serase (serase i1.refs a) a } : info_t) :=
                (Option.some.inj hfe).symm
              rw [heE] at hj
              exact Closed.find_refs hc h1 j (mem_of_mem_serase (mem_of_mem_serase hj))
            · rw [if_neg h1a] at hfe
              exact hc (e.1, e.2) (alFind_mem hfe) j hj
          obtain ⟨F, hF, hkeysF, hrefsF, hsF, hcF⟩ :=
            rehome_refs_preserved (setInfo (setInfo mp a ({ i1 with refs := serase i1.refs a })) a ({ i1 with refs := serase (serase i1.refs a) a })) a hsB hcB
              ({ i1 with refs := serase (serase i1.refs a) a }) hfBa
          by_cases hgd : ({ i1 with refs := serase (serase i1.refs a) a } : info_t).group_id ≠ ({ i1 with refs := serase (serase i1.refs a) a } : info_t).key
          · have hunb : unbind mp a a = autopropagate_group (allocate_and_notify_subscribers (setInfo (setInfo (setInfo mp a ({ i1 with refs := serase i1.refs a })) a ({ i1 with refs := serase (serase i1.refs a) a })) a ({ ({ i1 with refs := serase (serase i1.refs a) a } : info_t) with group_id := ({ i1 with refs := serase (serase i1.refs a) a } : info_t).key })) a) a := by
              unfold unbind
              simp only [h1, hfAa, hfBa]
              rw [if_pos hg, if_pos hgd]
            rw [hunb, hF]
            refine ⟨symm_transfer hsB hsF hrefsF hsymB, ?_⟩
            intro iA iB hiA hiB
            have hra := hrefsF a
            rw [hiA, hfBa] at hra
            injection hra with hra
            rw [hra]
            exact ⟨hnota, by rw [hiA] at hiB; rw [Option.some.inj hiB] at hra; rw [hra]; exact hnota⟩
          · have hunb : unbind mp a a = autopropagate_group (allocate_and_notify_subscribers (setInfo (setInfo (setInfo mp a ({ i1 with refs := serase i1.refs a })) a ({ i1 with refs := serase (serase i1.refs a) a })) a ({ ({ i1 with refs := serase (serase i1.refs a) a } : info_t) with group_id := ({ i1 with refs := serase (serase i1.refs a) a } : info_t).key })) a) a := by
              unfold unbind
              simp only [h1, hfAa, hfBa]
              rw [if_pos hg, if_neg hgd]
            rw [hunb, hF]
            refine ⟨symm_transfer hsB hsF hrefsF hsymB, ?_⟩
            intro iA iB hiA hiB
            have hra := hrefsF a
            rw [hiA, hfBa] at hra
            injection hra with hra
            rw [hra]
            exact ⟨hnota, by rw [hiA] at hiB; rw [Option.some.inj hiB] at hra; rw [hra]; exact hnota⟩
        · -- distinct keys: the mutual link is erased, then one side re-homed
          have hnd1 : i1.refs.Nodup :=
            List.Pairwise.imp (fun h => Nat.ne_of_lt h) (RefsOrdered.find_sorted hro h1)
          have hnd2 : i2.refs.Nodup :=
            List.Pairwise.imp (fun h => Nat.ne_of_lt h) (RefsOrdered.find_sorted hro h2)
          have hfAb : alFind (setInfo mp a ({ i1 with refs := serase i1.refs b })).map b = some i2 := by
            show alFind (alSet mp.map a _) b = _
            rw [alFind_alSet, if_neg (fun h => hab h.symm), h2]
          have hfBb : alFind (setInfo (setInfo mp a ({ i1 with refs := serase i1.refs b })) b ({ i2 with refs := serase i2.refs a })).map b = some ({ i2 with refs := serase i2.refs a }) := by
            show alFind (alSet (alSet mp.map a _) b _) b = _
            rw [alFind_alSet, if_pos rfl]
          have hfBa : alFind (setInfo (setInfo mp a ({ i1 with refs := serase i1.refs b })) b ({ i2 with refs := serase i2.refs a })).map a = some ({ i1 with refs := serase i1.refs b }) := by
            show alFind (alSet (alSet mp.map a _) b _) a = _
            rw [alFind_alSet, if_neg hab, alFind_alSet, if_pos rfl]
          have charB : ∀ x, alFind (setInfo (setInfo mp a ({ i1 with refs := serase i1.refs b })) b ({ i2 with refs := serase i2.refs a })).map x = if x = b then some ({ i2 with refs := serase i2.refs a }) else if x = a then some ({ i1 with refs := serase i1.refs b }) else alFind mp.map x := by
            intro x
            show alFind (alSet (alSet mp.map a _) b _) x = _
            by_cases hxb : x = b
            · rw [alFind_alSet, if_pos hxb, if_pos hxb]
            · rw [alFind_alSet, if_neg hxb, alFind_alSet, if_neg hxb]
          have hsB : SortedMap (setInfo (setInfo mp a ({ i1 with refs := serase i1.refs b })) b ({ i2 with refs := serase i2.refs a })) :=
            alSet_sorted (alSet_sorted hs _ _) _ _
          have hkeysB : (setInfo (setInfo mp a ({ i1 with refs := serase i1.refs b })) b ({ i2 with refs := serase i2.refs a })).map.map Prod.fst = mp.map.map Prod.fst := by
            show (alSet (alSet mp.map a _) b _).map Prod.fst = _
            rw [keys_alSet_of_found (alSet_sorted hs _ _)
                (by rw [alFind_alSet, if_neg (fun h => hab h.symm), h2]; rfl) _,
              keys_alSet_of_found hs (by rw [h1]; rfl) _]
          have hmm1 : ∀ y, y ≠ b → (y ∈ serase i1.refs b ↔ y ∈ i1.refs) := by
            intro y hy
            rw [mem_serase hnd1]
            exact ⟨fun h => h.1, fun h => ⟨h, hy⟩⟩
          have hmm2 : ∀ y, y ≠ a → (y ∈ serase i2.refs a ↔ y ∈ i2.refs) := by
            intro y hy
            rw [mem_serase hnd2]
            exact ⟨fun h => h.1, fun h => ⟨h, hy⟩⟩
          have hnotb : b ∉ serase i1.refs b := by
            rw [mem_serase hnd1]
            rintro ⟨_, h⟩
            exact h rfl
          have hnota : a ∉ serase i2.refs a := by
            rw [mem_serase hnd2]
            rintro ⟨_, h⟩
            exact h rfl
          have hsymB : Symm (setInfo (setInfo mp a ({ i1 with refs := serase i1.refs b })) b ({ i2 with refs := serase i2.refs a })) := by
            intro e he e2 he2
            have hfe := alFind_of_mem hsB he
            have hfe2 := alFind_of_mem hsB he2
            rw [charB e.1] at hfe
            rw [charB e2.1] at hfe2
            by_cases h1b : e.1 = b
            · rw [if_pos h1b] at hfe
              have heE : e.2 = ({ i2 with refs := serase i2.refs a } : info_t) :=
                (Option.some.inj hfe).symm
              by_cases h2b : e2.1 = b
              · rw [if_pos h2b] at hfe2
                have heE2 : e2.2 = ({ i2 with refs := serase i2.refs a } : info_t) :=
                  (Option.some.inj hfe2).symm
                rw [h1b, h2b, heE, heE2]
              · by_cases h2a : e2.1 = a
                · rw [if_neg h2b, if_pos h2a] at hfe2
                  have heE2 : e2.2 = ({ i1 with refs := serase i1.refs b } : info_t) :=
                    (Option.some.inj hfe2).symm
                  refine iff_of_false ?_ ?_
                  · rw [heE, h2a]
                    exact hnota
                  · rw [heE2, h1b]
                    exact hnotb
                · rw [if_neg h2b, if_neg h2a] at hfe2
                  rw [heE, h1b]
                  show e2.1 ∈ serase i2.refs a ↔ _
                  rw [hmm2 e2.1 h2a]
                  exact hsym (b, i2) (alFind_mem h2) (e2.1, e2.2) (alFind_mem hfe2)
            · by_cases h1a : e.1 = a
              · rw [if_neg h1b, if_pos h1a] at hfe
                have heE : e.2 = ({ i1 with refs := serase i1.refs b } : info_t) :=
                  (Option.some.inj hfe).symm
                by_cases h2b : e2.1 = b
                · rw [if_pos h2b] at hfe2
                  have heE2 : e2.2 = ({ i2 with refs := serase i2.refs a } : info_t) :=
                    (Option.some.inj hfe2).symm
                  refine iff_of_false ?_ ?_
                  · rw [heE, h2b]
                    exact hnotb
                  · rw [heE2, h1a]
                    exact hnota
                · by_cases h2a : e2.1 = a
                  · rw [if_neg h2b, if_pos h2a] at hfe2
                    have heE2 : e2.2 = ({ i1 with refs := serase i1.refs b } : info_t) :=
                      (Option.some.inj hfe2).symm
                    rw [h1a, h2a, heE, heE2]
                  · rw [if_neg h2b, if_neg h2a] at hfe2
                    rw [heE, h1a]
                    show e2.1 ∈ serase i1.refs b ↔ _
                    rw [hmm1 e2.1 h2b]
                    exact hsym (a, i1) (alFind_mem h1) (e2.1, e2.2) (alFind_mem hfe2)
              · rw [if_neg h1b, if_neg h1a] at hfe
                by_cases h2b : e2.1 = b
                · rw [if_pos h2b] at hfe2
                  have heE2 : e2.2 = ({ i2 with refs := serase i2.refs a } : info_t) :=
                    (Option.some.inj hfe2).symm
                  rw [heE2, h2b]
                  show _ ↔ e.1 ∈ serase i2.refs a
                  rw [hmm2 e.1 h1a]
                  exact (hsym (b, i2) (alFind_mem h2) (e.1, e.2) (alFind_mem hfe)).symm
                · by_cases h2a : e2.1 = a
                  · rw [if_neg h2b, if_pos h2a] at hfe2
                    have heE2 : e2.2 = ({ i1 with refs := serase i1.refs b } : info_t) :=
                      (Option.some.inj hfe2).symm
                    rw [heE2, h2a]
                    show _ ↔ e.1 ∈ serase i1.refs b
                    rw [hmm1 e.1 h1b]
                    exact (hsym (a, i1) (alFind_mem h1) (e.1, e.2) (alFind_mem hfe)).symm
                  · rw [if_neg h2b, if_neg h2a] at hfe2
                    exact hsym (e.1, e.2) (alFind_mem hfe) (e2.1, e2.2) (alFind_mem hfe2)
          have hcB : Closed (setInfo (setInfo mp a ({ i1 with refs := serase i1.refs b })) b ({ i2 with refs := serase i2.refs a })) := by
            intro e he j hj
            have hfe := alFind_of_mem hsB he
            rw [charB e.1] at hfe
            rw [hkeysB]
            by_cases h1b : e.1 = b
            · rw [if_pos h1b] at hfe
              have heE : e.2 = ({ i2 with refs := serase i2.refs a } : info_t) :=
                (Option.some.inj hfe).symm
              rw [heE] at hj
              exact Closed.find_refs hc h2 j (mem_of_mem_serase hj)
            · by_cases h1a : e.1 = a
              · rw [if_neg h1b, if_pos h1a] at hfe
                have heE : e.2 = ({ i1 with refs := serase i1.refs b } : info_t) :=
                  (Option.some.inj hfe).symm
                rw [heE] at hj
                exact Closed.find_refs hc h1 j (mem_of_mem_serase hj)
              · rw [if_neg h1b, if_neg h1a] at hfe
                exact hc (e.1, e.2) (alFind_mem hfe) j hj
          by_cases hgd : ({ i2 with refs := serase i2.refs a } : info_t).group_id ≠ ({ i2 with refs := serase i2.refs a } : info_t).key
          · -- the second slot is re-homed
            obtain ⟨F, hF, hkeysF, hrefsF, hsF, hcF⟩ :=
              rehome_refs_preserved (setInfo (setInfo mp a ({ i1 with refs := serase i1.refs b })) b ({ i2 with refs := serase i2.refs a })) b hsB hcB
                ({ i2 with refs := serase i2.refs a }) hfBb
            have hunb : unbind mp a b = autopropagate_group (allocate_and_notify_subscribers (setInfo (setInfo (setInfo mp a ({ i1 with refs := serase i1.refs b })) b ({ i2 with refs := serase i2.refs a })) b ({ ({ i2 with refs := serase i2.refs a } : info_t) with group_id := ({ i2 with refs := serase i2.refs a } : info_t).key })) b) b := by
              unfold unbind
              simp only [h1, h2, hfAb, hfBb, hfBa]
              rw [if_pos hg, if_pos hgd]
            rw [hunb, hF]
            refine ⟨symm_transfer hsB hsF hrefsF hsymB, ?_⟩
            intro iA iB hiA hiB
            have hra := hrefsF a
            rw [hiA, hfBa] at hra
            injection hra with hra
            have hrb := hrefsF b
            rw [hiB, hfBb] at hrb
            injection hrb with hrb
            rw [hra, hrb]
            exact ⟨hnotb, hnota⟩
          · -- the first slot is re-homed
            obtain ⟨F, hF, hkeysF, hrefsF, hsF, hcF⟩ :=
              rehome_refs_preserved (setInfo (setInfo mp a ({ i1 with refs := serase i1.refs b })) b ({ i2 with refs := serase i2.refs a })) a hsB hcB
                ({ i1 with refs := serase i1.refs b }) hfBa
            have hunb : unbind mp a b = autopropagate_group (allocate_and_notify_subscribers (setInfo (setInfo (setInfo mp a ({ i1 with refs := serase i1.refs b })) b ({ i2 with refs := serase i2.refs a })) a ({ ({ i1 with refs := serase i1.refs b } : info_t) with group_id := ({ i1 with refs := serase i1.refs b } : info_t).key })) a) a := by
              unfold unbind
              simp only [h1, h2, hfAb, hfBb, hfBa]
              rw [if_pos hg, if_neg hgd]
            rw [hunb, hF]
            refine ⟨symm_transfer hsB hsF hrefsF hsymB, ?_⟩
            intro iA iB hiA hiB
            have hra := hrefsF a
            rw [hiA, hfBa] at hra
            injection hra with hra
            have hrb := hrefsF b
            rw [hiB, hfBb] at hrb
            injection hrb with hrb
            rw [hra, hrb]
            exact ⟨hnotb, hnota⟩
      · have heq : unbind mp a b = mp := by
          unfold unbind
          simp only [h1, h2]
          rw [if_neg hg]
        rw [heq]
        push_neg at hg
        refine ⟨hsym, fun iA iB hiA hiB => ?_⟩
        rw [h1] at hiA
        rw [h2] at hiB
        rw [← Option.some.inj hiA, ← Option.some.inj hiB]
        exact hg

theorem unbind_all_loop (ks : List Nat) :
    ∀ (r : var_map_t), SortedMap r →
      ∃ r', ks.foldl (fun r k =>
          match findInfo r k with
          | some i =>
            let r1 := setInfo r k { i with group_id := i.key }
            let r2 := allocate_and_notify_subscribers r1 k
            match findInfo r2 k with
            | some i2 => setInfo r2 k { i2 with refs := [] }
            | none => r2
          | none => r) r = r' ∧ SortedMap r' ∧
        r'.map.map Prod.fst = r.map.map Prod.fst ∧
        (∀ x ∈ ks, ∀ i, alFind r'.map x = some i → i.refs = []) ∧
        (∀ x, x ∉ ks → alFind r'.map x = alFind r.map x) := by
  induction ks with
  | nil =>
    intro r hs
    exact ⟨r, rfl, hs, rfl, fun x hx => absurd hx (List.not_mem_nil x), fun x _ => rfl⟩
  | cons k ks ih =>
    intro r hs
    cases hf : alFind r.map k with
    | none =>
      have hstep : (match findInfo r k with
          | some i =>
            let r1 := setInfo r k { i with group_id := i.key }
            let r2 := allocate_and_notify_subscribers r1 k
            match findInfo r2 k with
            | some i2 => setInfo r2 k { i2 with refs := [] }
            | none => r2
          | none => r) = r := by
        unfold findInfo
        rw [hf]
      obtain ⟨r', hfold, hs', hkeys, hproc, hunproc⟩ := ih r hs
      refine ⟨r', ?_, hs', hkeys, ?_, ?_⟩
      · rw [List.foldl_cons, hstep]
        exact hfold
      · intro x hx i hfi
        rcases List.mem_cons.mp hx with hxk | hxs
        · by_cases hxs2 : x ∈ ks
          · exact hproc x hxs2 i hfi
          · rw [hunproc x hxs2, hxk, hf] at hfi
            exact Option.noConfusion hfi
        · exact hproc x hxs i hfi
      · intro x hx
        exact hunproc x (fun h => hx (List.mem_cons_of_mem k h))
    | some i =>
      have hf1 : alFind (setInfo r k ({ i with group_id := i.key })).map k
          = some ({ i with group_id := i.key }) := by
        show alFind (alSet r.map k _) k = _
        rw [alFind_alSet, if_pos rfl]
      have hf2 : alFind (allocate_and_notify_subscribers (setInfo r k ({ i with group_id := i.key })) k).map k = some ({ i with group_id := i.key, ptr := some (setInfo r k ({ i with group_id := i.key })).next }) := by
        rw [allocate_eq hf1]
        show alFind (alSet _ k _) k = _
        rw [alFind_alSet, if_pos rfl]
      have hstep : (match findInfo r k with
          | some i =>
            let r1 := setInfo r k { i with group_id := i.key }
            let r2 := allocate_and_notify_subscribers r1 k
            match findInfo r2 k with
            | some i2 => setInfo r2 k { i2 with refs := [] }
            | none => r2
          | none => r) = setInfo (allocate_and_notify_subscribers (setInfo r k ({ i with group_id := i.key })) k) k ({ ({ i with group_id := i.key, ptr := some (setInfo r k ({ i with group_id := i.key })).next } : info_t) with refs := [] }) := by
        unfold findInfo
        simp only [hf, hf2]
      have hsS : SortedMap (setInfo (allocate_and_notify_subscribers (setInfo r k ({ i with group_id := i.key })) k) k ({ ({ i with group_id := i.key, ptr := some (setInfo r k ({ i with group_id := i.key })).next } : info_t) with refs := [] })) := by
        rw [allocate_eq hf1]
        exact alSet_sorted (alSet_sorted (alSet_sorted hs _ _) _ _) _ _
      have hkeysS : (setInfo (allocate_and_notify_subscribers (setInfo r k ({ i with group_id := i.key })) k) k ({ ({ i with group_id := i.key, ptr := some (setInfo r k ({ i with group_id := i.key })).next } : info_t) with refs := [] })).map.map Prod.fst = r.map.map Prod.fst := by
        rw [allocate_eq hf1]
        show (alSet (alSet (alSet r.map k _) k _) k _).map Prod.fst = _
        rw [keys_alSet_of_found (alSet_sorted (alSet_sorted hs _ _) _ _)
            (by rw [alFind_alSet, if_pos rfl]; rfl) _,
          keys_alSet_of_found (alSet_sorted hs _ _)
            (by rw [alFind_alSet, if_pos rfl]; rfl) _,
          keys_alSet_of_found hs (by rw [hf]; rfl) _]
      have hotherS : ∀ x, x ≠ k → alFind (setInfo (allocate_and_notify_subscribers (setInfo r k ({ i with group_id := i.key })) k) k ({ ({ i with group_id := i.key, ptr := some (setInfo r k ({ i with group_id := i.key })).next } : info_t) with refs := [] })).map x = alFind r.map x := by
        intro x hx
        rw [allocate_eq hf1]
        show alFind (alSet (alSet (alSet r.map k _) k _) k _) x = _
        rw [alFind_alSet, if_neg hx, alFind_alSet, if_neg hx, alFind_alSet, if_neg hx]
      have hatkS : alFind (setInfo (allocate_and_notify_subscribers (setInfo r k ({ i with group_id := i.key })) k) k ({ ({ i with group_id := i.key, ptr := some (setInfo r k ({ i with group_id := i.key })).next } : info_t) with refs := [] })).map k = some ({ ({ i with group_id := i.key, ptr := some (setInfo r k ({ i with group_id := i.key })).next } : info_t) with refs := [] }) := by
        show alFind (alSet _ k _) k = _
        rw [alFind_alSet, if_pos rfl]
      obtain ⟨r', hfold, hs', hkeys, hproc, hunproc⟩ :=
        ih (setInfo (allocate_and_notify_subscribers (setInfo r k ({ i with group_id := i.key })) k) k ({ ({ i with group_id := i.key, ptr := some (setInfo r k ({ i with group_id := i.key })).next } : info_t) with refs := [] })) hsS
      refine ⟨r', ?_, hs', hkeys.trans hkeysS, ?_, ?_⟩
      · rw [List.foldl_cons, hstep]
        exact hfold
      · intro x hx i0 hfi
        rcases List.mem_cons.mp hx with hxk | hxs
        · by_cases hxs2 : x ∈ ks
          · exact hproc x hxs2 i0 hfi
          · rw [hunproc x hxs2, hxk, hatkS] at hfi
            rw [← Option.some.inj hfi]
        · exact hproc x hxs i0 hfi
      · intro x hx
        rw [hunproc x (fun h => hx (List.mem_cons_of_mem k h)),
          hotherS x (fun h => hx (h ▸ List.mem_cons_self k ks))]

theorem unbind_all_symm (mp : var_map_t) (hs : SortedMap mp) :
    Symm (unbind_all mp) := by
  obtain ⟨F, hF, hsF, hkeys, hproc, _⟩ := unbind_all_loop (mp.map.map Prod.fst) mp hs
  have heq : unbind_all mp = F := by
    unfold unbind_all
    exact hF
  rw [heq]
  intro e he e2 he2
  have hfe := alFind_of_mem hsF he
  have hfe2 := alFind_of_mem hsF he2
  have hke : e.1 ∈ mp.map.map Prod.fst := by
    rw [← hkeys]
    exact List.mem_map_of_mem Prod.fst he
  have hke2 : e2.1 ∈ mp.map.map Prod.fst := by
    rw [← hkeys]
    exact List.mem_map_of_mem Prod.fst he2
  rw [hproc e.1 hke e.2 hfe, hproc e2.1 hke2 e2.2 hfe2]
  simp

theorem remove_spec (mp : var_map_t) (k : Nat)
    (hs : SortedMap mp) (hkc : KeyCons mp) (hc : Closed mp) (hsym : Symm mp)
    (hro : RefsOrdered mp) :
    Symm (remove mp k) ∧ alFind (remove mp k).map k = none ∧
      ∀ e ∈ (remove mp k).map, k ∉ (e : Nat × info_t).2.refs := by
  cases hf : alFind mp.map k with
  | none =>
    have heq : remove mp k = mp := by
      unfold remove
      rw [hf]
    rw [heq]
    refine ⟨hsym, hf, ?_⟩
    intro e he hmem
    exact (alFind_eq_none_iff _ _).mp hf (hc e he k hmem)
  | some info =>
    have heq : remove mp k = detach_nodes mp k true := by
      unfold remove impl_remove
      rw [hf]
    obtain ⟨r', heqd, hs', hc', hsym', hnone, _, hnoref⟩ :=
      detach_nodes_spec mp k true hs hkc hc hsym hro
    rw [heq, heqd]
    exact ⟨hsym', hnone rfl, hnoref⟩

theorem isolate_symm (mp : var_map_t) (k : Nat)
    (hs : SortedMap mp) (hkc : KeyCons mp) (hc : Closed mp) (hsym : Symm mp)
    (hro : RefsOrdered mp) : Symm (isolate mp k) := by
  cases hf : alFind mp.map k with
  | none =>
    have heq : isolate mp k = mp := by
      unfold isolate
      rw [hf]
    rw [heq]
    exact hsym
  | some info =>
    have heq : isolate mp k = detach_nodes mp k false := by
      unfold isolate
      rw [hf]
    obtain ⟨r', heqd, _, _, hsym', _, _, _⟩ :=
      detach_nodes_spec mp k false hs hkc hc hsym hro
    rw [heq, heqd]
    exact hsym'

/-- C4, amended.  `unbind` is a silent no-op exactly when a key is missing
or NEITHER slot references the other; an asymmetric link (one side still
listed) does not trigger the early return: the guard `refs.contains` is an
OR over the two directions, so `unbind` proceeds, erasing the surviving
half-link and re-homing one endpoint — witnessed concretely on `asymReg`,
where slot `2` ends up in its own group with a fresh copy of the value. -/
theorem C4_corrected :
    (∀ (mp : var_map_t) (k1 k2 : Nat),
      ((alFind mp.map k1).isNone = true ∨ (alFind mp.map k2).isNone = true ∨
        (∃ i1 i2, alFind mp.map k1 = some i1 ∧ alFind mp.map k2 = some i2 ∧
          k2 ∉ i1.refs ∧ k1 ∉ i2.refs)) → unbind mp k1 k2 = mp) ∧
    unbind asymReg 1 2 =
      ⟨[(1, ⟨some 0, 1, 1, some 0, 0, 0, [], []⟩),
        (2, ⟨some 1, 2, 2, some 0, 0, 0, [], []⟩)],
       [(0, 7), (1, 7)], 2⟩ := by
  constructor
  · intro mp k1 k2 h
    rcases h with h | h | ⟨i1, i2, h1, h2, hn1, hn2⟩
    · rw [Option.isNone_iff_eq_none] at h
      unfold unbind
      rw [h]
    · rw [Option.isNone_iff_eq_none] at h
      unfold unbind
      cases he1 : alFind mp.map k1 with
      | none => rfl
      | some i1 => rw [h]
    · have hng : ¬(k2 ∈ i1.refs ∨ k1 ∈ i2.refs) := by
        rintro (hc | hc)
        · exact hn1 hc
        · exact hn2 hc
      unfold unbind
      simp only [h1, h2]
      rw [if_neg hng]
  · decide

/-- Witness for `C4_corrected` on its universal part: unbinding against a
missing key leaves the one-slot registry untouched. -/
theorem C4_corrected_witness : unbind oneSlot 1 9 = oneSlot :=
  C4_corrected.1 oneSlot 1 9 (Or.inr (Or.inl (by decide)))

/-! ### Reachability utilities -/

theorem reach_closed_subset {mp : var_map_t} {P : Nat → Prop}
    (hstep : ∀ x y, P x → edgeOf mp x y → P y) :
    ∀ {a b : Nat}, Reach mp a b → P a → P b := by
  intro a b h
  induction h with
  | refl => exact id
  | tail _ hbc ihab => intro hpa; exact hstep _ _ (ihab hpa) hbc

theorem reach_mem_dom {mp : var_map_t} (hc : Closed mp) {a b : Nat}
    (h : Reach mp a b) (ha : (alFind mp.map a).isSome = true) :
    (alFind mp.map b).isSome = true := by
  refine @reach_closed_subset mp (fun z => (alFind mp.map z).isSome = true) ?_ a b h ha
  intro x y _ hedge
  obtain ⟨ix, hix, hy⟩ := hedge
  rw [alFind_isSome_iff]
  exact Closed.find_refs hc hix y hy

theorem reach_tail {mp : var_map_t} {a b c : Nat} (h : Reach mp a b)
    (h2 : edgeOf mp b c) : Reach mp a c :=
  Relation.ReflTransGen.tail h h2

theorem reach_of_empty_refs {mp : var_map_t} {a : Nat}
    (ha : ∀ i, alFind mp.map a = some i → i.refs = []) :
    ∀ b, Reach mp a b → b = a := by
  intro b h
  refine @reach_closed_subset mp (fun z => z = a) ?_ a b h rfl
  intro x y hx hedge
  subst hx
  obtain ⟨ix, hix, hy⟩ := hedge
  rw [ha ix hix] at hy
  simp at hy

/-! ### Cut-graph utilities -/

theorem reachcut_closed_subset {mp : var_map_t} {a b : Nat} {P : Nat → Prop}
    (hstep : ∀ x y, P x → edgeCut mp a b x y → P y) :
    ∀ {u w : Nat}, ReachCut mp a b u w → P u → P w := by
  intro u w h
  induction h with
  | refl => exact id
  | tail _ hbc ihab => intro hpa; exact hstep _ _ (ihab hpa) hbc

theorem reachcut_to_reach {mp : var_map_t} {a b x y : Nat}
    (h : ReachCut mp a b x y) : Reach mp x y :=
  Relation.ReflTransGen.mono (fun _ _ he => he.1) h

theorem edgeCut_symm {mp : var_map_t} {a b : Nat} (hc : Closed mp) (hsym : Symm mp)
    {x y : Nat} (h : edgeCut mp a b x y) : edgeCut mp a b y x := by
  obtain ⟨⟨ix, hix, hy⟩, h1, h2⟩ := h
  have hydom : y ∈ mp.map.map Prod.fst := Closed.find_refs hc hix y hy
  obtain ⟨iy, hiy⟩ := Option.isSome_iff_exists.mp ((alFind_isSome_iff _ _).mpr hydom)
  refine ⟨⟨iy, hiy, ?_⟩, ?_, ?_⟩
  · exact (Symm.find_pair hsym hiy hix).mpr (by simpa using hy)
  · rintro ⟨rfl, rfl⟩
    exact h2 ⟨rfl, rfl⟩
  · rintro ⟨rfl, rfl⟩
    exact h1 ⟨rfl, rfl⟩

theorem reachcut_symm {mp : var_map_t} {a b : Nat} (hc : Closed mp) (hsym : Symm mp)
    {x y : Nat} (h : ReachCut mp a b x y) : ReachCut mp a b y x :=
  Relation.ReflTransGen.symmetric (fun _ _ he => edgeCut_symm hc hsym he) h

theorem reachcut_tail {mp : var_map_t} {a b u x y : Nat} (h : ReachCut mp a b u x)
    (h2 : edgeCut mp a b x y) : ReachCut mp a b u y :=
  Relation.ReflTransGen.tail h h2

/-- A path in the full graph stays on one side of the link `{a, b}` until it
crosses it, so every node reachable from `a` is cut-reachable from `a` or
from `b`. -/
theorem reach_cover {mp : var_map_t} {a b : Nat} :
    ∀ {k : Nat}, Reach mp a k → ReachCut mp a b a k ∨ ReachCut mp a b b k := by
  intro k h
  induction h with
  | refl => exact Or.inl Relation.ReflTransGen.refl
  | tail hxy hedge ih =>
    rename_i x y
    by_cases hab : x = a ∧ y = b
    · exact Or.inr (hab.2 ▸ Relation.ReflTransGen.refl)
    · by_cases hba : x = b ∧ y = a
      · exact Or.inl (hba.2 ▸ Relation.ReflTransGen.refl)
      · rcases ih with h1 | h1
        · exact Or.inl (reachcut_tail h1 ⟨hedge, hab, hba⟩)
        · exact Or.inr (reachcut_tail h1 ⟨hedge, hab, hba⟩)

/-! ### A run of floods from one source (`autopropagate_group`) -/

theorem fold_flood (reg0 : var_map_t) (s : Nat) (si : info_t) (C : Finset Nat)
    (hs : SortedMap reg0) (hsrc : alFind reg0.map s = some si) (hsC : s ∉ C)
    (hCx : ∀ x ∈ C, ∃ ix, alFind reg0.map x = some ix ∧ ix.group_id ≠ si.group_id ∧
      ∀ y ∈ ix.refs, y ∈ C ∨ Blocked reg0 si.group_id y)
    (hCcard : C.card ≤ reg0.map.length) :
    ∀ (js : List Nat) (V : Finset Nat), V ⊆ C →
      (∀ j ∈ js, j ∈ C ∨ Blocked reg0 si.group_id j) →
      ∃ V' : Finset Nat, V ⊆ V' ∧ V' ⊆ C ∧ (∀ j ∈ js, j ∈ C → j ∈ V') ∧
        js.foldl (fun r j => propagate_group (fuelOf r) r j s)
          (rewriteOn si.group_id si.ptr V reg0) = rewriteOn si.group_id si.ptr V' reg0 ∧
        ∀ x ∈ V', x ∈ V ∨ ∀ ix, alFind reg0.map x = some ix →
          ∀ y ∈ ix.refs, y ∈ V' ∨ Blocked reg0 si.group_id y := by
  intro js
  induction js with
  | nil =>
    intro V hVC _
    exact ⟨V, Finset.Subset.refl V, hVC, by simp, rfl, fun x hx => Or.inl hx⟩
  | cons j js ih =>
    intro V hVC hjs
    have hcard : (C \ V).card < fuelOf (rewriteOn si.group_id si.ptr V reg0) := by
      have h1 : (C \ V).card ≤ C.card := Finset.card_le_card (Finset.sdiff_subset)
      have h2 : fuelOf (rewriteOn si.group_id si.ptr V reg0) = reg0.map.length + 1 := by
        simp [fuelOf, rewriteOn]
      omega
    obtain ⟨V1, hV1lo, hV1C, hjV1, heq1, hsat1⟩ :=
      propagate_group_flood (fuelOf (rewriteOn si.group_id si.ptr V reg0)) reg0 s si C V j
        hs hsrc hsC hCx hVC (hjs j (List.mem_cons_self j js)) hcard
    obtain ⟨V', hV'lo, hV'C, hjsV', heq2, hsat2⟩ :=
      ih V1 hV1C (fun j2 hj2 => hjs j2 (List.mem_cons_of_mem j hj2))
    refine ⟨V', hV1lo.trans hV'lo, hV'C, ?_, ?_, ?_⟩
    · intro j2 hj2 hj2C
      rcases List.mem_cons.mp hj2 with rfl | hj2m
      · exact hV'lo (hjV1 hj2C)
      · exact hjsV' j2 hj2m hj2C
    · simp only [List.foldl_cons]
      rw [heq1]
      exact heq2
    · intro x hx
      rcases hsat2 x hx with hx1 | hsx
      · rcases hsat1 x hx1 with hx0 | hsx1
        · exact Or.inl hx0
        · exact Or.inr (fun ix hix y hy => (hsx1 ix hix y hy).imp (fun h => hV'lo h) id)
      · exact Or.inr hsx

/-! ### Re-homing a slot: fresh storage plus a run of floods -/

theorem rehome_flood (m : var_map_t) (X : Nat) (jX : info_t) (C : Finset Nat)
    (hs : SortedMap m) (hfX : alFind m.map X = some jX) (hXC : X ∉ C)
    (hselfX : X ∉ jX.refs)
    (hCx : ∀ x ∈ C, ∃ ix, alFind m.map x = some ix ∧ ix.group_id ≠ X ∧
      ∀ y ∈ ix.refs, y ∈ C ∨ y = X)
    (hXrefs : ∀ y ∈ jX.refs, y ∈ C ∨ y = X)
    (hCcard : C.card ≤ m.map.length) :
    ∃ V' : Finset Nat, V' ⊆ C ∧ (∀ j ∈ jX.refs, j ∈ V') ∧
      (∀ x ∈ V', ∀ ix, alFind m.map x = some ix → ∀ y ∈ ix.refs, y ∈ V' ∨ y = X) ∧
      autopropagate_group
        (allocate_and_notify_subscribers (setInfo m X { jX with group_id := X }) X) X
      = rewriteOn X (some m.next) V'
          ⟨alSet m.map X { jX with group_id := X, ptr := some m.next },
           alSet m.store m.next (match jX.ptr with | some c => readCell m c | none => 0),
           m.next + 1⟩ := by
  have hfm1X : alFind (setInfo m X { jX with group_id := X }).map X
      = some { jX with group_id := X } := by
    show alFind (alSet m.map X _) X = _
    rw [alFind_alSet, if_pos rfl]
  have hD : allocate_and_notify_subscribers (setInfo m X { jX with group_id := X }) X =
      ⟨alSet m.map X { jX with group_id := X, ptr := some m.next },
       alSet m.store m.next (match jX.ptr with | some c => readCell m c | none => 0),
       m.next + 1⟩ := by
    rw [allocate_eq hfm1X]
    show (⟨alSet (alSet m.map X { jX with group_id := X }) X
        { jX with group_id := X, ptr := some m.next },
      alSet m.store m.next (match jX.ptr with | some c => readCell m c | none => 0),
      m.next + 1⟩ : var_map_t) = _
    rw [alSet_alSet]
  set E : var_map_t := ⟨alSet m.map X { jX with group_id := X, ptr := some m.next },
      alSet m.store m.next (match jX.ptr with | some c => readCell m c | none => 0),
      m.next + 1⟩ with hE
  have hEX : alFind E.map X = some { jX with group_id := X, ptr := some m.next } := by
    show alFind (alSet m.map X _) X = _
    rw [alFind_alSet, if_pos rfl]
  have hEother : ∀ k, k ≠ X → alFind E.map k = alFind m.map k := by
    intro k hk
    show alFind (alSet m.map X _) k = _
    rw [alFind_alSet, if_neg hk]
  have hsE : SortedMap E := alSet_sorted hs X _
  have hlenE : E.map.length = m.map.length := by
    have h1 := congrArg List.length
      (keys_alSet_of_found hs (by rw [hfX]; rfl)
        ({ jX with group_id := X, ptr := some m.next }))
    simpa using h1
  have hBlockedX : Blocked E X X := ⟨_, hEX, rfl⟩
  have hCxE : ∀ x ∈ C, ∃ ix, alFind E.map x = some ix ∧ ix.group_id ≠ X ∧
      ∀ y ∈ ix.refs, y ∈ C ∨ Blocked E X y := by
    intro x hx
    obtain ⟨ix, hix, hgx, hrx⟩ := hCx x hx
    have hxX : x ≠ X := fun h => hXC (h ▸ hx)
    refine ⟨ix, by rw [hEother x hxX]; exact hix, hgx, ?_⟩
    intro y hy
    rcases hrx y hy with h | h
    · exact Or.inl h
    · exact Or.inr (by rw [h]; exact hBlockedX)
  obtain ⟨V0, hV0lo, hV'C, hperj, heq, hsat⟩ :=
    fold_flood E X ({ jX with group_id := X, ptr := some m.next }) C hsE hEX hXC hCxE
      (by rw [hlenE]; exact hCcard) jX.refs ∅ (Finset.empty_subset C)
      (fun j hj => (hXrefs j hj).imp id (fun h => by rw [h]; exact hBlockedX))
  rw [rewriteOn_empty] at heq
  have hauto : autopropagate_group E X
      = jX.refs.foldl (fun r j => propagate_group (fuelOf r) r j X) E := by
    unfold autopropagate_group findInfo
    rw [hEX]
  refine ⟨V0, hV'C, ?_, ?_, ?_⟩
  · intro j hj
    rcases hXrefs j hj with h | h
    · exact hperj j hj h
    · exact absurd (h ▸ hj) hselfX
  · intro x hx ix hix y hy
    have hxX : x ≠ X := fun h => hXC (hV'C (h ▸ hx))
    rcases hsat x hx with h0 | hsx
    · exact absurd h0 (Finset.not_mem_empty x)
    · have hixE : alFind E.map x = some ix := by rw [hEother x hxX]; exact hix
      rcases hsx ix hixE y hy with h | h
      · exact Or.inl h
      · by_cases hyX : y = X
        · exact Or.inr hyX
        · exfalso
          obtain ⟨iy, hiy, hgy⟩ := h
          rw [hEother y hyX] at hiy
          obtain ⟨ix2, hix2, _, hrx⟩ := hCx x (hV'C hx)
          rw [hix] at hix2
          injection hix2 with hix2e
          subst hix2e
          rcases hrx y hy with hyC | hyX2
          · obtain ⟨iy2, hiy2, hgy2, _⟩ := hCx y hyC
            rw [hiy] at hiy2
            injection hiy2 with hiy2e
            subst hiy2e
            exact hgy2 hgy
          · exact hyX hyX2
  · rw [hD, hauto]
    exact heq

theorem readSlot_of_find {M : var_map_t} {k : Nat} {i : info_t} {c : Nat}
    (hf : alFind M.map k = some i) (hp : i.ptr = some c) :
    readSlot M k = readCell M c := by
  unfold readSlot findInfo
  rw [hf]
  show (match i.ptr with | some c => readCell M c | none => 0) = readCell M c
  rw [hp]

/-- The core of `unbind` past its guard: after the two link erasures, the
slot `X` (either endpoint, `Y` the other) is re-homed and floods its new
identity; every slot on `X`'s side of the cut gets `X`'s new group and the
fresh cell, every other slot of the old group is untouched, and both sides
still read the old payload. -/
theorem rehome_side
    (mp : var_map_t) (A B g p : Nat) (iA iB : info_t) (X Y : Nat) (iX0 : info_t)
    (hsm : SortedMap mp) (hkc : KeyCons mp) (hcl : Closed mp) (hsy : Symm mp)
    (hro : RefsOrdered mp) (hpb : PtrBound mp)
    (hA : alFind mp.map A = some iA) (hB : alFind mp.map B = some iB)
    (hAB : A ≠ B)
    (hBinA : B ∈ iA.refs) (hAinB : A ∈ iB.refs)
    (hselfA : A ∉ iA.refs) (hselfB : B ∉ iB.refs)
    (hbridge : ¬ ReachCut mp A B A B)
    (hcomp : ∀ k i, alFind mp.map k = some i → Reach mp A k →
      i.group_id = g ∧ i.ptr = some p)
    (hXY : (X = B ∧ Y = A) ∨ (X = A ∧ Y = B))
    (hgX : g ≠ X)
    (hiX0 : alFind mp.map X = some iX0) :
    ∃ mpF,
      autopropagate_group
        (allocate_and_notify_subscribers
          (setInfo
            (setInfo (setInfo mp A { iA with refs := serase iA.refs B }) B
              { iB with refs := serase iB.refs A })
            X { iX0 with group_id := X, refs := serase iX0.refs Y }) X) X = mpF ∧
      (∀ k, (alFind mpF.map k).isSome = (alFind mp.map k).isSome) ∧
      (∀ k, Reach mp A k → ∃ i', alFind mpF.map k = some i' ∧
        readSlot mpF k = readCell mp p ∧
        (ReachCut mp A B X k → i'.group_id = X ∧ i'.ptr = some mp.next) ∧
        (¬ReachCut mp A B X k → i'.group_id = g ∧ i'.ptr = some p)) := by
  have hReachAB : Reach mp A B := Relation.ReflTransGen.single ⟨iA, hA, hBinA⟩
  obtain ⟨iY0, hiY0, hXinY0, hselfY0, hYinX0, hselfX0, hYX, hReachAX, hReachAY,
      hbridgeX, hfr2X, hfr2Y, hABswap, hedgeX, hedgeXrev, hcoverXY⟩ :
      ∃ iY0, alFind mp.map Y = some iY0 ∧ X ∈ iY0.refs ∧ Y ∉ iY0.refs ∧
        Y ∈ iX0.refs ∧ X ∉ iX0.refs ∧ Y ≠ X ∧ Reach mp A X ∧ Reach mp A Y ∧
        ¬ ReachCut mp A B X Y ∧
        alFind (setInfo (setInfo mp A { iA with refs := serase iA.refs B }) B
          { iB with refs := serase iB.refs A }).map X
          = some { iX0 with refs := serase iX0.refs Y } ∧
        alFind (setInfo (setInfo mp A { iA with refs := serase iA.refs B }) B
          { iB with refs := serase iB.refs A }).map Y
          = some { iY0 with refs := serase iY0.refs X } ∧
        (∀ k, k ≠ X → k ≠ Y → (k ≠ A ∧ k ≠ B)) ∧
        (∀ y, y ∈ iX0.refs → y ≠ Y → edgeCut mp A B X y) ∧
        (∀ y, edgeCut mp A B X y → y ∈ iX0.refs ∧ y ≠ Y) ∧
        (∀ k, Reach mp A k → ReachCut mp A B X k ∨ ReachCut mp A B Y k) := by
    rcases hXY with ⟨hX, hY⟩ | ⟨hX, hY⟩
    · have hX0 : iX0 = iB := by
        rw [hX, hB] at hiX0
        injection hiX0 with h
        exact h.symm
      refine ⟨iA, ?_, ?_, ?_, ?_, ?_, ?_, ?_, ?_, ?_, ?_, ?_, ?_, ?_, ?_, ?_⟩
      · rw [hY]; exact hA
      · rw [hX]; exact hBinA
      · rw [hY]; exact hselfA
      · rw [hY, hX0]; exact hAinB
      · rw [hX, hX0]; exact hselfB
      · rw [hX, hY]; exact hAB
      · rw [hX]; exact hReachAB
      · rw [hY]; exact Relation.ReflTransGen.refl
      · rw [hX, hY]; exact fun h => hbridge (reachcut_symm hcl hsy h)
      · rw [hX, hY, hX0]
        show alFind (alSet (alSet mp.map A _) B _) B = _
        rw [alFind_alSet, if_pos rfl]
      · rw [hX, hY]
        show alFind (alSet (alSet mp.map A _) B _) A = _
        rw [alFind_alSet, if_neg hAB, alFind_alSet, if_pos rfl]
      · intro k h1 h2
        rw [hX] at h1
        rw [hY] at h2
        exact ⟨h2, h1⟩
      · intro y hy hyY
        rw [hX0] at hy
        rw [hY] at hyY
        rw [hX]
        exact ⟨⟨iB, hB, hy⟩, fun hc => hAB hc.1.symm, fun hc => hyY hc.2⟩
      · intro y hy
        rw [hX] at hy
        obtain ⟨⟨i, hfi, hyi⟩, _, h2⟩ := hy
        rw [hB] at hfi
        injection hfi with h
        rw [← h] at hyi
        refine ⟨?_, ?_⟩
        · rw [hX0]; exact hyi
        · rw [hY]; exact fun hyA => h2 ⟨rfl, hyA⟩
      · intro k hk
        rw [hX, hY]
        exact (reach_cover hk).symm
    · have hX0 : iX0 = iA := by
        rw [hX, hA] at hiX0
        injection hiX0 with h
        exact h.symm
      refine ⟨iB, ?_, ?_, ?_, ?_, ?_, ?_, ?_, ?_, ?_, ?_, ?_, ?_, ?_, ?_, ?_⟩
      · rw [hY]; exact hB
      · rw [hX]; exact hAinB
      · rw [hY]; exact hselfB
      · rw [hY, hX0]; exact hBinA
      · rw [hX, hX0]; exact hselfA
      · rw [hX, hY]; exact fun h => hAB h.symm
      · rw [hX]; exact Relation.ReflTransGen.refl
      · rw [hY]; exact hReachAB
      · rw [hX, hY]; exact hbridge
      · rw [hX, hY, hX0]
        show alFind (alSet (alSet mp.map A _) B _) A = _
        rw [alFind_alSet, if_neg hAB, alFind_alSet, if_pos rfl]
      · rw [hX, hY]
        show alFind (alSet (alSet mp.map A _) B _) B = _
        rw [alFind_alSet, if_pos rfl]
      · intro k h1 h2
        rw [hX] at h1
        rw [hY] at h2
        exact ⟨h1, h2⟩
      · intro y hy hyY
        rw [hX0] at hy
        rw [hY] at hyY
        rw [hX]
        exact ⟨⟨iA, hA, hy⟩, fun hc => hyY hc.2, fun hc => hAB hc.1⟩
      · intro y hy
        rw [hX] at hy
        obtain ⟨⟨i, hfi, hyi⟩, h1, _⟩ := hy
        rw [hA] at hfi
        injection hfi with h
        rw [← h] at hyi
        refine ⟨?_, ?_⟩
        · rw [hX0]; exact hyi
        · rw [hY]; exact fun hyB => h1 ⟨rfl, hyB⟩
      · intro k hk
        rw [hX, hY]
        exact reach_cover hk
  set r2 : var_map_t := setInfo (setInfo mp A { iA with refs := serase iA.refs B }) B
      { iB with refs := serase iB.refs A } with hr2def
  have hsr2 : SortedMap r2 := alSet_sorted (alSet_sorted hsm A _) B _
  have hr2keys : r2.map.map Prod.fst = mp.map.map Prod.fst := by
    show (alSet (alSet mp.map A _) B _).map Prod.fst = _
    rw [keys_alSet_of_found (alSet_sorted hsm A _)
      (by rw [alFind_alSet, if_neg (fun h => hAB h.symm), hB]; rfl) _]
    rw [keys_alSet_of_found hsm (by rw [hA]; rfl) _]
  have hr2len : r2.map.length = mp.map.length := by
    have h1 := congrArg List.length hr2keys
    simpa using h1
  have hfr2other : ∀ k, k ≠ A → k ≠ B → alFind r2.map k = alFind mp.map k := by
    intro k hkA hkB
    show alFind (alSet (alSet mp.map A _) B _) k = _
    rw [alFind_alSet, if_neg hkB, alFind_alSet, if_neg hkA]
  have hgiX0 : iX0.group_id = g ∧ iX0.ptr = some p := hcomp X iX0 hiX0 hReachAX
  have hgiY0 : iY0.group_id = g ∧ iY0.ptr = some p := hcomp Y iY0 hiY0 hReachAY
  have hplt : p < mp.next := PtrBound.find_bound hpb hiX0 hgiX0.2
  classical
  set C : Finset Nat :=
    ((mp.map.map Prod.fst).toFinset).filter (fun k => ReachCut mp A B X k ∧ k ≠ X)
    with hCdef
  have hmemC : ∀ k, k ∈ C ↔
      (k ∈ mp.map.map Prod.fst ∧ ReachCut mp A B X k ∧ k ≠ X) := by
    intro k
    rw [hCdef]
    simp [Finset.mem_filter, List.mem_toFinset]
  have hXnotC : X ∉ C := fun h => ((hmemC X).mp h).2.2 rfl
  have hYnotC : Y ∉ C := fun h => hbridgeX ((hmemC Y).mp h).2.1
  have hCnotAB : ∀ k ∈ C, k ≠ A ∧ k ≠ B := by
    intro k hk
    have h1 : k ≠ X := ((hmemC k).mp hk).2.2
    have h2 : k ≠ Y := fun h => hYnotC (h ▸ hk)
    exact hABswap k h1 h2
  have hcompCut : ∀ k i, alFind mp.map k = some i → ReachCut mp A B X k →
      i.group_id = g ∧ i.ptr = some p := by
    intro k i hf hrc
    exact hcomp k i hf (hReachAX.trans (reachcut_to_reach hrc))
  have hCx : ∀ x ∈ C, ∃ ix, alFind r2.map x = some ix ∧ ix.group_id ≠ X ∧
      ∀ y ∈ ix.refs, y ∈ C ∨ y = X := by
    intro x hx
    obtain ⟨hxdom, hxrc, hxX⟩ := (hmemC x).mp hx
    obtain ⟨hxA, hxB⟩ := hCnotAB x hx
    obtain ⟨ix, hix⟩ := Option.isSome_iff_exists.mp ((alFind_isSome_iff _ _).mpr hxdom)
    have hgx := hcompCut x ix hix hxrc
    refine ⟨ix, by rw [hfr2other x hxA hxB]; exact hix, by rw [hgx.1]; exact hgX, ?_⟩
    intro y hy
    have hedge : edgeCut mp A B x y :=
      ⟨⟨ix, hix, hy⟩, fun hc => hxA hc.1, fun hc => hxB hc.1⟩
    have hyrc : ReachCut mp A B X y := reachcut_tail hxrc hedge
    by_cases hyX : y = X
    · exact Or.inr hyX
    · left
      rw [hmemC]
      exact ⟨Closed.find_refs hcl hix y hy, hyrc, hyX⟩
  have hndX0 : iX0.refs.Nodup :=
    List.Pairwise.imp (fun h => Nat.ne_of_lt h) (RefsOrdered.find_sorted hro hiX0)
  have hXrefs : ∀ y ∈ serase iX0.refs Y, y ∈ C ∨ y = X := by
    intro y hy
    obtain ⟨hymem, hyY⟩ := (mem_serase hndX0 Y y).mp hy
    by_cases hyX : y = X
    · exact Or.inr hyX
    · left
      rw [hmemC]
      exact ⟨Closed.find_refs hcl hiX0 y hymem,
        Relation.ReflTransGen.single (hedgeX y hymem hyY), hyX⟩
  have hselfX' : X ∉ serase iX0.refs Y := fun h => hselfX0 (mem_of_mem_serase h)
  have hCcard : C.card ≤ r2.map.length := by
    rw [hr2len]
    calc C.card ≤ (mp.map.map Prod.fst).toFinset.card :=
          Finset.card_le_card (by rw [hCdef]; exact Finset.filter_subset _ _)
      _ ≤ (mp.map.map Prod.fst).length := List.toFinset_card_le _
      _ = mp.map.length := List.length_map _ _
  obtain ⟨V', hV'C, hrefsV', hsatV', heqF⟩ :=
    rehome_flood r2 X ({ iX0 with refs := serase iX0.refs Y }) C hsr2 hfr2X hXnotC
      hselfX' hCx hXrefs hCcard
  have hpay : (match ({ iX0 with refs := serase iX0.refs Y } : info_t).ptr with
      | some c => readCell r2 c | none => 0) = readCell mp p := by
    rw [show ({ iX0 with refs := serase iX0.refs Y } : info_t).ptr = some p from hgiX0.2]
    rfl
  have heqF2 : autopropagate_group (allocate_and_notify_subscribers (setInfo r2 X ({ iX0 with group_id := X, refs := serase iX0.refs Y })) X) X = rewriteOn X (some mp.next) V' ⟨alSet r2.map X ({ iX0 with group_id := X, refs := serase iX0.refs Y, ptr := some mp.next }), alSet mp.store mp.next (readCell mp p), mp.next + 1⟩ :=
    heqF.trans (congrArg (fun v => rewriteOn X (some mp.next) V' (⟨alSet r2.map X ({ iX0 with group_id := X, refs := serase iX0.refs Y, ptr := some mp.next }), alSet mp.store mp.next v, mp.next + 1⟩ : var_map_t)) hpay)
  have hcomplete : ∀ k ∈ C, k ∈ V' := by
    intro k hk
    obtain ⟨hkdom, hkrc, hkX⟩ := (hmemC k).mp hk
    have hstep : ∀ x y, (x ∈ V' ∨ x = X) → edgeCut mp A B x y → (y ∈ V' ∨ y = X) := by
      intro x y hx hedge
      rcases hx with hxV | hxX
      · have hxC := hV'C hxV
        obtain ⟨hxA, hxB⟩ := hCnotAB x hxC
        obtain ⟨ix, hix, hy⟩ := hedge.1
        have hixr2 : alFind r2.map x = some ix := by
          rw [hfr2other x hxA hxB]
          exact hix
        exact hsatV' x hxV ix hixr2 y hy
      · subst hxX
        obtain ⟨hymem, hyY⟩ := hedgeXrev y hedge
        exact Or.inl (hrefsV' y ((mem_serase hndX0 Y y).mpr ⟨hymem, hyY⟩))
    have := @reachcut_closed_subset mp A B (fun z => z ∈ V' ∨ z = X) hstep X k hkrc
      (Or.inr rfl)
    rcases this with h | h
    · exact h
    · exact absurd h hkX
  refine ⟨_, heqF2, ?_, ?_⟩
  · have hEkeys : (alSet r2.map X ({ iX0 with group_id := X, refs := serase iX0.refs Y, ptr := some mp.next })).map Prod.fst = mp.map.map Prod.fst := by
      rw [keys_alSet_of_found hsr2 (by rw [hfr2X]; rfl) _, hr2keys]
    have hiso : ∀ k, (alFind (alSet r2.map X ({ iX0 with group_id := X, refs := serase iX0.refs Y, ptr := some mp.next })) k).isSome = (alFind mp.map k).isSome := by
      intro k
      by_cases hd : k ∈ mp.map.map Prod.fst
      · rw [(alFind_isSome_iff _ _).mpr (by rw [hEkeys]; exact hd),
          (alFind_isSome_iff _ _).mpr hd]
      · have h1 : (alFind (alSet r2.map X ({ iX0 with group_id := X, refs := serase iX0.refs Y, ptr := some mp.next })) k).isSome = false := by
          rw [← Bool.not_eq_true]
          intro h
          exact hd (by rw [← hEkeys]; exact (alFind_isSome_iff _ _).mp h)
        have h2 : (alFind mp.map k).isSome = false := by
          rw [← Bool.not_eq_true]
          intro h
          exact hd ((alFind_isSome_iff _ _).mp h)
        rw [h1, h2]
    have hmapSome : ∀ (o : Option info_t) (f : info_t → info_t),
        (o.map f).isSome = o.isSome := by
      intro o f
      cases o <;> rfl
    intro k
    rw [alFind_rewriteOn]
    by_cases hkV : k ∈ V'
    · rw [if_pos hkV, hmapSome]
      exact hiso k
    · rw [if_neg hkV]
      exact hiso k
  · intro k hk
    rcases hcoverXY k hk with hrcX | hrcY
    · by_cases hkX : k = X
      · subst hkX
        have hXV : k ∉ V' := fun h => hXnotC (hV'C h)
        have hfind : alFind (rewriteOn k (some mp.next) V' ⟨alSet r2.map k ({ iX0 with group_id := k, refs := serase iX0.refs Y, ptr := some mp.next }), alSet mp.store mp.next (readCell mp p), mp.next + 1⟩).map k = some ({ iX0 with group_id := k, refs := serase iX0.refs Y, ptr := some mp.next }) := by
          rw [alFind_rewriteOn, if_neg hXV]
          show alFind (alSet r2.map k _) k = _
          rw [alFind_alSet, if_pos rfl]
        refine ⟨_, hfind, ?_, fun _ => ⟨rfl, rfl⟩,
          fun hn => absurd Relation.ReflTransGen.refl hn⟩
        rw [readSlot_of_find hfind rfl]
        show (alFind (alSet mp.store mp.next (readCell mp p)) mp.next).getD 0 = readCell mp p
        rw [alFind_alSet, if_pos rfl]
        rfl
      · have hkC : k ∈ C := (hmemC k).mpr
          ⟨(alFind_isSome_iff _ _).mp (reach_mem_dom hcl hk (by rw [hA]; rfl)),
            hrcX, hkX⟩
        have hkV : k ∈ V' := hcomplete k hkC
        obtain ⟨hkA, hkB⟩ := hCnotAB k hkC
        obtain ⟨ik, hik⟩ := Option.isSome_iff_exists.mp
          (reach_mem_dom hcl hk (by rw [hA]; rfl))
        have h1 : alFind (alSet r2.map X ({ iX0 with group_id := X, refs := serase iX0.refs Y, ptr := some mp.next })) k = some ik := by
          rw [alFind_alSet, if_neg hkX, hfr2other k hkA hkB]
          exact hik
        have hfind : alFind (rewriteOn X (some mp.next) V' ⟨alSet r2.map X ({ iX0 with group_id := X, refs := serase iX0.refs Y, ptr := some mp.next }), alSet mp.store mp.next (readCell mp p), mp.next + 1⟩).map k = some (rwInfo X (some mp.next) ik) := by
          rw [alFind_rewriteOn, if_pos hkV]
          exact congrArg (Option.map (rwInfo X (some mp.next))) h1
        refine ⟨_, hfind, ?_, fun _ => ⟨rfl, rfl⟩, fun hn => absurd hrcX hn⟩
        rw [readSlot_of_find hfind rfl]
        show (alFind (alSet mp.store mp.next (readCell mp p)) mp.next).getD 0 = readCell mp p
        rw [alFind_alSet, if_pos rfl]
        rfl
    · have hknot : ¬ ReachCut mp A B X k :=
        fun hxk => hbridgeX (hxk.trans (reachcut_symm hcl hsy hrcY))
      have hkX : k ≠ X := by
        intro h
        exact hknot (by rw [h]; exact Relation.ReflTransGen.refl)
      have hkV : k ∉ V' := fun h => hknot ((hmemC k).mp (hV'C h)).2.1
      by_cases hkY : k = Y
      · subst hkY
        have hfind : alFind (rewriteOn X (some mp.next) V' ⟨alSet r2.map X ({ iX0 with group_id := X, refs := serase iX0.refs k, ptr := some mp.next }), alSet mp.store mp.next (readCell mp p), mp.next + 1⟩).map k = some ({ iY0 with refs := serase iY0.refs X }) := by
          rw [alFind_rewriteOn, if_neg hkV]
          show alFind (alSet r2.map X _) k = _
          rw [alFind_alSet, if_neg hkX]
          exact hfr2Y
        refine ⟨_, hfind, ?_, fun hc => absurd hc hknot, fun _ => ⟨hgiY0.1, hgiY0.2⟩⟩
        rw [readSlot_of_find hfind hgiY0.2]
        show (alFind (alSet mp.store mp.next (readCell mp p)) p).getD 0 = readCell mp p
        rw [alFind_alSet, if_neg (by omega)]
        rfl
      · obtain ⟨hkA, hkB⟩ := hABswap k hkX hkY
        obtain ⟨ik, hik⟩ := Option.isSome_iff_exists.mp
          (reach_mem_dom hcl hk (by rw [hA]; rfl))
        have hgik := hcomp k ik hik hk
        have hfind : alFind (rewriteOn X (some mp.next) V' ⟨alSet r2.map X ({ iX0 with group_id := X, refs := serase iX0.refs Y, ptr := some mp.next }), alSet mp.store mp.next (readCell mp p), mp.next + 1⟩).map k = some ik := by
          rw [alFind_rewriteOn, if_neg hkV]
          show alFind (alSet r2.map X _) k = _
          rw [alFind_alSet, if_neg hkX, hfr2other k hkA hkB]
          exact hik
        refine ⟨_, hfind, ?_, fun hc => absurd hc hknot, fun _ => ⟨hgik.1, hgik.2⟩⟩
        rw [readSlot_of_find hfind hgik.2]
        show (alFind (alSet mp.store mp.next (readCell mp p)) p).getD 0 = readCell mp p
        rw [alFind_alSet, if_neg (by omega)]
        rfl

/-- C3: on a registry where the slots reachable from `A` form one group
(uniform group id `g` sharing cell `p`) and the mutual link `{A, B}` is the
sole connection between the two sub-trees (`¬ ReachCut`), `unbind mp A B`
partitions the old group's members into the `A`-side and the `B`-side of the
cut; exactly one endpoint `X` — `B` unless the group id already equals `B`'s
name, matching "whichever did not already have group id equal to its own
name" — is re-homed: every slot on `X`'s side now carries group id `X` and
the freshly allocated cell `mp.next` holding a copy of the old value, every
slot on the other side keeps `g` and the old cell `p`, and every slot of
both resulting groups still reads the pre-split value. -/
theorem C3_unbind_splits
    (mp : var_map_t) (A B g p : Nat) (iA iB : info_t)
    (hwf : WF mp) (hpb : PtrBound mp)
    (hA : alFind mp.map A = some iA) (hB : alFind mp.map B = some iB)
    (hAB : A ≠ B)
    (hBinA : B ∈ iA.refs) (hAinB : A ∈ iB.refs)
    (hselfA : A ∉ iA.refs) (hselfB : B ∉ iB.refs)
    (hbridge : ¬ ReachCut mp A B A B)
    (hcomp : ∀ k i, alFind mp.map k = some i → Reach mp A k →
      i.group_id = g ∧ i.ptr = some p) :
    (∀ k, (alFind (unbind mp A B).map k).isSome = (alFind mp.map k).isSome) ∧
    (∀ k, Reach mp A k →
      ((ReachCut mp A B A k ∨ ReachCut mp A B B k) ∧
        ¬(ReachCut mp A B A k ∧ ReachCut mp A B B k)) ∧
      ∃ i', alFind (unbind mp A B).map k = some i' ∧
        readSlot (unbind mp A B) k = readCell mp p ∧
        (ReachCut mp A B (if g = B then A else B) k →
          i'.group_id = (if g = B then A else B) ∧ i'.ptr = some mp.next) ∧
        (¬ReachCut mp A B (if g = B then A else B) k →
          i'.group_id = g ∧ i'.ptr = some p)) := by
  obtain ⟨hsm, hkc, hcl, hsy, hro⟩ := hwf
  have hgB2 : iB.group_id = g :=
    (hcomp B iB hB (Relation.ReflTransGen.single ⟨iA, hA, hBinA⟩)).1
  have hkeyB : iB.key = B := KeyCons.find_key hkc hB
  have hkeyA : iA.key = A := KeyCons.find_key hkc hA
  have hdisj : ∀ k, ¬(ReachCut mp A B A k ∧ ReachCut mp A B B k) := by
    intro k hconj
    exact hbridge (hconj.1.trans (reachcut_symm hcl hsy hconj.2))
  have hguard : B ∈ iA.refs ∨ A ∈ iB.refs := Or.inl hBinA
  have hfA_B : alFind (setInfo mp A { iA with refs := serase iA.refs B }).map B = some iB := by
    show alFind (alSet mp.map A _) B = _
    rw [alFind_alSet, if_neg (fun h => hAB h.symm), hB]
  have hfB_B : alFind (setInfo (setInfo mp A { iA with refs := serase iA.refs B }) B { iB with refs := serase iB.refs A }).map B = some { iB with refs := serase iB.refs A } := by
    show alFind (alSet (alSet mp.map A _) B _) B = _
    rw [alFind_alSet, if_pos rfl]
  have hfB_A : alFind (setInfo (setInfo mp A { iA with refs := serase iA.refs B }) B { iB with refs := serase iB.refs A }).map A = some { iA with refs := serase iA.refs B } := by
    show alFind (alSet (alSet mp.map A _) B _) A = _
    rw [alFind_alSet, if_neg hAB, alFind_alSet, if_pos rfl]
  by_cases hgb : g = B
  · -- the second slot already owns its group: the first is re-homed
    have hcond : ¬(({ iB with refs := serase iB.refs A } : info_t).group_id
        ≠ ({ iB with refs := serase iB.refs A } : info_t).key) := by
      show ¬(iB.group_id ≠ iB.key)
      rw [hgB2, hkeyB, hgb]
      exact fun h => h rfl
    have hunb : unbind mp A B = autopropagate_group (allocate_and_notify_subscribers (setInfo (setInfo (setInfo mp A { iA with refs := serase iA.refs B }) B { iB with refs := serase iB.refs A }) A ({ iA with group_id := A, refs := serase iA.refs B })) A) A := by
      unfold unbind
      simp only [hA, hB, hfA_B, hfB_B, hfB_A]
      rw [if_pos hguard, if_neg hcond, hkeyA]
    have hgXA : g ≠ A := by
      rw [hgb]
      exact fun h => hAB h.symm
    obtain ⟨mpF, hFeq, hdom, hmain⟩ :=
      rehome_side mp A B g p iA iB A B iA hsm hkc hcl hsy hro hpb hA hB hAB hBinA
        hAinB hselfA hselfB hbridge hcomp (Or.inr ⟨rfl, rfl⟩) hgXA hA
    have hunb2 : unbind mp A B = mpF := hunb.trans hFeq
    rw [hunb2]
    refine ⟨hdom, ?_⟩
    intro k hk
    refine ⟨⟨reach_cover hk, hdisj k⟩, ?_⟩
    rw [if_pos hgb]
    exact hmain k hk
  · -- the second slot is re-homed
    have hcond : ({ iB with refs := serase iB.refs A } : info_t).group_id
        ≠ ({ iB with refs := serase iB.refs A } : info_t).key := by
      show iB.group_id ≠ iB.key
      rw [hgB2, hkeyB]
      exact hgb
    have hunb : unbind mp A B = autopropagate_group (allocate_and_notify_subscribers (setInfo (setInfo (setInfo mp A { iA with refs := serase iA.refs B }) B { iB with refs := serase iB.refs A }) B ({ iB with group_id := B, refs := serase iB.refs A })) B) B := by
      unfold unbind
      simp only [hA, hB, hfA_B, hfB_B, hfB_A]
      rw [if_pos hguard, if_pos hcond, hkeyB]
    obtain ⟨mpF, hFeq, hdom, hmain⟩ :=
      rehome_side mp A B g p iA iB B A iB hsm hkc hcl hsy hro hpb hA hB hAB hBinA
        hAinB hselfA hselfB hbridge hcomp (Or.inl ⟨rfl, rfl⟩) hgb hB
    have hunb2 : unbind mp A B = mpF := hunb.trans hFeq
    rw [hunb2]
    refine ⟨hdom, ?_⟩
    intro k hk
    refine ⟨⟨reach_cover hk, hdisj k⟩, ?_⟩
    rw [if_neg hgb]
    exact hmain k hk

/-- Witness for `C3_unbind_splits` at the two-slot bound pair (keys `1`,`2`
sharing group `1` and cell `0` holding `42`): after `unbind 1 2` the key set
is unchanged, slot `2` is the re-homed endpoint with its own group and the
fresh cell, and it still reads the old value. -/
theorem C3_unbind_splits_witness :
    (∀ k, (alFind (unbind pairReg 1 2).map k).isSome = (alFind pairReg.map k).isSome) ∧
    ∃ i', alFind (unbind pairReg 1 2).map 2 = some i' ∧
      readSlot (unbind pairReg 1 2) 2 = readCell pairReg 0 ∧
      i'.group_id = 2 ∧ i'.ptr = some pairReg.next := by
  have hf1 : alFind pairReg.map 1 = some ⟨some 0, 1, 1, some 0, 0, 0, [2], []⟩ := by decide
  have hf2 : alFind pairReg.map 2 = some ⟨some 0, 1, 2, some 0, 0, 0, [1], []⟩ := by decide
  have hbridge : ¬ ReachCut pairReg 1 2 1 2 := by
    intro hrc
    have hstep : ∀ x y, x = 1 → edgeCut pairReg 1 2 x y → y = 1 := by
      intro x y hx hedge
      subst hx
      obtain ⟨⟨i, hfi, hyi⟩, h1, _⟩ := hedge
      rw [hf1] at hfi
      injection hfi with h
      rw [← h] at hyi
      have hy2 : y = 2 := by simpa using hyi
      exact absurd ⟨rfl, hy2⟩ h1
    have := @reachcut_closed_subset pairReg 1 2 (fun z => z = 1) hstep 1 2 hrc rfl
    exact absurd this (by decide)
  have hcomp : ∀ k i, alFind pairReg.map k = some i → Reach pairReg 1 k →
      i.group_id = 1 ∧ i.ptr = some 0 := by
    intro k i hf _
    have hdom : k ∈ pairReg.map.map Prod.fst := by
      rw [← alFind_isSome_iff, hf]
      rfl
    rw [show pairReg.map.map Prod.fst = [1, 2] from by decide] at hdom
    have hk : k = 1 ∨ k = 2 := by simpa using hdom
    rcases hk with rfl | rfl
    · rw [hf1] at hf
      injection hf with h
      rw [← h]
      exact ⟨rfl, rfl⟩
    · rw [hf2] at hf
      injection hf with h
      rw [← h]
      exact ⟨rfl, rfl⟩
  have hmain := C3_unbind_splits pairReg 1 2 1 0
    ⟨some 0, 1, 1, some 0, 0, 0, [2], []⟩ ⟨some 0, 1, 2, some 0, 0, 0, [1], []⟩
    (by decide) (by decide) hf1 hf2 (by decide) (by decide) (by decide)
    (by decide) (by decide) hbridge hcomp
  have hreach2 : Reach pairReg 1 2 :=
    Relation.ReflTransGen.single ⟨⟨some 0, 1, 1, some 0, 0, 0, [2], []⟩, hf1, by decide⟩
  obtain ⟨_, h2⟩ := (hmain.2 2 hreach2)
  obtain ⟨i', hfind, hval, himp, _⟩ := h2
  have hif : (if (1 : Nat) = 2 then 1 else 2) = 2 := by decide
  rw [hif] at himp
  obtain ⟨hgid, hptr⟩ := himp Relation.ReflTransGen.refl
  exact ⟨hmain.1, i', hfind, hval, hgid, hptr⟩

/-! ### Entries are only re-linked, never re-homed, by `link_vars` -/

theorem alFind_proj_setInfo {mp : var_map_t} {k0 : Nat} {i0 i0' : info_t}
    (hf : alFind mp.map k0 = some i0) (hg : i0'.group_id = i0.group_id)
    (hp : i0'.ptr = i0.ptr) (k : Nat) :
    ((alFind (setInfo mp k0 i0').map k).map info_t.group_id
      = (alFind mp.map k).map info_t.group_id) ∧
    ((alFind (setInfo mp k0 i0').map k).map info_t.ptr
      = (alFind mp.map k).map info_t.ptr) := by
  show ((alFind (alSet mp.map k0 i0') k).map _ = _) ∧ ((alFind (alSet mp.map k0 i0') k).map _ = _)
  rw [alFind_alSet]
  by_cases hk : k = k0
  · subst hk
    rw [if_pos rfl, hf]
    exact ⟨by simp [hg], by simp [hp]⟩
  · rw [if_neg hk]
    exact ⟨rfl, rfl⟩

theorem link_vars_proj (mp : var_map_t) (k1 k2 k : Nat) :
    (link_vars mp k1 k2).store = mp.store ∧ (link_vars mp k1 k2).next = mp.next ∧
    ((alFind (link_vars mp k1 k2).map k).map info_t.group_id
      = (alFind mp.map k).map info_t.group_id) ∧
    ((alFind (link_vars mp k1 k2).map k).map info_t.ptr
      = (alFind mp.map k).map info_t.ptr) := by
  cases h1 : alFind mp.map k1 with
  | none =>
    have hlv : link_vars mp k1 k2 = mp := by unfold link_vars; simp only [h1]
    rw [hlv]
    exact ⟨rfl, rfl, rfl, rfl⟩
  | some i1 =>
    cases h2 : alFind mp.map k2 with
    | none =>
      have hlv : link_vars mp k1 k2 = mp := by unfold link_vars; simp only [h1, h2]
      rw [hlv]
      exact ⟨rfl, rfl, rfl, rfl⟩
    | some i2 =>
      have hstep1 := @alFind_proj_setInfo mp k1 i1 ({ i1 with refs := sinsert i1.refs i2.key })
        h1 rfl rfl
      cases h3 : alFind (setInfo mp k1 { i1 with refs := sinsert i1.refs i2.key }).map k2 with
      | none =>
        have hlv : link_vars mp k1 k2 = setInfo mp k1 { i1 with refs := sinsert i1.refs i2.key } := by
          unfold link_vars
          simp only [h1, h2, h3]
        rw [hlv]
        exact ⟨rfl, rfl, (hstep1 k).1, (hstep1 k).2⟩
      | some i2' =>
        have hstep2 := @alFind_proj_setInfo (setInfo mp k1 ({ i1 with refs := sinsert i1.refs i2.key })) k2 i2' ({ i2' with refs := sinsert i2'.refs i1.key })
          h3 rfl rfl
        have hlv : link_vars mp k1 k2 =
            setInfo (setInfo mp k1 { i1 with refs := sinsert i1.refs i2.key }) k2
              { i2' with refs := sinsert i2'.refs i1.key } := by
          unfold link_vars
          simp only [h1, h2, h3]
        rw [hlv]
        exact ⟨rfl, rfl, ((hstep2 k).1).trans ((hstep1 k).1),
          ((hstep2 k).2).trans ((hstep1 k).2)⟩

theorem get_eq_of_ptr {t : Nat} {mp : var_map_t} {k k2 : Nat} {i i2 : info_t}
    (h : alFind mp.map k = some i) (h2 : alFind mp.map k2 = some i2)
    (hp : i.ptr = i2.ptr) : get t mp k = get t mp k2 := by
  simp [get, get_ptr, h, h2, hp]

/-! ### Claim C2: bind of two existing same-type slots floods the whole group -/

/-- C2: on a registry with existing same-type slots `kL`, `kR` — `kR`'s
component uniform in group id and storage, group-coherent with `kL`'s
identity — `bind` returns Merged (`BIND_PROPAGATED_LHS_GROUP`) and
afterwards every slot that was transitively reachable from `kR` over `refs`
before the call carries `kL`'s group id and `kL`'s storage pointer, so
reading any of them yields the value read through `kL`; in particular the
spec's Scenario A: after `create(1, 0.1)`, `create(2, 0.0)`, `bind(1, 2)`,
reading key `2` returns the payload of `0.1`. -/
theorem C2_bind_merges :
    (∀ (mp : var_map_t) (kL kR : Nat) (iL iR : info_t),
      SortedMap mp → Closed mp →
      alFind mp.map kL = some iL → alFind mp.map kR = some iR →
      iL.type_id = iR.type_id →
      (∀ k i, alFind mp.map k = some i → Reach mp kR k →
        i.group_id = iR.group_id ∧ i.ptr = iR.ptr) →
      (∀ k i, alFind mp.map k = some i → i.group_id = iL.group_id → i.ptr = iL.ptr) →
      (bind mp kL kR).1 = bind_t.BIND_PROPAGATED_LHS_GROUP ∧
      (∀ k, Reach mp kR k → ∃ i',
        alFind (bind mp kL kR).2.map k = some i' ∧
        i'.group_id = iL.group_id ∧ i'.ptr = iL.ptr ∧
        get 0 (bind mp kL kR).2 k = get 0 (bind mp kL kR).2 kL)) ∧
    ((bind scenarioA 1 2).1 = bind_t.BIND_PROPAGATED_LHS_GROUP ∧
      get 0 (bind scenarioA 1 2).2 2 = 100) := by
  constructor
  · intro mp kL kR iL iR hs hc hL hR htype huni hcoh
    have hbind : bind mp kL kR =
        (bind_t.BIND_PROPAGATED_LHS_GROUP,
          link_vars (propagate_group (fuelOf mp) mp kR kL) kL kR) := by
      simp [bind, hL, hR, are_types_equal, htype]
    rw [hbind]
    refine ⟨rfl, ?_⟩
    by_cases hcase : iL.group_id = iR.group_id
    · -- the groups already coincide: the flood's guard stops immediately
      have hprop : propagate_group (fuelOf mp) mp kR kL = mp :=
        propagate_group_noop hL hR hcase (fuelOf mp)
      rw [hprop]
      intro k hk
      have hkdom : (alFind mp.map k).isSome = true :=
        reach_mem_dom hc hk (by rw [hR]; rfl)
      obtain ⟨ik, hik⟩ := Option.isSome_iff_exists.mp hkdom
      obtain ⟨hgk, hpk⟩ := huni k ik hik hk
      have hgk' : ik.group_id = iL.group_id := by rw [hgk, ← hcase]
      have hpk' : ik.ptr = iL.ptr := by
        rw [hpk]
        exact hcoh kR iR hR hcase.symm
      have hproj := link_vars_proj mp kL kR
      obtain ⟨ik', hik'⟩ : ∃ i', alFind (link_vars mp kL kR).map k = some i' := by
        have := (hproj k).2.2.1
        rw [hik] at this
        cases hfin : alFind (link_vars mp kL kR).map k with
        | none => rw [hfin] at this; simp at this
        | some v => exact ⟨v, rfl⟩
      have hgfin : ik'.group_id = ik.group_id := by
        have := (hproj k).2.2.1
        rw [hik, hik'] at this
        simpa using this
      have hpfin : ik'.ptr = ik.ptr := by
        have := (hproj k).2.2.2
        rw [hik, hik'] at this
        simpa using this
      obtain ⟨jL, hjL⟩ : ∃ j, alFind (link_vars mp kL kR).map kL = some j := by
        have := (hproj kL).2.2.1
        rw [hL] at this
        cases hfin : alFind (link_vars mp kL kR).map kL with
        | none => rw [hfin] at this; simp at this
        | some v => exact ⟨v, rfl⟩
      have hpjL : jL.ptr = iL.ptr := by
        have := (hproj kL).2.2.2
        rw [hL, hjL] at this
        simpa using this
      refine ⟨ik', hik', by rw [hgfin, hgk'], by rw [hpfin, hpk'], ?_⟩
      exact get_eq_of_ptr hik' hjL (by rw [hpfin, hpk', hpjL])
    · -- genuine merge: the flood rewrites exactly the component of kR
      classical
      have hRdom : (alFind mp.map kR).isSome = true := by rw [hR]; rfl
      let C : Finset Nat :=
        ((mp.map.map Prod.fst).toFinset).filter (fun k => Reach mp kR k)
      have hmemC : ∀ x, x ∈ C ↔ ((alFind mp.map x).isSome = true ∧ Reach mp kR x) := by
        intro x
        simp only [C, Finset.mem_filter, List.mem_toFinset, alFind_isSome_iff]
      have hsC : kL ∉ C := by
        intro hmem
        obtain ⟨_, hreach⟩ := (hmemC kL).mp hmem
        exact hcase (huni kL iL hL hreach).1
      have hCx : ∀ x ∈ C, ∃ ix, alFind mp.map x = some ix ∧ ix.group_id ≠ iL.group_id ∧
          ∀ y ∈ ix.refs, y ∈ C ∨ Blocked mp iL.group_id y := by
        intro x hx
        obtain ⟨hxdom, hxreach⟩ := (hmemC x).mp hx
        obtain ⟨ix, hix⟩ := Option.isSome_iff_exists.mp hxdom
        refine ⟨ix, hix, ?_, ?_⟩
        · rw [(huni x ix hix hxreach).1]
          exact fun h => hcase h.symm
        · intro y hy
          left
          rw [hmemC]
          constructor
          · rw [alFind_isSome_iff]
            exact Closed.find_refs hc hix y hy
          · exact reach_tail hxreach ⟨ix, hix, hy⟩
      have hdC : kR ∈ C := (hmemC kR).mpr ⟨hRdom, Relation.ReflTransGen.refl⟩
      have hcard : (C \ ∅).card < fuelOf mp := by
        have h1 : C.card ≤ (mp.map.map Prod.fst).toFinset.card :=
          Finset.card_le_card (Finset.filter_subset _ _)
        have h2 : (mp.map.map Prod.fst).toFinset.card ≤ (mp.map.map Prod.fst).length :=
          List.toFinset_card_le _
        have h3 : (mp.map.map Prod.fst).length = mp.map.length := List.length_map _ _
        rw [Finset.sdiff_empty, fuelOf]
        omega
      obtain ⟨V', hV'lo, hV'C, hdV', heq, hsat⟩ :=
        propagate_group_flood (fuelOf mp) mp kL iL C ∅ kR hs hL hsC hCx
          (Finset.empty_subset C) (Or.inl hdC) hcard
      rw [rewriteOn_empty] at heq
      have hcomplete : ∀ k, Reach mp kR k → k ∈ V' := by
        intro k hk
        refine reach_closed_subset ?_ hk (hdV' hdC)
        intro x y hxV' hedge
        obtain ⟨ix, hix, hy⟩ := hedge
        rcases hsat x hxV' with hx0 | hsatx
        · exact absurd hx0 (Finset.not_mem_empty x)
        · rcases hsatx ix hix y hy with h4 | h4
          · exact h4
          · -- a blocked neighbor contradicts uniformity of the component
            exfalso
            obtain ⟨iy, hiy, hgy⟩ := h4
            have hyreach : Reach mp kR y :=
              reach_tail ((hmemC x).mp (hV'C hxV')).2 ⟨ix, hix, hy⟩
            have := (huni y iy hiy hyreach).1
            rw [this] at hgy
            exact hcase hgy.symm
      intro k hk
      have hkV' : k ∈ V' := hcomplete k hk
      have hkdom : (alFind mp.map k).isSome = true :=
        reach_mem_dom hc hk hRdom
      obtain ⟨ik, hik⟩ := Option.isSome_iff_exists.mp hkdom
      have hmid : alFind (propagate_group (fuelOf mp) mp kR kL).map k
          = some (rwInfo iL.group_id iL.ptr ik) := by
        rw [heq, alFind_rewriteOn, if_pos hkV', hik]
        rfl
      have hmidL : alFind (propagate_group (fuelOf mp) mp kR kL).map kL = some iL := by
        have hLV' : kL ∉ V' := fun h => hsC (hV'C h)
        rw [heq, alFind_rewriteOn, if_neg hLV', hL]
      have hproj := link_vars_proj (propagate_group (fuelOf mp) mp kR kL) kL kR
      obtain ⟨ik', hik'⟩ : ∃ i',
          alFind (link_vars (propagate_group (fuelOf mp) mp kR kL) kL kR).map k = some i' := by
        have := (hproj k).2.2.1
        rw [hmid] at this
        cases hfin : alFind (link_vars (propagate_group (fuelOf mp) mp kR kL) kL kR).map k with
        | none => rw [hfin] at this; simp at this
        | some v => exact ⟨v, rfl⟩
      have hgfin : ik'.group_id = iL.group_id := by
        have := (hproj k).2.2.1
        rw [hmid, hik'] at this
        simpa [rwInfo] using this
      have hpfin : ik'.ptr = iL.ptr := by
        have := (hproj k).2.2.2
        rw [hmid, hik'] at this
        simpa [rwInfo] using this
      obtain ⟨jL, hjL⟩ : ∃ j,
          alFind (link_vars (propagate_group (fuelOf mp) mp kR kL) kL kR).map kL = some j := by
        have := (hproj kL).2.2.1
        rw [hmidL] at this
        cases hfin : alFind (link_vars (propagate_group (fuelOf mp) mp kR kL) kL kR).map kL with
        | none => rw [hfin] at this; simp at this
        | some v => exact ⟨v, rfl⟩
      have hpjL : jL.ptr = iL.ptr := by
        have := (hproj kL).2.2.2
        rw [hmidL, hjL] at this
        simpa using this
      exact ⟨ik', hik', hgfin, hpfin,
        get_eq_of_ptr hik' hjL (by rw [hpfin, hpjL])⟩
  · constructor
    · decide
    · decide

/-- Witness for `C2_bind_merges` at Scenario A: slots `1` (payload `100`,
standing for `0.1`) and `2` (payload `0`), no prior links; after the bind,
slot `2` carries slot `1`'s group and storage and reads `100`. -/
theorem C2_bind_merges_witness :
    ∃ i', alFind (bind scenarioA 1 2).2.map 2 = some i' ∧
      i'.group_id = 1 ∧ i'.ptr = some 0 ∧
      get 0 (bind scenarioA 1 2).2 2 = get 0 (bind scenarioA 1 2).2 1 := by
  have hf1 : alFind scenarioA.map 1 = some ⟨some 0, 1, 1, some 0, 0, 0, [], []⟩ := by decide
  have hf2 : alFind scenarioA.map 2 = some ⟨some 1, 2, 2, some 0, 0, 0, [], []⟩ := by decide
  have h2refs : ∀ i, alFind scenarioA.map 2 = some i → i.refs = [] := by
    intro i hi
    rw [hf2] at hi
    injection hi with h
    rw [← h]
  have hdomA : scenarioA.map.map Prod.fst = [1, 2] := by decide
  have hmain := (C2_bind_merges.1 scenarioA 1 2
    ⟨some 0, 1, 1, some 0, 0, 0, [], []⟩ ⟨some 1, 2, 2, some 0, 0, 0, [], []⟩
    (by decide) (by decide) hf1 hf2 (by decide)
    (fun k i hf hr => by
      have hk := reach_of_empty_refs h2refs k hr
      subst hk
      rw [hf2] at hf
      injection hf with h
      rw [← h]
      exact ⟨rfl, rfl⟩)
    (fun k i hf hg => by
      have hmem : k ∈ scenarioA.map.map Prod.fst := by
        rw [← alFind_isSome_iff, hf]
        rfl
      rw [hdomA] at hmem
      have hk : k = 1 ∨ k = 2 := by simpa using hmem
      rcases hk with rfl | rfl
      · rw [hf1] at hf
        injection hf with h
        rw [← h]
      · rw [hf2] at hf
        injection hf with h
        rw [← h] at hg
        simp at hg)).2 2 Relation.ReflTransGen.refl
  exact hmain


/-- C6.  Symmetry of the reference sets is an invariant of every mutating
operation: starting from a well-formed registry (sorted map, key-consistent,
closed, symmetric, ordered reference sets), the registry produced by
`create`, `bind`, `unbind`, `unbind_all`, `remove`, `remove_all` or
`isolate`, with any arguments, is again symmetric.  Moreover every
successful `bind mp a b` (any of the three non-failure statuses) leaves
`b` in slot `a`'s references and `a` in slot `b`'s references; after
`unbind mp a b` neither surviving slot references the other; and after
`remove mp k` the key `k` is absent and no slot references it. -/
theorem C6_symmetry_invariant (mp : var_map_t) (hwf : WF mp) :
    (∀ t key v ow, Symm (create t mp key v ow).2) ∧
    (∀ a b, Symm (bind mp a b).2) ∧
    (∀ a b, Symm (unbind mp a b)) ∧
    Symm (unbind_all mp) ∧
    (∀ k, Symm (remove mp k)) ∧
    Symm (remove_all mp) ∧
    (∀ k, Symm (isolate mp k)) ∧
    (∀ a b, ((bind mp a b).1 = bind_t.BIND_PROPAGATED_LHS_GROUP ∨
        (bind mp a b).1 = bind_t.BIND_CREATED_LHS ∨
        (bind mp a b).1 = bind_t.BIND_CREATED_RHS) →
      ∀ iA iB, alFind (bind mp a b).2.map a = some iA →
        alFind (bind mp a b).2.map b = some iB →
        b ∈ iA.refs ∧ a ∈ iB.refs) ∧
    (∀ a b iA iB, alFind (unbind mp a b).map a = some iA →
      alFind (unbind mp a b).map b = some iB →
      b ∉ iA.refs ∧ a ∉ iB.refs) ∧
    (∀ k, alFind (remove mp k).map k = none ∧
      ∀ e ∈ (remove mp k).map, k ∉ (e : Nat × info_t).2.refs) := by
  obtain ⟨hs, hkc, hc, hsym, hro⟩ := hwf
  refine ⟨fun t key v ow => create_symm t mp key v ow hs hkc hc hsym hro,
    fun a b => bind_symm mp a b hs hkc hc hsym,
    fun a b => (unbind_preserves mp a b hs hkc hc hsym hro).1,
    unbind_all_symm mp hs,
    fun k => (remove_spec mp k hs hkc hc hsym hro).1,
    ?_,
    fun k => isolate_symm mp k hs hkc hc hsym hro,
    fun a b hsucc => bind_links mp a b hs hkc hc hsucc,
    fun a b => (unbind_preserves mp a b hs hkc hc hsym hro).2,
    fun k => (remove_spec mp k hs hkc hc hsym hro).2⟩
  intro e he
  exact absurd he (List.not_mem_nil e)

/-- Witness for `C6_symmetry_invariant` on the concrete two-slot bound
registry `pairReg`: the well-formedness hypothesis holds by computation, and
the theorem yields symmetry of the registries after `unbind 1 2` and after
`unbind_all`. -/
theorem C6_symmetry_invariant_witness :
    WF pairReg ∧ (Symm (unbind pairReg 1 2) ∧ Symm (unbind_all pairReg)) :=
  ⟨by decide, ⟨(C6_symmetry_invariant pairReg (by decide)).2.2.1 1 2,
    (C6_symmetry_invariant pairReg (by decide)).2.2.2.1⟩⟩

end Shared
